import Mathlib

/-!
# Bearer-token gate of `security/uaa`

A shallow embedding of `security/uaa/auth.go`: the key store (`New`,
`LoadUaaKeys`, `parseConfigString`, `GetSupportedAlgorythms`), the handler wrapper
`Protected` with its key-lookup function, and the scope check
(`extractClaimSet`, `checkRequiredScopes`); of the helper of
`security/uaa/uaahelper.go` (`IsValidToken`, `GetTokenResponse`, `GetBearerToken`)
and the basic authenticator of `security/uaa/basicauth.go`; in the namespace
`Errors`, of the error values of `errors/errors.go`; and, in the namespace
`Handler`, of `HandlerFuncChain` and `AccessControlHandler` of
`handler/middleware.go` and `HasContentType` of `handler/transport.go`.

Conventions of the embedding.

* A Go `map` is an association list with unique keys (`goMapSet` overwrites in
  place, `goMapGet` looks a key up); a `nil` map is `none`.
* A Go result pair `(value, error)` is a Lean pair whose second component is an
  `Option GoError` (`none` is the `nil` error).
* Code outside the repository (`encoding/json`, `jwt-go`, `fmt`, `net/http`, `mime`,
  `os`) is taken as a parameter, collected in the structures `Libs` and `NetLibs`.
* What a handler does is a `Run`: the events its own code produced, in order, and
  whether it ended in a run-time panic.
-/

set_option autoImplicit false

namespace Uaa

/-! ## Go values -/

/-- A Go `error` value, identified by its message. -/
structure GoError where
  msg : String
deriving DecidableEq, Repr

/-- The type `rsa.PublicKey`: modulus and public exponent. -/
structure PublicKey where
  N : Nat
  E : Nat
deriving DecidableEq, Repr

/-- Values of type `interface{}` as `encoding/json` produces them: `nil`, `bool`,
`float64` (kept as its decimal text), `string`, `[]interface{}` and
`map[string]interface{}`. -/
inductive JValue where
  | null : JValue
  | bool (b : Bool) : JValue
  | num (text : String) : JValue
  | str (s : String) : JValue
  | arr (items : List JValue) : JValue
  | obj (fields : List (String × JValue)) : JValue

/-- Assignment `m[k] = v` on a Go map. -/
def goMapSet {κ ν : Type} [DecidableEq κ] : List (κ × ν) → κ → ν → List (κ × ν)
  | [], k, v => [(k, v)]
  | (k', v') :: rest, k, v =>
    if k' = k then (k, v) :: rest else (k', v') :: goMapSet rest k v

/-- Lookup `v, ok := m[k]` on a Go map: `none` when `ok` is false. -/
def goMapGet {κ ν : Type} [DecidableEq κ] : List (κ × ν) → κ → Option ν
  | [], _ => none
  | (k', v') :: rest, k => if k' = k then some v' else goMapGet rest k

/-! ## Strings -/

/-- Worker of `Split`: `acc` holds the current part, reversed. -/
def splitAux (sep : Char) : List Char → List Char → List String
  | [], acc => [String.mk acc.reverse]
  | c :: cs, acc =>
    if c = sep then String.mk acc.reverse :: splitAux sep cs [] else splitAux sep cs (c :: acc)

/-- The call `strings.Split(s, sep)` for a one-character separator: the parts
between the occurrences of `sep`, one more than there are occurrences. -/
def Split (s : String) (sep : Char) : List String :=
  splitAux sep s.data []

/-- The call `strings.ToLower(s)`. Letters outside ASCII are left alone here; Go
maps them too, but none of them to a letter of the word bearer, the only word the
result is compared with. -/
def ToLower (s : String) : String :=
  String.mk (s.data.map Char.toLower)

/-! ## HTTP -/

/-- The bytes `net/textproto` accepts in a header field name. -/
def validHeaderFieldByte (c : Char) : Bool :=
  c.isAlphanum || c.toNat ∈ [33, 35, 36, 37, 38, 39, 42, 43, 45, 46, 94, 95, 96, 124, 126]

/-- Worker of `CanonicalMIMEHeaderKey`: upper case at the start and after a
hyphen, lower case elsewhere. -/
def canonicalAux : Bool → List Char → List Char
  | _, [] => []
  | upper, c :: cs =>
    (if upper then c.toUpper else c.toLower) :: canonicalAux (decide (c = '-')) cs

/-- The function `textproto.CanonicalMIMEHeaderKey`: a name with a byte that is
not valid in a field name is returned unchanged. -/
def CanonicalMIMEHeaderKey (s : String) : String :=
  if s.data.all validHeaderFieldByte then String.mk (canonicalAux true s.data) else s

/-- The type `http.Header`, a map from canonical field names to their values. -/
abbrev Header := List (String × List String)

/-- The method `Header.Get`: the first value stored under the canonical form of
`key`, the empty string when there is none. -/
def Header.Get (h : Header) (key : String) : String :=
  match goMapGet h (CanonicalMIMEHeaderKey key) with
  | some (v :: _) => v
  | _ => ""

/-- The part of `http.Request` the package reads. -/
structure Request where
  Method : String := "GET"
  Header : Header := []
deriving DecidableEq, Repr

/-- An `http.ResponseWriter`, identified by the object behind the interface. -/
structure ResponseWriter where
  ident : Nat
deriving DecidableEq, Repr

/-- A handler function `func(http.ResponseWriter, *http.Request)` passed to
`Protected`, identified by name: the wrapper only ever calls it. -/
structure HandlerFunc where
  name : String
deriving DecidableEq, Repr

/-- The constant `http.StatusForbidden`. -/
def StatusForbidden : Nat := 403

/-- What the code of this package does to the outside, one event per call. -/
inductive Event where
  /-- A call of the logger: `logger.Error`, `logger.Info` or `logger.Debug`. -/
  | log (level : String) (message : String) : Event
  /-- The call `auth.bodyLoader(url)`. -/
  | bodyLoader (url : String) : Event
  /-- The call `w.WriteHeader(status)`. -/
  | WriteHeader (w : ResponseWriter) (status : Nat) : Event
  /-- The call `w.Write(body)`. -/
  | Write (w : ResponseWriter) (body : String) : Event
  /-- The call `w.Header().Set(key, value)`. -/
  | SetHeader (w : ResponseWriter) (key value : String) : Event
  /-- The call `f(w, r)` of a wrapped handler, with everything that handler does. -/
  | call (f : HandlerFunc) (w : ResponseWriter) (r : Request) : Event
deriving DecidableEq, Repr

/-- True for the calls of the logger. -/
def Event.isLog : Event → Bool
  | Event.log _ _ => true
  | _ => false

/-- One execution of a handler: its events in order, and whether it ended in a
run-time panic instead of returning. -/
structure Run where
  events : List Event
  panicked : Bool
deriving DecidableEq, Repr

/-- The events of a run other than log lines. -/
def Run.effects (run : Run) : List Event :=
  run.events.filter (fun e => !e.isLog)

/-! ## Tokens -/

/-- The interface `jwt.Claims` with the dynamic types a token can carry: a
`jwt.MapClaims`, or some other implementation. -/
inductive Claims where
  | MapClaims (m : List (String × JValue)) : Claims
  | other : Claims

/-- The type `jwt.Token`. -/
structure Token where
  Raw : String
  Method : String
  Header : List (String × JValue)
  Claims : Claims
  Signature : String
  Valid : Bool

/-- The type `jwt.Keyfunc`: the key to verify a token with, or an error. -/
abbrev Keyfunc := Token → Option PublicKey × Option GoError

/-! ## Key documents -/

/-- The struct `uaaKey`. -/
structure uaaKey where
  Alg : String
  Value : String
deriving DecidableEq, Repr

/-- The struct `uaaKeysResponse`. -/
structure uaaKeysResponse where
  Keys : List uaaKey
deriving DecidableEq, Repr

/-- The type `keyMapping`, from algorithm identifier to public key. -/
abbrev keyMapping := List (String × PublicKey)

/-- The type `BodyLoader`. -/
abbrev BodyLoader := String → String × Option GoError

/-- The struct `authInternal`; `uaaKeys` is `none` for the `nil` map. -/
structure authInternal where
  uaaKeys : Option keyMapping
  bodyLoader : BodyLoader

/-- The library functions the package calls. -/
structure Libs where
  /-- `json.NewDecoder(strings.NewReader(data)).Decode(&keyData)`. -/
  jsonDecode : String → Except GoError uaaKeysResponse
  /-- `jwt.ParseRSAPublicKeyFromPEM`. -/
  ParseRSAPublicKeyFromPEM : String → Except GoError PublicKey
  /-- `jwt.Parse`: the token and the error it returns, either of which can be `nil`. -/
  jwtParse : String → Keyfunc → Option Token × Option GoError
  /-- `fmt.Sprintf("%s", v)` for a number, a sequence or an object. -/
  fmtOther : JValue → String

/-- The call `fmt.Sprintf("%s", v)` on a decoded JSON value: a string is printed
as it is, `nil` and booleans as the bad-verb forms of `fmt`. -/
def Sprintf_s (lib : Libs) : JValue → String
  | JValue.str s => s
  | JValue.null => "%!s(<nil>)"
  | JValue.bool true => "%!s(bool=true)"
  | JValue.bool false => "%!s(bool=false)"
  | v => lib.fmtOther v

/-! ## The key store -/

/-- The default body loader `HTTPGetBodyAsString`, an HTTP GET; what the network
answers is the parameter `http`. -/
def HTTPGetBodyAsString (http : String → String × Option GoError) : BodyLoader :=
  http

/-- The function `New`: the first optional body loader when there is one, the HTTP
loader otherwise, and no keys. -/
def New (http : String → String × Option GoError) (optionalBodyLoader : List BodyLoader) :
    authInternal :=
  match optionalBodyLoader with
  | [] => { uaaKeys := none, bodyLoader := HTTPGetBodyAsString http }
  | first :: _ => { uaaKeys := none, bodyLoader := first }

/-- The loop of `parseConfigString` over `keyData.Keys`, with the mapping built so
far: the first entry whose PEM value fails to parse ends it with `nil` and the
error. -/
def parseKeyItems (lib : Libs) :
    List uaaKey → keyMapping → (Option keyMapping × Option GoError) × List Event
  | [], uaaKeys => ((some uaaKeys, none), [])
  | keyItem :: rest, uaaKeys =>
    match lib.ParseRSAPublicKeyFromPEM keyItem.Value with
    | Except.error keyParsingErr =>
      ((none, some keyParsingErr), [Event.log "error" "Parsing UAA key failed"])
    | Except.ok uaaKey => parseKeyItems lib rest (goMapSet uaaKeys keyItem.Alg uaaKey)

/-- The function `parseConfigString`. -/
def parseConfigString (lib : Libs) (data : String) :
    (Option keyMapping × Option GoError) × List Event :=
  match lib.jsonDecode data with
  | Except.error jsonErr =>
    ((none, some jsonErr), [Event.log "error" "Parsing UAA response JSON failed"])
  | Except.ok keyData => parseKeyItems lib keyData.Keys []

/-- What a call of `LoadUaaKeys` leaves behind: the Gate after the call, the error
returned, and the events of the call. -/
structure LoadResult where
  auth : authInternal
  err : Option GoError
  events : List Event

/-- The method `LoadUaaKeys`. -/
def LoadUaaKeys (lib : Libs) (auth : authInternal) (uaaURL : String) : LoadResult :=
  let url := uaaURL ++ "/token_keys"
  match auth.bodyLoader url with
  | (_, some loadErr) => { auth := auth, err := some loadErr, events := [Event.bodyLoader url] }
  | (data, none) =>
    match parseConfigString lib data with
    | ((_, some parseErr), evs) =>
      { auth := auth, err := some parseErr, events := Event.bodyLoader url :: evs }
    | ((uaaKeysLocal, none), evs) =>
      { auth := { auth with uaaKeys := uaaKeysLocal },
        err := none,
        events := Event.bodyLoader url :: evs ++
          [Event.log "info" "Successfuly loaded UAA keys, the service is operational"] }

/-- The method `GetSupportedAlgorythms`: the keys of the mapping, in the order the
model stores them (Go iterates a map in no fixed order). -/
def GetSupportedAlgorythms (auth : authInternal) : List String :=
  match auth.uaaKeys with
  | none => []
  | some m => m.foldl (fun result entry => result ++ [entry.1]) []

/-! ## Scopes -/

/-- The type `claimSet`, a `map[string]bool`. -/
abbrev claimSet := List (String × Bool)

/-- The function `extractClaimSet`: when the `scope` claim is a sequence, every
string of it is entered, and every other element is entered as `fmt` prints it
with `%s`; in all other cases the set stays empty. -/
def extractClaimSet (lib : Libs) (claims : List (String × JValue)) : claimSet :=
  match goMapGet claims "scope" with
  | some (JValue.arr castedScopes) =>
    castedScopes.foldl
      (fun set scope =>
        match scope with
        | JValue.str castedScope => goMapSet set castedScope true
        | castedScope => goMapSet set (Sprintf_s lib castedScope) true)
      []
  | _ => []

/-- The loop of `checkRequiredScopes`: it returns at the first required scope that
is not a key of the claim set. -/
def checkScopesLoop (set : claimSet) : List String → (Bool × Option GoError) × List Event
  | [] => ((true, none), [])
  | requiredScope :: rest =>
    match goMapGet set requiredScope with
    | none => ((false, none), [Event.log "debug" "Required scope not present on token"])
    | some _ => checkScopesLoop set rest

/-- The function `checkRequiredScopes`. -/
def checkRequiredScopes (lib : Libs) (requiredScopes : List String) (token : Token) :
    (Bool × Option GoError) × List Event :=
  match token.Claims with
  | Claims.MapClaims claims => checkScopesLoop (extractClaimSet lib claims) requiredScopes
  | Claims.other => ((false, some ⟨"The token had no valid scopes data embeded"⟩), [])

/-! ## The wrapper -/

/-- The key-lookup closure `keyFunc` that `Protected` hands to `jwt.Parse`. -/
def keyFunc (auth : authInternal) : Keyfunc := fun token =>
  match goMapGet token.Header "alg" with
  | some (JValue.str alg) =>
    match goMapGet (auth.uaaKeys.getD []) alg with
    | some key => (some key, none)
    | none => (none, some ⟨"No key found for alg " ++ alg⟩)
  | _ => (none, some ⟨"No algorythm found on the token"⟩)

/-- How the nested conditionals of the wrapper end: with the `return` after the call
of the protected function, by falling through to the final `WriteHeader`, or in a
run-time panic. -/
inductive Flow where
  | returned (events : List Event) : Flow
  | fellThrough (events : List Event) : Flow
  | panic (events : List Event) : Flow
deriving DecidableEq, Repr

/-- The nested conditionals of the function literal that `Protected` returns, up to
but not including the final `w.WriteHeader(http.StatusForbidden)`.

In the branch of an invalid token the log context is built from the method value
`err.Error`: evaluating it on a `nil` error panics, and so does `token.Valid` on a
`nil` token when the error is `nil` too. -/
def protectedFlow (lib : Libs) (auth : authInternal) (requiredScopes : List String)
    (protectedFunc : HandlerFunc) (w : ResponseWriter) (r : Request) : Flow :=
  match auth.uaaKeys with
  | none =>
    Flow.fellThrough [Event.log "error" "Trying to use an uninitialized authentication context"]
  | some uaaKeys =>
    if uaaKeys.length = 0 then
      Flow.fellThrough
        [Event.log "error" "Trying to use an uninitialized authentication context"]
    else
      let authorization := r.Header.Get "authorization"
      if authorization = "" then
        Flow.fellThrough [Event.log "debug" "No authorization header was present"]
      else
        match Split authorization ' ' with
        | [scheme, tokenString] =>
          if ToLower scheme ≠ "bearer" then
            Flow.fellThrough [Event.log "debug"
              "The provided Authorization header value does not match the expectations"]
          else
            match lib.jwtParse tokenString (keyFunc auth) with
            | (_, some _) => Flow.fellThrough [Event.log "debug" "The token was invalid"]
            | (none, none) => Flow.panic []
            | (some token, none) =>
              if token.Valid = false then Flow.panic []
              else
                match checkRequiredScopes lib requiredScopes token with
                | ((hasScopes, scopesError), evs) =>
                  if scopesError.isSome || !hasScopes then
                    Flow.fellThrough (evs ++
                      [Event.log "debug" "The token did not have all the required scopes"])
                  else
                    Flow.returned (evs ++
                      [Event.log "debug" "The token was valid having all required scopes",
                       Event.call protectedFunc w r])
        | _ =>
          Flow.fellThrough [Event.log "debug"
            "The provided Authorization header value does not match the expectations"]

/-- The handler that `Protected(requiredScopes, protectedFunc)` returns, run on the
state `auth` the Gate has when the handler is invoked. -/
def Protected (lib : Libs) (auth : authInternal) (requiredScopes : List String)
    (protectedFunc : HandlerFunc) (w : ResponseWriter) (r : Request) : Run :=
  match protectedFlow lib auth requiredScopes protectedFunc w r with
  | Flow.returned events => { events := events, panicked := false }
  | Flow.fellThrough events =>
    { events := events ++ [Event.WriteHeader w StatusForbidden], panicked := false }
  | Flow.panic events => { events := events, panicked := true }

/-! ## What the claims speak of -/

/-- A run that ends in the denial: it returns normally, and apart from log lines the
one thing it does is `w.WriteHeader(403)`, so the protected function is not
called, no body is written and no header is set. -/
def Denied (w : ResponseWriter) (run : Run) : Prop :=
  run.panicked = false ∧ run.effects = [Event.WriteHeader w StatusForbidden]

/-- A run that grants: it returns normally, and apart from log lines the one thing it
does is the call `protectedFunc(w, r)`. -/
def Granted (protectedFunc : HandlerFunc) (w : ResponseWriter) (r : Request) (run : Run) :
    Prop :=
  run.panicked = false ∧ run.effects = [Event.call protectedFunc w r]

/-- The scope set of a claim map: the keys of the claim set the code builds. -/
def scopeSet (lib : Libs) (claims : List (String × JValue)) : List String :=
  (extractClaimSet lib claims).map Prod.fst

/-- The strings of the `scope` claim: the string elements of the sequence, nothing
when the claim is absent or is not a sequence. -/
def scopeStrings (claims : List (String × JValue)) : List String :=
  match goMapGet claims "scope" with
  | some (JValue.arr items) =>
    items.filterMap (fun v => match v with
      | JValue.str s => some s
      | _ => none)
  | _ => []

/-- The entries of the `scope` claim as the code reads them: each element of the
sequence printed with `%s`, which leaves a string as it is. -/
def scopeEntries (lib : Libs) (claims : List (String × JValue)) : List String :=
  match goMapGet claims "scope" with
  | some (JValue.arr items) => items.map (Sprintf_s lib)
  | _ => []

/-- The four conditions under which the wrapper calls the protected function: keys
are loaded; the Authorization value splits on spaces into two parts, the first of
which lowercases to bearer; `jwt.Parse` on the second part, with `keyFunc`, returns
no error and a valid token; the claims of that token are a claim map whose scope set
holds every required scope. -/
def GrantCondition (lib : Libs) (auth : authInternal) (requiredScopes : List String)
    (r : Request) : Prop :=
  (∃ uaaKeys, auth.uaaKeys = some uaaKeys ∧ uaaKeys ≠ []) ∧
  ∃ scheme tokenString,
    Split (r.Header.Get "authorization") ' ' = [scheme, tokenString] ∧
    ToLower scheme = "bearer" ∧
    ∃ token claims,
      lib.jwtParse tokenString (keyFunc auth) = (some token, none) ∧
      token.Valid = true ∧
      token.Claims = Claims.MapClaims claims ∧
      ∀ s ∈ requiredScopes, s ∈ scopeSet lib claims

/-- The guarantee of `jwt.Parse` that a `nil` error comes with a token, and that this
token is marked valid. -/
def NilErrorMeansValid (lib : Libs) : Prop :=
  ∀ (tokenString : String) (kf : Keyfunc),
    (lib.jwtParse tokenString kf).2 = none →
      ∃ token, (lib.jwtParse tokenString kf).1 = some token ∧ token.Valid = true

/-- The guarantee of `jwt.Parse` that it returns a token with a `nil` error only
after the key function, called on the token with that header, returned no error. -/
def KeyfuncConsulted (lib : Libs) : Prop :=
  ∀ (tokenString : String) (kf : Keyfunc) (token : Token),
    lib.jwtParse tokenString kf = (some token, none) →
      ∃ seen : Token, seen.Header = token.Header ∧ (kf seen).2 = none

/-! ## A small instance

Stand-ins for the libraries, used to run the code on concrete inputs: one key
document, one PEM text, and three token strings. -/

/-- The public key of the sample document. -/
def sampleKey : PublicKey := { N := 3233, E := 17 }

/-- The token behind the string `signed`: RS256, scopes `admin` and `user`. -/
def sampleToken : Token :=
  { Raw := "signed", Method := "RS256",
    Header := [("alg", JValue.str "RS256"), ("typ", JValue.str "JWT")],
    Claims := Claims.MapClaims
      [("name", JValue.str "Jon Snow"),
       ("scope", JValue.arr [JValue.str "admin", JValue.str "user"])],
    Signature := "sig", Valid := false }

/-- A claim map whose `scope` sequence holds a string and a boolean. -/
def mixedClaims : List (String × JValue) :=
  [("scope", JValue.arr [JValue.str "read", JValue.bool true])]

/-- A token with the claims `mixedClaims`. -/
def mixedToken : Token :=
  { sampleToken with Raw := "mixed", Claims := Claims.MapClaims mixedClaims }

/-- A stand-in for `jwt.Parse` that works as the library does: decode, ask the key
function, verify against the key, and only then mark the token valid. -/
def sampleJwtParse (tokenString : String) (kf : Keyfunc) : Option Token × Option GoError :=
  let decoded : Option Token :=
    if tokenString = "signed" then some sampleToken
    else if tokenString = "mixed" then some mixedToken
    else if tokenString = "forged" then some { sampleToken with Raw := "forged" }
    else none
  match decoded with
  | none => (none, some ⟨"token contains an invalid number of segments"⟩)
  | some token =>
    match kf token with
    | (_, some e) => (some token, some e)
    | (none, none) => (some token, some ⟨"key is of invalid type"⟩)
    | (some key, none) =>
      if key = sampleKey ∧ token.Raw ≠ "forged" then (some { token with Valid := true }, none)
      else (some token, some ⟨"crypto/rsa: verification error"⟩)

/-- Stand-ins for the libraries. -/
def sampleLibs : Libs :=
  { jsonDecode := fun data =>
      if data = "one key" then Except.ok { Keys := [{ Alg := "RS256", Value := "pem" }] }
      else if data = "bad second key" then
        Except.ok { Keys := [{ Alg := "RS256", Value := "pem" }, { Alg := "RS512", Value := "x" }] }
      else if data = "no keys" then Except.ok { Keys := [] }
      else Except.error ⟨"invalid character"⟩,
    ParseRSAPublicKeyFromPEM := fun pem =>
      if pem = "pem" then Except.ok sampleKey
      else Except.error ⟨"Invalid Key: Key must be PEM encoded PKCS1 or PKCS8 private key"⟩,
    jwtParse := sampleJwtParse,
    fmtOther := fun _ => "%!s(?)" }

/-- A body loader that answers every URL with the one-key document. -/
def sampleLoader : BodyLoader := fun _ => ("one key", none)

/-- A Gate that holds the key of the sample document. -/
def loadedGate : authInternal :=
  { uaaKeys := some [("RS256", sampleKey)], bodyLoader := sampleLoader }

/-- A request whose Authorization header has the given value. -/
def requestWith (authorization : String) : Request :=
  { Header := [("Authorization", [authorization])] }

/-- The handler the examples protect. -/
def sampleHandler : HandlerFunc := { name := "handler" }

/-- The response writer of the examples. -/
def sampleWriter : ResponseWriter := { ident := 0 }

/-- A claim map whose `scope` either is no sequence or is a sequence of strings
only. -/
def ScopeOfStrings (claims : List (String × JValue)) : Prop :=
  ∀ items, goMapGet claims "scope" = some (JValue.arr items) →
    ∀ v ∈ items, ∃ s, v = JValue.str s

/-- A run that ends without the protected function having been called and without a
panic. -/
def EndsInDenial (protectedFunc : HandlerFunc) (w : ResponseWriter) (r : Request)
    (run : Run) : Prop :=
  run.panicked = false ∧ Event.call protectedFunc w r ∉ run.events

/-- A Gate that holds the sample key under RS512 only. -/
def rotatedGate : authInternal :=
  { uaaKeys := some [("RS512", sampleKey)], bodyLoader := sampleLoader }

/-- A body loader that answers with a document whose second key does not decode. -/
def brokenLoader : BodyLoader := fun _ => ("bad second key", none)

/-! ## What the claims on loading and on the scheme check speak of -/

/-- The last entry of a key document that carries the algorithm `alg`: the first one
met when the entries are read from the end. -/
def lastEntry (items : List uaaKey) (alg : String) : Option uaaKey :=
  items.reverse.find? (fun item => decide (item.Alg = alg))

/-- The key a document registers under `alg`: the decoded PEM value of the last entry
that carries `alg`, nothing when no entry does. -/
def documentKey (lib : Libs) (items : List uaaKey) (alg : String) : Option PublicKey :=
  match lastEntry items alg with
  | none => none
  | some item =>
    match lib.ParseRSAPublicKeyFromPEM item.Value with
    | Except.ok key => some key
    | Except.error _ => none

/-- A use of a Gate: a call of one of the methods of the interface `Auth`, or the
invocation of a handler that `Protected` returned. -/
inductive Call where
  | load (uaaURL : String) : Call
  | protect (requiredScopes : List String) (protectedFunc : HandlerFunc) : Call
  | invoke (requiredScopes : List String) (protectedFunc : HandlerFunc) (w : ResponseWriter)
      (r : Request) : Call
  | algorithms : Call

/-- True for the calls of `LoadUaaKeys`. -/
def Call.isLoad : Call → Bool
  | Call.load _ => true
  | _ => false

/-- The Gate after a call. `LoadUaaKeys` is the one method with an assignment to a
field of the Gate; `Protected`, the function literal it returns and
`GetSupportedAlgorythms` only read `auth.uaaKeys`. -/
def Call.gateAfter (lib : Libs) (auth : authInternal) : Call → authInternal
  | Call.load uaaURL => (LoadUaaKeys lib auth uaaURL).auth
  | Call.protect _ _ => auth
  | Call.invoke _ _ _ _ => auth
  | Call.algorithms => auth

/-- The Gate after a sequence of calls, made one after the other. -/
def gateAfterCalls (lib : Libs) (auth : authInternal) (calls : List Call) : authInternal :=
  calls.foldl (Call.gateAfter lib) auth

/-- Whether `LoadUaaKeys(uaaURL)` returns no error on this Gate. -/
def loadSucceeds (lib : Libs) (auth : authInternal) (uaaURL : String) : Bool :=
  (LoadUaaKeys lib auth uaaURL).err.isNone

/-- The text of a header value before its first space, all of it when there is no
space. -/
def beforeFirstSpace (a : String) : String :=
  String.mk (a.data.takeWhile (fun c => decide (c ≠ ' ')))

/-- The text of a header value after its first space. -/
def afterFirstSpace (a : String) : String :=
  String.mk ((a.data.dropWhile (fun c => decide (c ≠ ' '))).drop 1)

/-- The scheme check of the wrapper on a header value: `some` of the token string it
hands to `jwt.Parse`, `none` when the value is refused. -/
def schemeCheck (authorization : String) : Option String :=
  match Split authorization ' ' with
  | [scheme, tokenString] => if ToLower scheme = "bearer" then some tokenString else none
  | _ => none

/-- Stand-ins for the libraries with a `jwt.Parse` that accepts the text `a b` as a
valid token, and a key document `two keys` that carries RS256 twice. -/
def spaceLibs : Libs :=
  { sampleLibs with
    jsonDecode := fun data =>
      if data = "two keys" then
        Except.ok { Keys := [{ Alg := "RS256", Value := "old pem" },
                             { Alg := "RS512", Value := "pem" },
                             { Alg := "RS256", Value := "pem" }] }
      else sampleLibs.jsonDecode data,
    ParseRSAPublicKeyFromPEM := fun pem =>
      if pem = "old pem" then Except.ok { N := 3127, E := 3 }
      else sampleLibs.ParseRSAPublicKeyFromPEM pem,
    jwtParse := fun tokenString kf =>
      if tokenString = "a b" then (some { sampleToken with Raw := "a b", Valid := true }, none)
      else sampleJwtParse tokenString kf }

/-- A body loader that answers by URL: the one-key document, the document without
keys, the document with RS256 twice, and a transport error elsewhere. -/
def urlLoader : BodyLoader := fun url =>
  if url = "http://one/token_keys" then ("one key", none)
  else if url = "http://none/token_keys" then ("no keys", none)
  else if url = "http://two/token_keys" then ("two keys", none)
  else if url = "http://bad/token_keys" then ("bad second key", none)
  else ("", some ⟨"Received HTTP error status code 404"⟩)

/-! ## The wrapper as a program on the Gate -/

/-- What the protected functions do to the Gate when they are called: they are code
outside this package, and one of them may hold the Gate and call its methods. -/
abbrev GateEffect := HandlerFunc → ResponseWriter → Request → authInternal → authInternal

/-- The nested conditionals of the function literal that `Protected` returns, as a
program on the state of the Gate, statement by statement. A `get` is a read of the
field `auth.uaaKeys`: the literal reads it in its first condition, and `keyFunc`
reads it again when `jwt.Parse` calls it. The literal has no assignment to a field
of `auth`; the one statement after which the Gate can differ is the call
`protectedFunc(w, r)`. -/
def protectedFlowM (lib : Libs) (inner : GateEffect) (requiredScopes : List String)
    (protectedFunc : HandlerFunc) (w : ResponseWriter) (r : Request) :
    StateM authInternal Flow := do
  let auth ← get
  match auth.uaaKeys with
  | none =>
    pure (Flow.fellThrough
      [Event.log "error" "Trying to use an uninitialized authentication context"])
  | some uaaKeys =>
    if uaaKeys.length = 0 then
      pure (Flow.fellThrough
        [Event.log "error" "Trying to use an uninitialized authentication context"])
    else
      let authorization := r.Header.Get "authorization"
      if authorization = "" then
        pure (Flow.fellThrough [Event.log "debug" "No authorization header was present"])
      else
        match Split authorization ' ' with
        | [scheme, tokenString] =>
          if ToLower scheme ≠ "bearer" then
            pure (Flow.fellThrough [Event.log "debug"
              "The provided Authorization header value does not match the expectations"])
          else
            let seen ← get
            match lib.jwtParse tokenString (keyFunc seen) with
            | (_, some _) => pure (Flow.fellThrough [Event.log "debug" "The token was invalid"])
            | (none, none) => pure (Flow.panic [])
            | (some token, none) =>
              if token.Valid = false then pure (Flow.panic [])
              else
                match checkRequiredScopes lib requiredScopes token with
                | ((hasScopes, scopesError), evs) =>
                  if scopesError.isSome || !hasScopes then
                    pure (Flow.fellThrough (evs ++
                      [Event.log "debug" "The token did not have all the required scopes"]))
                  else do
                    modify (inner protectedFunc w r)
                    pure (Flow.returned (evs ++
                      [Event.log "debug" "The token was valid having all required scopes",
                       Event.call protectedFunc w r]))
        | _ =>
          pure (Flow.fellThrough [Event.log "debug"
            "The provided Authorization header value does not match the expectations"])

/-- The function literal that `Protected` returns, as a program on the state of the
Gate: the conditionals, then the final `w.WriteHeader(http.StatusForbidden)` when
they fell through. -/
def ProtectedM (lib : Libs) (inner : GateEffect) (requiredScopes : List String)
    (protectedFunc : HandlerFunc) (w : ResponseWriter) (r : Request) :
    StateM authInternal Run := do
  match (← protectedFlowM lib inner requiredScopes protectedFunc w r) with
  | Flow.returned events => pure { events := events, panicked := false }
  | Flow.fellThrough events =>
    pure { events := events ++ [Event.WriteHeader w StatusForbidden], panicked := false }
  | Flow.panic events => pure { events := events, panicked := true }

/-- The method `Protected` itself, as a program on the state of the Gate: its body is
the one statement `return func(w, r) ...`, which builds the function literal and
runs none of it. -/
def ProtectedCall (lib : Libs) (inner : GateEffect) (requiredScopes : List String)
    (protectedFunc : HandlerFunc) :
    StateM authInternal (ResponseWriter → Request → StateM authInternal Run) :=
  pure (ProtectedM lib inner requiredScopes protectedFunc)

/-- A call of `Protected` followed by one invocation of the handler it returned: the
arguments of the call, and the writer and the request of the invocation. -/
structure Invocation where
  requiredScopes : List String
  protectedFunc : HandlerFunc
  w : ResponseWriter
  r : Request

/-- Calls of `Protected`, each followed by an invocation of the handler it returned,
made one after the other on the same Gate; the result lists the runs. -/
def invokeAll (lib : Libs) (inner : GateEffect) :
    List Invocation → StateM authInternal (List Run)
  | [] => pure []
  | c :: rest => do
    let handler ← ProtectedCall lib inner c.requiredScopes c.protectedFunc
    let run ← handler c.w c.r
    let runs ← invokeAll lib inner rest
    pure (run :: runs)

end Uaa

namespace Errors

/-! ## Package `errors` -/

/-- The type `errors.errorString` of the standard library, the value behind the
`error` interface that `errors.New` returns. -/
structure errorString where
  s : String
deriving DecidableEq, Repr

/-- The method `Error` of `errorString`. -/
def errorString.Error (e : errorString) : String :=
  e.s

/-- The function `errors.New` of the standard library. -/
def stdNew (text : String) : errorString :=
  { s := text }

/-- What `HandleError` returns and does: the `error` returned, `none` being `nil`,
and the lines it hands to `logger.Error`. -/
structure Handled where
  err : Option errorString
  logged : List String
deriving DecidableEq, Repr

/-- The function `HandleError`. -/
def HandleError (errMessage : String) : Handled :=
  let err := stdNew errMessage
  { err := some err, logged := [err.Error] }

/-- The function `NewError`. -/
def NewError (msg : String) : Option errorString :=
  some (stdNew msg)

/-- The struct `Error`; `Status` is a Go `int`. -/
structure Error where
  /-- The field `Type`, a reserved word here. -/
  Typ : String := ""
  Id : String := ""
  Status : Int := 0
  Description : String := ""
deriving DecidableEq, Repr

/-- The constant `BAD_REQUEST`. -/
def BAD_REQUEST : String := "bad_request"

/-- The constant `UNAUTHORIZED`. -/
def UNAUTHORIZED : String := "unauthorized"

/-- The constant `MSG_UNAUTHORIZED`. -/
def MSG_UNAUTHORIZED : String :=
  "The authorization token does not seem to get you access at the moment. Please contact admin"

/-- The constant `NO_ACCESS_TOKEN_PROVIDED`. -/
def NO_ACCESS_TOKEN_PROVIDED : String := "no_authorization_token_provided"

/-- The value behind the pointer `ErrBadRequest`; its status is `http.StatusBadRequest`. -/
def ErrBadRequest : Error :=
  { Id := BAD_REQUEST, Status := 400, Description := NO_ACCESS_TOKEN_PROVIDED }

/-- The value behind the pointer `ErrUnauthorized`; its status is
`http.StatusUnauthorized`. -/
def ErrUnauthorized : Error :=
  { Id := UNAUTHORIZED, Status := 401, Description := MSG_UNAUTHORIZED }

end Errors

namespace Uaa

/-! ## The UAA helper and the basic authenticator -/

/-- The part of an outgoing `http.Request` the helper sets: method, URL, body and the
header fields in the order they were added. -/
structure OutRequest where
  Method : String
  URL : String
  Body : String
  Header : List (String × String) := []
deriving DecidableEq, Repr

/-- The part of an `http.Response` the helper reads: the status code, the body, and
the error that reading the body gives, if any. -/
structure Response where
  StatusCode : Nat
  Body : String := ""
  ReadErr : Option GoError := none
deriving DecidableEq, Repr

/-- The struct `UaaTokenResponse`. -/
structure UaaTokenResponse where
  AccessToken : String := ""
  TokenType : String := ""
  RefreshToken : String := ""
  ExpiresIn : Int := 0
  Scope : String := ""
  Jti : String := ""
deriving DecidableEq, Repr

/-- The library functions and the surroundings that the helper, the basic
authenticator and the handlers of package `handler` call. -/
structure NetLibs where
  /-- The error of `url.Parse` inside `http.NewRequest`, `none` for a URL it accepts. -/
  urlError : String → Option GoError
  /-- `client.Do(req)`: the response, or a transport error. -/
  Do : OutRequest → Except GoError Response
  /-- `json.Unmarshal(body, &tokenErrResponse)` into a zero `Error`: what the struct
  holds afterwards, and the error returned. -/
  UnmarshalError : String → Errors.Error × Option GoError
  /-- `json.Unmarshal(body, &tokenResponse)` into a zero `UaaTokenResponse`: what the
  struct holds afterwards, which can be a part of the document when an error is
  returned, and the error. -/
  UnmarshalToken : String → UaaTokenResponse × Option GoError
  /-- The base64 encoding of `SetBasicAuth`. -/
  base64 : String → String
  /-- `r.BasicAuth()`: user name, password and whether the request carries Basic
  credentials. -/
  BasicAuth : Request → String × String × Bool
  /-- `httputil.DumpRequest(r, true)`. -/
  DumpRequest : Request → Except GoError String
  /-- `os.Getenv`. -/
  Getenv : String → String
  /-- `json.Marshal` of an `Error`. -/
  Marshal : Errors.Error → String
  /-- `mime.ParseMediaType`: the media type of an entry, or an error. -/
  ParseMediaType : String → Except GoError String

/-- The call `http.NewRequest(method, url, body)` for a valid method. -/
def NewRequest (net : NetLibs) (method url body : String) : Except GoError OutRequest :=
  match net.urlError url with
  | some err => Except.error err
  | none => Except.ok { Method := method, URL := url, Body := body }

/-- The method `Header.Add` on an outgoing request. -/
def OutRequest.Add (req : OutRequest) (key value : String) : OutRequest :=
  { req with Header := req.Header ++ [(key, value)] }

/-- The method `SetBasicAuth`: it sets the field `Authorization`. -/
def OutRequest.SetBasicAuth (net : NetLibs) (req : OutRequest) (username password : String) :
    OutRequest :=
  { req with
    Header := req.Header.filter (fun kv => kv.1 ≠ "Authorization") ++
      [("Authorization", "Basic " ++ net.base64 (username ++ ":" ++ password))] }

/-- The struct `UaaHelper`. -/
structure UaaHelper where
  address : String
  clientID : String
  clientSecret : String
deriving DecidableEq, Repr

/-- The function `NewUaaHelper`. -/
def NewUaaHelper (address clientID clientSecret : String) : UaaHelper :=
  { address := address, clientID := clientID, clientSecret := clientSecret }

/-- What a method of the helper returns and does: the values returned, and the
requests it sent with `Do`, in order. -/
structure Outcome (α : Type) where
  value : α
  sent : List OutRequest

/-- The method `GetTokenResponse`: the token response, the error, and the lines
logged are left out. Every return before the second `json.Unmarshal` returns the
zero `tokenResponse`. -/
def UaaHelper.GetTokenResponse (net : NetLibs) (u : UaaHelper) :
    Outcome (UaaTokenResponse × Option GoError) :=
  let tokenResponse : UaaTokenResponse := {}
  let payload := "grant_type=client_credentials&client_id=" ++ u.clientID
  let uri := u.address ++ "/oauth/token"
  match NewRequest net "POST" uri payload with
  | Except.error err => { value := (tokenResponse, some err), sent := [] }
  | Except.ok req0 =>
    let req := ((req0.SetBasicAuth net u.clientID u.clientSecret).Add "Content-Type"
      "application/x-www-form-urlencoded")
    match net.Do req with
    | Except.error err => { value := (tokenResponse, some err), sent := [req] }
    | Except.ok response =>
      match response.ReadErr with
      | some err => { value := (tokenResponse, some err), sent := [req] }
      | none =>
        match net.UnmarshalError response.Body with
        | (_, some err) => { value := (tokenResponse, some err), sent := [req] }
        | (tokenErrResponse, none) =>
          if tokenErrResponse.Typ ≠ "" then
            { value := (tokenResponse,
                some ⟨"token is invalid due to " ++ tokenErrResponse.Description⟩),
              sent := [req] }
          else
            match net.UnmarshalToken response.Body with
            | (halfDecoded, some err) => { value := (halfDecoded, some err), sent := [req] }
            | (decoded, none) => { value := (decoded, none), sent := [req] }

/-- The method `GetBearerToken`: the error of `GetTokenResponse` is printed and
dropped. -/
def UaaHelper.GetBearerToken (net : NetLibs) (u : UaaHelper) :
    Outcome (String × Option GoError) :=
  match u.GetTokenResponse net with
  | { value := (tokenResponse, _), sent := sent } =>
    { value := (tokenResponse.AccessToken, none), sent := sent }

/-- The method `IsValidToken`: the flag and the `Error` pointer returned, `none`
being the `nil` pointer. -/
def UaaHelper.IsValidToken (net : NetLibs) (u : UaaHelper) (token : String) :
    Outcome (Bool × Option Errors.Error) :=
  if token = "" then
    { value := (false, some Errors.ErrBadRequest), sent := [] }
  else
    match NewRequest net "POST" u.address ("token=" ++ token) with
    | Except.error _ => { value := (false, some Errors.ErrBadRequest), sent := [] }
    | Except.ok req0 =>
      let req := (req0.Add "Authorization" ("Basic " ++ u.clientSecret)).Add "Content-Type"
        "application/x-www-form-urlencoded"
      match net.Do req with
      | Except.error _ => { value := (false, some Errors.ErrUnauthorized), sent := [req] }
      | Except.ok resp =>
        if resp.StatusCode ≠ 200 then
          if resp.StatusCode = 401 then
            { value := (false, some Errors.ErrUnauthorized), sent := [req] }
          else
            { value := (false, some Errors.ErrUnauthorized), sent := [req] }
        else
          { value := (true, some {}), sent := [req] }

/-- The struct `BasicAuthenticator`. -/
structure BasicAuthenticator where
  username : String
  password : String
deriving DecidableEq, Repr

/-- The error `ErrInvalidCredFormat`. -/
def ErrInvalidCredFormat : GoError := ⟨"credentials not provided in the correct format"⟩

/-- The error `ErrInvalidCreds`. -/
def ErrInvalidCreds : GoError := ⟨"incorrect credentials provided"⟩

/-- The text `errStr` that `Wrap` logs: `fmt.Sprint` of the fixed words, the error
and the dump of the request, the empty text when the dump fails. -/
def credentialsError (net : NetLibs) (err : GoError) (r : Request) : String :=
  let strRequest := match net.DumpRequest r with
    | Except.ok dumpRequest => dumpRequest
    | Except.error _ => ""
  "credentials error" ++ " error:" ++ err.msg ++ " request:" ++ strRequest

/-- The constant `http.StatusUnauthorized`. -/
def StatusUnauthorized : Nat := 401

/-- The handler that `Wrap(handler)` returns. -/
def BasicAuthenticator.Wrap (net : NetLibs) (ba : BasicAuthenticator) (handler : HandlerFunc)
    (w : ResponseWriter) (r : Request) : Run :=
  match net.BasicAuth r with
  | (username, password, ok) =>
    if !ok then
      { events := [Event.SetHeader w "WWW-Authenticate" "Basic realm=Authorization Required",
                   Event.WriteHeader w StatusUnauthorized,
                   Event.log "error" (credentialsError net ErrInvalidCredFormat r)],
        panicked := false }
    else if username ≠ ba.username || password ≠ ba.password then
      { events := [Event.WriteHeader w StatusUnauthorized,
                   Event.log "error" (credentialsError net ErrInvalidCreds r)],
        panicked := false }
    else
      { events := [Event.call handler w r], panicked := false }

/-- Stand-ins for the network and the surroundings: the validation endpoint answers
200 to the token `good` and 401 to every other, token validation is switched on by
the environment, and an empty entry of a Content-Type list does not parse. -/
def sampleNet : NetLibs :=
  { urlError := fun url => if url = "::" then some ⟨"missing protocol scheme"⟩ else none,
    Do := fun req =>
      if req.URL = "http://down" then Except.error ⟨"connection refused"⟩
      else if req.Body = "token=good" then Except.ok { StatusCode := 200 }
      else Except.ok { StatusCode := 401 },
    UnmarshalError := fun _ => ({}, none),
    UnmarshalToken := fun body =>
      if body = "" then ({ AccessToken := "part" }, some ⟨"unexpected end of JSON input"⟩)
      else ({ AccessToken := body }, none),
    base64 := fun s => s,
    BasicAuth := fun r =>
      match goMapGet r.Header "Authorization" with
      | some ["Basic admin:secret"] => ("admin", "secret", true)
      | some ["Basic admin:wrong"] => ("admin", "wrong", true)
      | _ => ("", "", false),
    DumpRequest := fun _ => Except.ok "",
    Getenv := fun name =>
      if name = "TOKEN_VALIDATION" then "true"
      else if name = "TOKEN_VALIDATION_URL" then "http://uaa/check_token"
      else "",
    Marshal := fun e => e.Id,
    ParseMediaType := fun v =>
      if v = "" then Except.error ⟨"mime: no media type"⟩
      else if v = "application/json; charset=utf-8" then Except.ok "application/json"
      else Except.ok v }

/-- The surroundings of `sampleNet` with token validation switched off. -/
def openNet : NetLibs :=
  { sampleNet with Getenv := fun _ => "" }

end Uaa

namespace Handler

open Uaa

/-! ## Package `handler` -/

/-- A Go slice: its elements, and the elements of its array that lie between its
length and its capacity. -/
structure GoSlice (α : Type) where
  elems : List α
  spare : List α := []

/-- The length `len(h)`. -/
def GoSlice.len {α : Type} (h : GoSlice α) : Nat :=
  h.elems.length

/-- The capacity `cap(h)`. -/
def GoSlice.cap {α : Type} (h : GoSlice α) : Nat :=
  h.elems.length + h.spare.length

/-- The slice expression `h[1:cap(h)]` on a slice that is not empty: everything of
the array after the first element, up to the capacity. -/
def GoSlice.fromOneToCap {α : Type} (h : GoSlice α) : GoSlice α :=
  { elems := h.elems.tail ++ h.spare, spare := [] }

/-- The function `HandlerFuncChain` over handlers of type `α`. An entry of the chain
is a function value of type `handlerFunc`, `none` being the `nil` function, whose
call panics; the result is `none` when the call panics. -/
def HandlerFuncChain {α : Type} (f : α) (h : GoSlice (Option (α → α))) : Option α :=
  match hlen : h.elems with
  | [] => some f
  | h0 :: _ =>
    have : (h.elems.tail ++ h.spare).length < h.elems.length + h.spare.length := by
      simp [hlen]
    match HandlerFuncChain f h.fromOneToCap with
    | none => none
    | some inner =>
      match h0 with
      | none => none
      | some wrap => some (wrap inner)
termination_by h.elems.length + h.spare.length
decreasing_by
  simpa [GoSlice.fromOneToCap] using this

/-- The constant `ContentTypeHeader`. -/
def ContentTypeHeader : String := "Content-Type"

/-- The constant `JsonMediaType`. -/
def JsonMediaType : String := "application/json; charset=utf-8"

/-- The loop of `HasContentType` over the entries of the header: it stops at the
first entry that does not parse. -/
def hasContentTypeLoop (net : NetLibs) (mimeType : String) : List String → Bool
  | [] => false
  | v :: rest =>
    match net.ParseMediaType v with
    | Except.error _ => false
    | Except.ok t => if t = mimeType then true else hasContentTypeLoop net mimeType rest

/-- The function `HasContentType`. -/
def HasContentType (net : NetLibs) (r : Request) (mimeType : String) : Bool :=
  let contentType := r.Header.Get ContentTypeHeader
  if contentType = "" then
    decide (mimeType = JsonMediaType)
  else
    hasContentTypeLoop net mimeType (Split contentType ',')

/-- The three header fields that `AccessControlHandler` sets first. -/
def accessControlHeaders (w : ResponseWriter) : List Event :=
  [Event.SetHeader w "Access-Control-Allow-Origin" "*",
   Event.SetHeader w "Access-Control-Allow-Methods" "GET, POST, PUT, OPTIONS",
   Event.SetHeader w "Access-Control-Allow-Headers" "Origin, Content-Type,Authorization"]

/-- The handler that `AccessControlHandler(h)` returns. The requests that
`IsValidToken` sends are not among the events of the run; a `nil` error response
would make `errResponse.Status` panic. -/
def AccessControlHandler (net : NetLibs) (h : HandlerFunc) (w : ResponseWriter) (r : Request) :
    Run :=
  if r.Method = "OPTIONS" then
    { events := accessControlHeaders w, panicked := false }
  else if net.Getenv "TOKEN_VALIDATION" = "true" then
    let token := r.Header.Get "Authorization"
    let helper := NewUaaHelper (net.Getenv "TOKEN_VALIDATION_URL") "" (net.Getenv "Client_Credentials")
    match (helper.IsValidToken net token).value with
    | (true, _) => { events := accessControlHeaders w, panicked := false }
    | (false, none) => { events := accessControlHeaders w, panicked := true }
    | (false, some errResponse) =>
      { events := accessControlHeaders w ++
          [Event.WriteHeader w errResponse.Status.toNat, Event.Write w (net.Marshal errResponse)],
        panicked := false }
  else
    { events := accessControlHeaders w ++ [Event.call h w r], panicked := false }

/-- Two wrappers on handlers that are numbers, to run chains on. -/
def addOne : Nat → Nat := fun n => n + 1

/-- The second wrapper of the examples. -/
def double : Nat → Nat := fun n => 2 * n

end Handler

namespace Uaa

/-! ## Lemmas on maps, strings and scopes -/

theorem goMapGet_ne_none_iff {κ ν : Type} [DecidableEq κ] (m : List (κ × ν)) (k : κ) :
    goMapGet m k ≠ none ↔ k ∈ m.map Prod.fst := by
  induction m with
  | nil => simp [goMapGet]
  | cons p rest ih =>
    obtain ⟨k', v'⟩ := p
    by_cases hk : k' = k
    · simp [goMapGet, hk]
    · have hk' : ¬ k = k' := fun h => hk h.symm
      simp [goMapGet, hk, hk', ih]

theorem goMapGet_eq_none_iff {κ ν : Type} [DecidableEq κ] (m : List (κ × ν)) (k : κ) :
    goMapGet m k = none ↔ k ∉ m.map Prod.fst := by
  rw [← goMapGet_ne_none_iff]
  exact not_not.symm

theorem mem_keys_goMapSet {κ ν : Type} [DecidableEq κ] (m : List (κ × ν)) (k : κ) (v : ν)
    (x : κ) : x ∈ (goMapSet m k v).map Prod.fst ↔ x = k ∨ x ∈ m.map Prod.fst := by
  induction m with
  | nil => simp [goMapSet]
  | cons p rest ih =>
    obtain ⟨k', v'⟩ := p
    by_cases hk : k' = k
    · subst hk
      simp [goMapSet]
    · simp only [goMapSet, hk, if_false, List.map_cons, List.mem_cons, ih]
      tauto

/-- One step of the loop of `extractClaimSet` enters the element as `%s` prints it. -/
theorem extract_step (lib : Libs) (set : claimSet) (scope : JValue) :
    (match scope with
      | JValue.str castedScope => goMapSet set castedScope true
      | castedScope => goMapSet set (Sprintf_s lib castedScope) true)
      = goMapSet set (Sprintf_s lib scope) true := by
  cases scope <;> rfl

theorem mem_keys_extract_foldl (lib : Libs) (items : List JValue) (set : claimSet)
    (x : String) :
    x ∈ (items.foldl
          (fun set scope =>
            match scope with
            | JValue.str castedScope => goMapSet set castedScope true
            | castedScope => goMapSet set (Sprintf_s lib castedScope) true)
          set).map Prod.fst
      ↔ x ∈ set.map Prod.fst ∨ x ∈ items.map (Sprintf_s lib) := by
  induction items generalizing set with
  | nil => simp
  | cons v rest ih =>
    rw [List.foldl_cons, ih, extract_step, mem_keys_goMapSet]
    simp only [List.map_cons, List.mem_cons]
    tauto

/-- The scope set holds exactly the entries of the `scope` claim. -/
theorem mem_scopeSet_iff (lib : Libs) (claims : List (String × JValue)) (x : String) :
    x ∈ scopeSet lib claims ↔ x ∈ scopeEntries lib claims := by
  unfold scopeSet scopeEntries extractClaimSet
  split
  · rw [mem_keys_extract_foldl]
    simp
  · simp

theorem checkScopesLoop_events (set : claimSet) (req : List String) :
    (checkScopesLoop set req).2.filter (fun e => !e.isLog) = [] := by
  induction req with
  | nil => rfl
  | cons s rest ih =>
    unfold checkScopesLoop
    cases h : goMapGet set s with
    | none => rfl
    | some b => simpa using ih

theorem checkScopesLoop_err (set : claimSet) (req : List String) :
    (checkScopesLoop set req).1.2 = none := by
  induction req with
  | nil => rfl
  | cons s rest ih =>
    unfold checkScopesLoop
    cases h : goMapGet set s with
    | none => rfl
    | some b => simpa using ih

theorem checkScopesLoop_true_iff (set : claimSet) (req : List String) :
    (checkScopesLoop set req).1.1 = true ↔ ∀ s ∈ req, s ∈ set.map Prod.fst := by
  induction req with
  | nil => simp [checkScopesLoop]
  | cons s rest ih =>
    unfold checkScopesLoop
    cases h : goMapGet set s with
    | none =>
      have hs : s ∉ set.map Prod.fst := (goMapGet_eq_none_iff set s).1 h
      simp only [List.mem_cons, forall_eq_or_imp]
      constructor
      · intro hf
        exact absurd hf (by simp)
      · intro hall
        exact absurd hall.1 hs
    | some b =>
      have hs : s ∈ set.map Prod.fst :=
        (goMapGet_ne_none_iff set s).1 (by rw [h]; simp)
      simp only [List.mem_cons, forall_eq_or_imp]
      rw [ih]
      exact ⟨fun hr => ⟨hs, hr⟩, fun hr => hr.2⟩

theorem checkRequiredScopes_events (lib : Libs) (req : List String) (token : Token) :
    (checkRequiredScopes lib req token).2.filter (fun e => !e.isLog) = [] := by
  unfold checkRequiredScopes
  split
  · exact checkScopesLoop_events _ _
  · rfl

/-- The scope check passes exactly when the claims are a claim map whose scope set
holds every required scope. -/
theorem checkRequiredScopes_pass_iff (lib : Libs) (req : List String) (token : Token) :
    ((checkRequiredScopes lib req token).1.2 = none ∧
        (checkRequiredScopes lib req token).1.1 = true)
      ↔ ∃ claims, token.Claims = Claims.MapClaims claims ∧
          ∀ s ∈ req, s ∈ scopeSet lib claims := by
  unfold checkRequiredScopes
  cases hc : token.Claims with
  | MapClaims claims =>
    simp only [checkScopesLoop_err, true_and, checkScopesLoop_true_iff]
    constructor
    · intro h
      exact ⟨claims, rfl, h⟩
    · rintro ⟨claims', hcl, h⟩
      cases hcl
      exact h
  | other =>
    simp

/-! ## Lemmas on `Split` -/

theorem splitAux_head (sep : Char) (cs acc : List Char) :
    ∃ tail, splitAux sep cs acc
      = String.mk (acc.reverse ++ cs.takeWhile (fun c => decide (c ≠ sep))) :: tail ∧
      (sep ∉ cs → tail = []) := by
  induction cs generalizing acc with
  | nil => exact ⟨[], by simp [splitAux], fun _ => rfl⟩
  | cons c rest ih =>
    by_cases hc : c = sep
    · subst hc
      exact ⟨splitAux c rest [], by simp [splitAux], fun h => absurd (List.mem_cons_self _ _) h⟩
    · obtain ⟨tail, htail, hnil⟩ := ih (c :: acc)
      refine ⟨tail, ?_, ?_⟩
      · simp [splitAux, hc, htail]
      · intro h
        exact hnil (fun hmem => h (List.mem_cons_of_mem _ hmem))

/-- The first part of a split is the text before the first separator. -/
theorem Split_head (s : String) (sep : Char) :
    ∃ tail, Split s sep = String.mk (s.data.takeWhile (fun c => decide (c ≠ sep))) :: tail ∧
      (sep ∉ s.data → tail = []) := by
  simpa [Split] using splitAux_head sep s.data []

/-! ## The three ways a run of the wrapper can end -/

/-- Every run of the wrapper grants, denies or panics: it grants exactly under the
grant condition, and it panics only when `jwt.Parse` returned a `nil` error without
a token marked valid. -/
theorem Protected_cases (lib : Libs) (auth : authInternal) (requiredScopes : List String)
    (protectedFunc : HandlerFunc) (w : ResponseWriter) (r : Request) :
    (GrantCondition lib auth requiredScopes r ∧
        Granted protectedFunc w r (Protected lib auth requiredScopes protectedFunc w r)) ∨
    (¬ GrantCondition lib auth requiredScopes r ∧
        Denied w (Protected lib auth requiredScopes protectedFunc w r)) ∨
    (¬ GrantCondition lib auth requiredScopes r ∧
        Protected lib auth requiredScopes protectedFunc w r = { events := [], panicked := true } ∧
        ∃ scheme tokenString,
          Split (r.Header.Get "authorization") ' ' = [scheme, tokenString] ∧
          ToLower scheme = "bearer" ∧
          (lib.jwtParse tokenString (keyFunc auth)).2 = none ∧
          ∀ token, (lib.jwtParse tokenString (keyFunc auth)).1 = some token →
            token.Valid = false) := by
  cases hk : auth.uaaKeys with
  | none =>
    refine Or.inr (Or.inl ⟨?_, ?_⟩)
    · rintro ⟨⟨m, hm, _⟩, _⟩
      rw [hk] at hm
      cases hm
    · simp [Denied, Protected, protectedFlow, hk, Run.effects, Event.isLog]
  | some m =>
    by_cases hm : m.length = 0
    · refine Or.inr (Or.inl ⟨?_, ?_⟩)
      · rintro ⟨⟨m', hm', hne⟩, _⟩
        rw [hk] at hm'
        cases hm'
        exact hne (List.length_eq_zero.1 hm)
      · simp [Denied, Protected, protectedFlow, hk, hm, Run.effects, Event.isLog]
    · have hne : m ≠ [] := fun h => hm (by rw [h]; rfl)
      by_cases ha : r.Header.Get "authorization" = ""
      · refine Or.inr (Or.inl ⟨?_, ?_⟩)
        · rintro ⟨_, scheme, tokenString, hs, _⟩
          rw [ha] at hs
          cases hs
        · simp [Denied, Protected, protectedFlow, hk, hm, ha, Run.effects, Event.isLog]
      · rcases hs : Split (r.Header.Get "authorization") ' ' with
          _ | ⟨scheme, _ | ⟨tokenString, _ | ⟨third, rest⟩⟩⟩
        · refine Or.inr (Or.inl ⟨?_, ?_⟩)
          · rintro ⟨_, scheme', tokenString', hs', _⟩
            rw [hs] at hs'
            cases hs'
          · simp [Denied, Protected, protectedFlow, hk, hm, ha, hs, Run.effects, Event.isLog]
        · refine Or.inr (Or.inl ⟨?_, ?_⟩)
          · rintro ⟨_, scheme', tokenString', hs', _⟩
            rw [hs] at hs'
            cases hs'
          · simp [Denied, Protected, protectedFlow, hk, hm, ha, hs, Run.effects, Event.isLog]
        · by_cases hb : ToLower scheme = "bearer"
          · rcases hp : lib.jwtParse tokenString (keyFunc auth) with ⟨_ | token, _ | e⟩
            · refine Or.inr (Or.inr ⟨?_, ?_, scheme, tokenString, rfl, hb, ?_, ?_⟩)
              · rintro ⟨_, scheme', tokenString', hs', _, token', claims, hp', _⟩
                rw [hs] at hs'
                cases hs'
                rw [hp] at hp'
                cases hp'
              · simp [Protected, protectedFlow, hk, hm, ha, hs, hb, hp]
              · rw [hp]
              · intro token ht
                rw [hp] at ht
                cases ht
            · refine Or.inr (Or.inl ⟨?_, ?_⟩)
              · rintro ⟨_, scheme', tokenString', hs', _, token', claims, hp', _⟩
                rw [hs] at hs'
                cases hs'
                rw [hp] at hp'
                cases hp'
              · simp [Denied, Protected, protectedFlow, hk, hm, ha, hs, hb, hp, Run.effects,
                  Event.isLog]
            · cases hv : token.Valid with
              | false =>
                refine Or.inr (Or.inr ⟨?_, ?_, scheme, tokenString, rfl, hb, ?_, ?_⟩)
                · rintro ⟨_, scheme', tokenString', hs', _, token', claims, hp', hv', _⟩
                  rw [hs] at hs'
                  cases hs'
                  rw [hp] at hp'
                  cases hp'
                  rw [hv] at hv'
                  cases hv'
                · simp [Protected, protectedFlow, hk, hm, ha, hs, hb, hp, hv]
                · rw [hp]
                · intro token' ht
                  rw [hp] at ht
                  cases ht
                  exact hv
              | true =>
                have hev := checkRequiredScopes_events lib requiredScopes token
                have hpass := checkRequiredScopes_pass_iff lib requiredScopes token
                rcases hc : checkRequiredScopes lib requiredScopes token with
                  ⟨⟨hasScopes, scopesError⟩, evs⟩
                rw [hc] at hev hpass
                simp only at hev hpass
                have hlog := hev
                simp [Event.isLog] at hlog
                by_cases hok : scopesError = none ∧ hasScopes = true
                · obtain ⟨claims, hcl, hall⟩ := hpass.1 hok
                  obtain ⟨he, hh⟩ := hok
                  subst he hh
                  refine Or.inl ⟨⟨⟨m, hk, hne⟩, scheme, tokenString, hs, hb, token, claims,
                    hp, hv, hcl, hall⟩, ?_⟩
                  simp [Granted, Protected, protectedFlow, hk, hm, ha, hs, hb, hp, hv, hc,
                    Run.effects, Event.isLog, List.filter_append]
                  exact hlog
                · refine Or.inr (Or.inl ⟨?_, ?_⟩)
                  · rintro ⟨_, scheme', tokenString', hs', _, token', claims, hp', _, hcl, hall⟩
                    rw [hs] at hs'
                    cases hs'
                    rw [hp] at hp'
                    cases hp'
                    exact hok (hpass.2 ⟨claims, hcl, hall⟩)
                  · have hcond : (scopesError.isSome || !hasScopes) = true := by
                      cases scopesError <;> cases hasScopes <;> simp_all
                    simp [Denied, Protected, protectedFlow, hk, hm, ha, hs, hb, hp, hv, hc,
                      hcond, Run.effects, Event.isLog, List.filter_append]
                    exact hlog
            · refine Or.inr (Or.inl ⟨?_, ?_⟩)
              · rintro ⟨_, scheme', tokenString', hs', _, token', claims, hp', _⟩
                rw [hs] at hs'
                cases hs'
                rw [hp] at hp'
                cases hp'
              · simp [Denied, Protected, protectedFlow, hk, hm, ha, hs, hb, hp, Run.effects,
                  Event.isLog]
          · refine Or.inr (Or.inl ⟨?_, ?_⟩)
            · rintro ⟨_, scheme', tokenString', hs', hb', _⟩
              rw [hs] at hs'
              cases hs'
              exact hb hb'
            · simp [Denied, Protected, protectedFlow, hk, hm, ha, hs, hb, Run.effects,
                Event.isLog]
        · refine Or.inr (Or.inl ⟨?_, ?_⟩)
          · rintro ⟨_, scheme', tokenString', hs', _⟩
            rw [hs] at hs'
            cases hs'
          · simp [Denied, Protected, protectedFlow, hk, hm, ha, hs, Run.effects, Event.isLog]

theorem Denied_not_Granted (protectedFunc : HandlerFunc) (w : ResponseWriter) (r : Request)
    (run : Run) (hd : Denied w run) : ¬ Granted protectedFunc w r run := by
  rintro ⟨_, hg⟩
  rw [hd.2] at hg
  cases hg

theorem splitAux_singleton (sep : Char) (cs acc : List Char) (x : String)
    (h : splitAux sep cs acc = [x]) : x = String.mk (acc.reverse ++ cs) := by
  induction cs generalizing acc with
  | nil =>
    simp [splitAux] at h
    simp [← h]
  | cons c rest ih =>
    by_cases hc : c = sep
    · subst hc
      obtain ⟨tail, htail, _⟩ := splitAux_head c rest []
      simp [splitAux, htail] at h
    · simp only [splitAux, hc, if_false] at h
      simpa using ih (c :: acc) h

/-- Splitting the text `Bearer `, followed by `t`, gives two parts only when `t` is
the second of them. -/
theorem Split_bearer (t scheme tokenString : String)
    (h : Split ("Bearer " ++ t) ' ' = [scheme, tokenString]) : tokenString = t := by
  have hdata : ("Bearer " ++ t).data = 'B' :: 'e' :: 'a' :: 'r' :: 'e' :: 'r' :: ' ' :: t.data := by
    simp [String.data_append]
  have hsplit : Split ("Bearer " ++ t) ' ' = "Bearer" :: splitAux ' ' t.data [] := by
    unfold Split
    rw [hdata]
    simp [splitAux]
  rw [hsplit] at h
  have h2 : splitAux ' ' t.data [] = [tokenString] := by
    simpa using (List.cons.inj h).2
  simpa using splitAux_singleton ' ' t.data [] tokenString h2

/-- A header value that is empty, has no space, or starts with a part that does not
lowercase to bearer does not split into a bearer scheme and a token. -/
theorem no_bearer_split (a : String)
    (h : a = "" ∨ ' ' ∉ a.data ∨
      ToLower (String.mk (a.data.takeWhile (fun c => decide (c ≠ ' ')))) ≠ "bearer") :
    ¬ ∃ scheme tokenString, Split a ' ' = [scheme, tokenString] ∧ ToLower scheme = "bearer" := by
  rintro ⟨scheme, tokenString, hs, hb⟩
  obtain ⟨tail, htail, hnil⟩ := Split_head a ' '
  rw [htail] at hs
  rcases h with h | h | h
  · subst h
    have := hnil (by simp)
    subst this
    cases hs
  · have := hnil h
    subst this
    cases hs
  · have hsch := (List.cons.inj hs).1
    rw [hsch] at h
    exact h hb

theorem Get_absent (h : Header) (habs : goMapGet h "Authorization" = none) :
    Header.Get h "authorization" = "" := by
  have hc : CanonicalMIMEHeaderKey "authorization" = "Authorization" := by decide
  unfold Header.Get
  rw [hc, habs]

/-- The key function reads nothing of the token but its header. -/
theorem keyFunc_header (auth : authInternal) (t1 t2 : Token) (h : t1.Header = t2.Header) :
    keyFunc auth t1 = keyFunc auth t2 := by
  unfold keyFunc
  rw [h]

/-- The key function returns a key with no error, or an error with no key. -/
theorem keyFunc_shape (auth : authInternal) (token : Token) :
    (∃ k, keyFunc auth token = (some k, none)) ∨ (∃ e, keyFunc auth token = (none, some e)) := by
  unfold keyFunc
  split
  · split
    · exact Or.inl ⟨_, rfl⟩
    · exact Or.inr ⟨_, rfl⟩
  · exact Or.inr ⟨_, rfl⟩

theorem keyFunc_key_iff (auth : authInternal) (token : Token) (k : PublicKey) :
    keyFunc auth token = (some k, none) ↔
      ∃ a m, goMapGet token.Header "alg" = some (JValue.str a) ∧ auth.uaaKeys = some m ∧
        goMapGet m a = some k := by
  unfold keyFunc
  constructor
  · intro h
    split at h
    · rename_i alg halg
      split at h
      · rename_i key hkey
        cases h
        cases hu : auth.uaaKeys with
        | none =>
          rw [hu] at hkey
          simp [goMapGet] at hkey
        | some m =>
          rw [hu] at hkey
          exact ⟨alg, m, halg, rfl, by simpa using hkey⟩
      · cases h
    · cases h
  · rintro ⟨a, m, halg, hu, hk⟩
    rw [halg, hu]
    simp [hk]

theorem sampleLibs_nilErrorMeansValid : NilErrorMeansValid sampleLibs := by
  intro tokenString kf h
  simp only [sampleLibs, sampleJwtParse] at h ⊢
  split at h
  · simp at h
  · split at h
    · simp at h
    · simp at h
    · split at h
      · rename_i token _ _ key hkf hcond
        simp_all
      · simp at h

theorem sampleLibs_keyfuncConsulted : KeyfuncConsulted sampleLibs := by
  intro tokenString kf token h
  simp only [sampleLibs, sampleJwtParse] at h
  split at h
  · simp at h
  · rename_i tok _
    split at h
    · simp at h
    · simp at h
    · rename_i key hkf
      split at h
      · simp only [Prod.mk.injEq, Option.some.injEq, and_true] at h
        refine ⟨tok, ?_, ?_⟩
        · rw [← h]
        · rw [hkf]
      · simp at h

/-! ## The wrapper: grant and denial -/

/-- C1. The handler returned by `Protected` calls the protected function exactly
once, with the response writer and request it was given and doing nothing else to
the response, if and only if the grant condition holds for the keys the Gate has at
that moment: keys are loaded, the Authorization value splits on spaces into two
parts with the first lowercasing to bearer, `jwt.Parse` returns no error and a valid
token for the second, and the scope set of that token holds every required scope.
In every other case it ends in the 403 denial; there `jwt.Parse` is taken to keep
its guarantee that a `nil` error comes with a token marked valid. -/
theorem C1_protected_grants_iff (lib : Libs) (auth : authInternal)
    (requiredScopes : List String) (protectedFunc : HandlerFunc) (w : ResponseWriter)
    (r : Request) :
    (Granted protectedFunc w r (Protected lib auth requiredScopes protectedFunc w r) ↔
        GrantCondition lib auth requiredScopes r) ∧
    (NilErrorMeansValid lib → ¬ GrantCondition lib auth requiredScopes r →
        Denied w (Protected lib auth requiredScopes protectedFunc w r)) := by
  rcases Protected_cases lib auth requiredScopes protectedFunc w r with
    ⟨hc, hg⟩ | ⟨hc, hd⟩ | ⟨hc, hp, _, tokenString, _, _, herr, hinv⟩
  · exact ⟨⟨fun _ => hc, fun _ => hg⟩, fun _ hn => absurd hc hn⟩
  · exact ⟨⟨fun hg => absurd hg (Denied_not_Granted protectedFunc w r _ hd),
      fun h => absurd h hc⟩, fun _ _ => hd⟩
  · refine ⟨⟨fun hg => ?_, fun h => absurd h hc⟩, fun hlib _ => ?_⟩
    · rw [hp] at hg
      exact absurd hg.1 (by simp)
    · obtain ⟨token, htok, hvalid⟩ := hlib tokenString (keyFunc auth) herr
      rw [hinv token htok] at hvalid
      cases hvalid

/-- C1, on an instance: a forged token does not meet the grant condition and is
denied. -/
theorem C1_protected_grants_iff_witness :
    NilErrorMeansValid sampleLibs ∧
    ¬ GrantCondition sampleLibs loadedGate ["admin"] (requestWith "Bearer forged") ∧
    Denied sampleWriter
      (Protected sampleLibs loadedGate ["admin"] sampleHandler sampleWriter
        (requestWith "Bearer forged")) := by
  have hn : ¬ GrantCondition sampleLibs loadedGate ["admin"] (requestWith "Bearer forged") := by
    rintro ⟨_, scheme, tokenString, hs, _, token, claims, hp, _⟩
    have hsplit : Split ((requestWith "Bearer forged").Header.Get "authorization") ' '
        = ["Bearer", "forged"] := by decide
    rw [hsplit] at hs
    cases hs
    have herr : (sampleLibs.jwtParse "forged" (keyFunc loadedGate)).2 ≠ none := by decide
    rw [hp] at herr
    exact herr rfl
  exact ⟨sampleLibs_nilErrorMeansValid, hn,
    (C1_protected_grants_iff sampleLibs loadedGate ["admin"] sampleHandler sampleWriter
      (requestWith "Bearer forged")).2 sampleLibs_nilErrorMeansValid hn⟩

/-- C2. On a Gate whose key mapping is `nil` (as `New` leaves it) or holds no key,
every handler returned by `Protected` ends in the 403 denial without calling the
protected function, for every request and every list of required scopes. -/
theorem C2_no_keys_denied (lib : Libs) (auth : authInternal) (requiredScopes : List String)
    (protectedFunc : HandlerFunc) (w : ResponseWriter) (r : Request)
    (h : auth.uaaKeys = none ∨ auth.uaaKeys = some []) :
    Denied w (Protected lib auth requiredScopes protectedFunc w r) ∧
    ∀ (http : BodyLoader) (loaders : List BodyLoader),
      (New http loaders).uaaKeys = none ∧
      Denied w (Protected lib (New http loaders) requiredScopes protectedFunc w r) := by
  have key : ∀ a : authInternal, (a.uaaKeys = none ∨ a.uaaKeys = some []) →
      Denied w (Protected lib a requiredScopes protectedFunc w r) := by
    intro a ha
    rcases ha with ha | ha <;>
      simp [Denied, Protected, protectedFlow, ha, Run.effects, Event.isLog]
  refine ⟨key auth h, fun http loaders => ?_⟩
  have hnew : (New http loaders).uaaKeys = none := by
    cases loaders <;> rfl
  exact ⟨hnew, key _ (Or.inl hnew)⟩

/-- C2, on an instance: a Gate with an empty mapping denies a request whose token
verifies against the sample key. -/
theorem C2_no_keys_denied_witness :
    Denied sampleWriter
      (Protected sampleLibs { loadedGate with uaaKeys := some [] } [] sampleHandler
        sampleWriter (requestWith "Bearer signed")) :=
  (C2_no_keys_denied sampleLibs { loadedGate with uaaKeys := some [] } [] sampleHandler
    sampleWriter (requestWith "Bearer signed") (Or.inr rfl)).1

/-- C3. A request whose Authorization header is absent, is empty, has no space, or
has a first part that does not lowercase to bearer ends in the 403 denial and the
protected function is not called, whatever keys the Gate holds and whatever
follows the first part. -/
theorem C3_malformed_header_denied (lib : Libs) (auth : authInternal)
    (requiredScopes : List String) (protectedFunc : HandlerFunc) (w : ResponseWriter)
    (r : Request)
    (h : goMapGet r.Header "Authorization" = none ∨
      r.Header.Get "authorization" = "" ∨
      ' ' ∉ (r.Header.Get "authorization").data ∨
      ToLower (String.mk ((r.Header.Get "authorization").data.takeWhile
        (fun c => decide (c ≠ ' ')))) ≠ "bearer") :
    Denied w (Protected lib auth requiredScopes protectedFunc w r) := by
  have h' : r.Header.Get "authorization" = "" ∨
      ' ' ∉ (r.Header.Get "authorization").data ∨
      ToLower (String.mk ((r.Header.Get "authorization").data.takeWhile
        (fun c => decide (c ≠ ' ')))) ≠ "bearer" := by
    rcases h with h | h
    · exact Or.inl (Get_absent r.Header h)
    · exact h
  have hno := no_bearer_split (r.Header.Get "authorization") h'
  rcases Protected_cases lib auth requiredScopes protectedFunc w r with
    ⟨hc, _⟩ | ⟨_, hd⟩ | ⟨_, _, scheme, tokenString, hs, hb, _⟩
  · obtain ⟨_, scheme, tokenString, hs, hb, _⟩ := hc
    exact absurd ⟨scheme, tokenString, hs, hb⟩ hno
  · exact hd
  · exact absurd ⟨scheme, tokenString, hs, hb⟩ hno

/-- C3, on an instance: the scheme `Basic` is denied although the rest of the header
is a token that verifies. -/
theorem C3_malformed_header_denied_witness :
    ToLower (String.mk (((requestWith "Basic signed").Header.Get "authorization").data.takeWhile
        (fun c => decide (c ≠ ' ')))) ≠ "bearer" ∧
    Denied sampleWriter
      (Protected sampleLibs loadedGate [] sampleHandler sampleWriter
        (requestWith "Basic signed")) :=
  ⟨by decide,
   C3_malformed_header_denied sampleLibs loadedGate [] sampleHandler sampleWriter
    (requestWith "Basic signed") (Or.inr (Or.inr (Or.inr (by decide))))⟩

/-- For a header `Bearer <t>`, an error of `jwt.Parse` on `t` ends in the denial. -/
theorem parse_error_denied (lib : Libs) (auth : authInternal)
    (requiredScopes : List String) (protectedFunc : HandlerFunc) (w : ResponseWriter)
    (r : Request) (t : String)
    (hheader : r.Header.Get "authorization" = "Bearer " ++ t)
    (herr : (lib.jwtParse t (keyFunc auth)).2 ≠ none) :
    Denied w (Protected lib auth requiredScopes protectedFunc w r) := by
  rcases Protected_cases lib auth requiredScopes protectedFunc w r with
    ⟨hc, _⟩ | ⟨_, hd⟩ | ⟨_, _, scheme, tokenString, hs, _, hnone, _⟩
  · obtain ⟨_, scheme, tokenString, hs, _, token, claims, hp, _⟩ := hc
    rw [hheader] at hs
    have ht := Split_bearer t scheme tokenString hs
    subst ht
    rw [hp] at herr
    exact absurd rfl herr
  · exact hd
  · rw [hheader] at hs
    have ht := Split_bearer t scheme tokenString hs
    subst ht
    exact absurd hnone herr

/-- C4. For a header `Bearer <t>`: when `jwt.Parse` returns an error for `t`, the
wrapped handler ends in the 403 denial and the protected function is not called,
whatever the required scopes are, the empty list included; and so it does when the
token returned is not a valid one, `jwt.Parse` keeping its guarantee that a `nil`
error comes with a token marked valid. -/
theorem C4_invalid_token_denied (lib : Libs) (auth : authInternal)
    (requiredScopes : List String) (protectedFunc : HandlerFunc) (w : ResponseWriter)
    (r : Request) (t : String)
    (hheader : r.Header.Get "authorization" = "Bearer " ++ t) :
    ((lib.jwtParse t (keyFunc auth)).2 ≠ none →
        Denied w (Protected lib auth requiredScopes protectedFunc w r)) ∧
    (NilErrorMeansValid lib →
      (∀ token, (lib.jwtParse t (keyFunc auth)).1 = some token → token.Valid = false) →
        Denied w (Protected lib auth requiredScopes protectedFunc w r)) := by
  refine ⟨parse_error_denied lib auth requiredScopes protectedFunc w r t hheader,
    fun hlib hinvalid => ?_⟩
  apply parse_error_denied lib auth requiredScopes protectedFunc w r t hheader
  intro hnone
  obtain ⟨token, htok, hvalid⟩ := hlib t (keyFunc auth) hnone
  rw [hinvalid token htok] at hvalid
  cases hvalid

/-- C4, on an instance: the garbage token `abc`, for which `jwt.Parse` returns an
error, and the token `forged`, which it returns without marking it valid, are both
denied with no scope required. -/
theorem C4_invalid_token_denied_witness :
    (sampleLibs.jwtParse "abc" (keyFunc loadedGate)).2 ≠ none ∧
    Denied sampleWriter
      (Protected sampleLibs loadedGate [] sampleHandler sampleWriter
        (requestWith "Bearer abc")) ∧
    NilErrorMeansValid sampleLibs ∧
    (∀ token, (sampleLibs.jwtParse "forged" (keyFunc loadedGate)).1 = some token →
      token.Valid = false) ∧
    Denied sampleWriter
      (Protected sampleLibs loadedGate [] sampleHandler sampleWriter
        (requestWith "Bearer forged")) := by
  have hforged : ∀ token, (sampleLibs.jwtParse "forged" (keyFunc loadedGate)).1 = some token →
      token.Valid = false := by
    intro token h
    have hval : (sampleLibs.jwtParse "forged" (keyFunc loadedGate)).1
        = some { sampleToken with Raw := "forged" } := by rfl
    rw [hval] at h
    cases h
    rfl
  exact ⟨by decide,
    (C4_invalid_token_denied sampleLibs loadedGate [] sampleHandler sampleWriter
      (requestWith "Bearer abc") "abc" (by decide)).1 (by decide),
    sampleLibs_nilErrorMeansValid, hforged,
    (C4_invalid_token_denied sampleLibs loadedGate [] sampleHandler sampleWriter
      (requestWith "Bearer forged") "forged" (by decide)).2 sampleLibs_nilErrorMeansValid
      hforged⟩

/-- C5. The key function that `Protected` hands to `jwt.Parse` returns the key `k`
exactly when the header of the token has a string `alg` and the mapping of the Gate
holds `k` under that very `alg`; otherwise (no `alg`, an `alg` that is not a
string, an `alg` that is not registered) it returns an error and no key. A request
whose token has an `alg` without a registered key ends in the 403 denial, `jwt.Parse`
returning no valid token unless the key function gave it a key. -/
theorem C5_key_lookup_by_alg (lib : Libs) (auth : authInternal) (token : Token) :
    (∀ k, (keyFunc auth token).1 = some k ↔
      ∃ a m, goMapGet token.Header "alg" = some (JValue.str a) ∧ auth.uaaKeys = some m ∧
        goMapGet m a = some k) ∧
    ((¬ ∃ a m k, goMapGet token.Header "alg" = some (JValue.str a) ∧ auth.uaaKeys = some m ∧
        goMapGet m a = some k) →
      (keyFunc auth token).1 = none ∧ (keyFunc auth token).2 ≠ none) ∧
    (KeyfuncConsulted lib →
      ∀ (requiredScopes : List String) (protectedFunc : HandlerFunc) (w : ResponseWriter)
        (r : Request) (t : String),
        r.Header.Get "authorization" = "Bearer " ++ t →
        (lib.jwtParse t (keyFunc auth)).1 = some token →
        (∀ a m, goMapGet token.Header "alg" = some (JValue.str a) → auth.uaaKeys = some m →
          goMapGet m a = none) →
        Denied w (Protected lib auth requiredScopes protectedFunc w r)) := by
  have hkey : ∀ k, (keyFunc auth token).1 = some k ↔ keyFunc auth token = (some k, none) := by
    intro k
    rcases keyFunc_shape auth token with ⟨k', hk'⟩ | ⟨e, he⟩
    · rw [hk']
      simp
    · rw [he]
      simp
  refine ⟨fun k => ?_, fun hno => ?_, ?_⟩
  · rw [hkey, keyFunc_key_iff]
  · rcases keyFunc_shape auth token with ⟨k', hk'⟩ | ⟨e, he⟩
    · obtain ⟨a, m, h1, h2, h3⟩ := (keyFunc_key_iff auth token k').1 hk'
      exact absurd ⟨a, m, k', h1, h2, h3⟩ hno
    · rw [he]
      simp
  · intro hlib requiredScopes protectedFunc w r t hheader htok hunreg
    have hfail : (keyFunc auth token).2 ≠ none := by
      rcases keyFunc_shape auth token with ⟨k', hk'⟩ | ⟨e, he⟩
      · obtain ⟨a, m, h1, h2, h3⟩ := (keyFunc_key_iff auth token k').1 hk'
        rw [hunreg a m h1 h2] at h3
        cases h3
      · rw [he]
        simp
    have herr : (lib.jwtParse t (keyFunc auth)).2 ≠ none := by
      intro hnone
      have hpair : lib.jwtParse t (keyFunc auth) = (some token, none) := by
        rw [← htok, ← hnone]
      obtain ⟨seen, hseen, hok⟩ := hlib t (keyFunc auth) token hpair
      rw [keyFunc_header auth seen token hseen] at hok
      exact hfail hok
    exact parse_error_denied lib auth requiredScopes protectedFunc w r t hheader herr

/-- C5, on an instance: a Gate that holds a key under RS512 only denies an RS256
token, and its key function returns no key for it. -/
theorem C5_key_lookup_by_alg_witness :
    KeyfuncConsulted sampleLibs ∧
    (sampleLibs.jwtParse "signed" (keyFunc rotatedGate)).1 = some sampleToken ∧
    (keyFunc rotatedGate sampleToken).1 = none ∧
    Denied sampleWriter
      (Protected sampleLibs rotatedGate [] sampleHandler sampleWriter
        (requestWith "Bearer signed")) := by
  have hunreg : ∀ a m, goMapGet sampleToken.Header "alg" = some (JValue.str a) →
      rotatedGate.uaaKeys = some m → goMapGet m a = none := by
    intro a m ha hm
    have h1 : goMapGet sampleToken.Header "alg" = some (JValue.str "RS256") := by rfl
    rw [h1] at ha
    cases ha
    cases hm
    decide
  have hthm := C5_key_lookup_by_alg sampleLibs rotatedGate sampleToken
  exact ⟨sampleLibs_keyfuncConsulted, by rfl, by decide,
    hthm.2.2 sampleLibs_keyfuncConsulted [] sampleHandler sampleWriter
      (requestWith "Bearer signed") "signed" (by decide) (by rfl) hunreg⟩

/-! ## Scopes -/

theorem checkRequiredScopes_map (lib : Libs) (req : List String) (token : Token)
    (claims : List (String × JValue)) (h : token.Claims = Claims.MapClaims claims) :
    checkRequiredScopes lib req token = checkScopesLoop (extractClaimSet lib claims) req := by
  unfold checkRequiredScopes
  rw [h]

/-- On a claim map the scope check reports no error, and it answers true exactly
when every required scope is an entry of the `scope` claim. -/
theorem checkRequiredScopes_entries (lib : Libs) (req : List String) (token : Token)
    (claims : List (String × JValue)) (h : token.Claims = Claims.MapClaims claims) :
    (checkRequiredScopes lib req token).1.2 = none ∧
    ((checkRequiredScopes lib req token).1.1 = true ↔ ∀ s ∈ req, s ∈ scopeEntries lib claims) := by
  rw [checkRequiredScopes_map lib req token claims h]
  refine ⟨checkScopesLoop_err _ _, ?_⟩
  rw [checkScopesLoop_true_iff]
  constructor
  · intro hall s hs
    exact (mem_scopeSet_iff lib claims s).1 (hall s hs)
  · intro hall s hs
    exact (mem_scopeSet_iff lib claims s).2 (hall s hs)

theorem pair_eq_iff (p : Bool × Option GoError) (b : Bool) :
    p = (b, none) ↔ p.2 = none ∧ p.1 = b := by
  obtain ⟨x, y⟩ := p
  simp only [Prod.mk.injEq]
  tauto

/-- When every element of the `scope` sequence is a string, its entries are its
strings. -/
theorem scopeEntries_of_strings (lib : Libs) (claims : List (String × JValue))
    (h : ScopeOfStrings claims) : scopeEntries lib claims = scopeStrings claims := by
  unfold scopeEntries scopeStrings
  cases hs : goMapGet claims "scope" with
  | none => rfl
  | some v =>
    cases v with
    | arr items =>
      have hall := h items hs
      simp only
      clear hs h
      induction items with
      | nil => rfl
      | cons v rest ih =>
        obtain ⟨s, hv⟩ := hall v (List.mem_cons_self _ _)
        subst hv
        have ih' := ih (fun x hx => hall x (List.mem_cons_of_mem _ hx))
        simp only [List.map_cons, List.filterMap_cons, Sprintf_s, ih']
    | null => rfl
    | bool b => rfl
    | num t => rfl
    | str s => rfl
    | obj f => rfl

/-- C6, as stated, fails: the boolean element of the `scope` sequence of `mixedClaims`
is entered into the claim set as `fmt` prints it, so the required scope
`%!s(bool=true)` is found although it is not one of the strings of the claim. -/
theorem C6_counterexample :
    mixedToken.Claims = Claims.MapClaims mixedClaims ∧
    ¬ ((checkRequiredScopes sampleLibs ["%!s(bool=true)"] mixedToken).1 = (true, none) ↔
        ∀ s ∈ ["%!s(bool=true)"], s ∈ scopeStrings mixedClaims) := by
  refine ⟨rfl, fun h => ?_⟩
  have hmem := h.1 (by decide) "%!s(bool=true)" (List.mem_singleton.2 rfl)
  have hstr : scopeStrings mixedClaims = ["read"] := by rfl
  rw [hstr] at hmem
  revert hmem
  decide

/-- C6, amended. For a token whose claims are a claim map, `checkRequiredScopes`
returns (true, no error) if and only if every required scope is an entry of the
`scope` claim, an entry being an element of the sequence as `%s` prints it; it
returns (false, no error) when one is missing, and (true, no error) for the empty
list. When the sequence holds strings only, the entries are the strings of the
claim. -/
theorem C6_scopes_checked_against_entries (lib : Libs) (req : List String) (token : Token)
    (claims : List (String × JValue)) (h : token.Claims = Claims.MapClaims claims) :
    ((checkRequiredScopes lib req token).1 = (true, none) ↔
        ∀ s ∈ req, s ∈ scopeEntries lib claims) ∧
    ((∃ s ∈ req, s ∉ scopeEntries lib claims) →
        (checkRequiredScopes lib req token).1 = (false, none)) ∧
    (checkRequiredScopes lib [] token).1 = (true, none) ∧
    (ScopeOfStrings claims →
      ((checkRequiredScopes lib req token).1 = (true, none) ↔
        ∀ s ∈ req, s ∈ scopeStrings claims)) := by
  obtain ⟨herr, htrue⟩ := checkRequiredScopes_entries lib req token claims h
  have hiff : (checkRequiredScopes lib req token).1 = (true, none) ↔
      ∀ s ∈ req, s ∈ scopeEntries lib claims := by
    rw [pair_eq_iff, ← htrue]
    exact ⟨fun hh => hh.2, fun hh => ⟨herr, hh⟩⟩
  refine ⟨hiff, ?_, ?_, ?_⟩
  · rintro ⟨s, hs, hmiss⟩
    rw [pair_eq_iff]
    refine ⟨herr, ?_⟩
    cases hb : (checkRequiredScopes lib req token).1.1 with
    | false => rfl
    | true => exact absurd (htrue.1 hb s hs) hmiss
  · rw [checkRequiredScopes_map lib [] token claims h]
    rfl
  · intro hstr
    rw [hiff, scopeEntries_of_strings lib claims hstr]

/-- C6, on an instance: the sample token passes for `admin` and `user`. -/
theorem C6_scopes_checked_against_entries_witness :
    sampleToken.Claims = Claims.MapClaims
      [("name", JValue.str "Jon Snow"),
       ("scope", JValue.arr [JValue.str "admin", JValue.str "user"])] ∧
    ((checkRequiredScopes sampleLibs ["admin", "user"] sampleToken).1 = (true, none) ↔
      ∀ s ∈ ["admin", "user"], s ∈ scopeEntries sampleLibs
        [("name", JValue.str "Jon Snow"),
         ("scope", JValue.arr [JValue.str "admin", JValue.str "user"])]) :=
  ⟨rfl, (C6_scopes_checked_against_entries sampleLibs ["admin", "user"] sampleToken _ rfl).1⟩

/-- C7, as stated, fails: the `scope` sequence of `mixedClaims` contains a boolean, yet
the claim set built from it is not empty and the token passes the non-empty list of
required scopes `read`. -/
theorem C7_counterexample :
    goMapGet mixedClaims "scope" = some (JValue.arr [JValue.str "read", JValue.bool true]) ∧
    extractClaimSet sampleLibs mixedClaims = [("read", true), ("%!s(bool=true)", true)] ∧
    extractClaimSet sampleLibs mixedClaims ≠ [] ∧
    (checkRequiredScopes sampleLibs ["read"] mixedToken).1 = (true, none) := by
  refine ⟨rfl, by decide, by decide, by decide⟩

/-- C7, amended. For a claim map whose `scope` entry is absent or is not a sequence,
`extractClaimSet` returns the empty set and `checkRequiredScopes` reports no error,
so the token passes only an empty list of required scopes. For a sequence no error
is reported either, and the set holds one entry for each element, a string as it is
and any other element as `%s` prints it. -/
theorem C7_wrong_shaped_scope (lib : Libs) (claims : List (String × JValue)) (token : Token)
    (req : List String) (hc : token.Claims = Claims.MapClaims claims) :
    ((∀ items, goMapGet claims "scope" ≠ some (JValue.arr items)) →
      extractClaimSet lib claims = [] ∧
      (checkRequiredScopes lib req token).1.2 = none ∧
      ((checkRequiredScopes lib req token).1.1 = true ↔ req = [])) ∧
    (∀ items, goMapGet claims "scope" = some (JValue.arr items) →
      (checkRequiredScopes lib req token).1.2 = none ∧
      ∀ x, x ∈ scopeSet lib claims ↔ ∃ v ∈ items, x = Sprintf_s lib v) := by
  obtain ⟨herr, htrue⟩ := checkRequiredScopes_entries lib req token claims hc
  refine ⟨fun hshape => ?_, fun items hitems => ⟨herr, fun x => ?_⟩⟩
  · have hempty : extractClaimSet lib claims = [] := by
      unfold extractClaimSet
      split
      · rename_i castedScopes hs
        exact absurd hs (hshape castedScopes)
      · rfl
    have hentries : scopeEntries lib claims = [] := by
      unfold scopeEntries
      split
      · rename_i castedScopes hs
        exact absurd hs (hshape castedScopes)
      · rfl
    refine ⟨hempty, herr, ?_⟩
    rw [htrue, hentries]
    cases req with
    | nil => simp
    | cons s rest =>
      constructor
      · intro hall
        exact absurd (hall s (List.mem_cons_self _ _)) (List.not_mem_nil s)
      · intro hnil
        cases hnil
  · rw [mem_scopeSet_iff]
    unfold scopeEntries
    rw [hitems]
    simp only [List.mem_map]
    constructor
    · rintro ⟨v, hv, rfl⟩
      exact ⟨v, hv, rfl⟩
    · rintro ⟨v, hv, rfl⟩
      exact ⟨v, hv, rfl⟩

/-- C7, on an instance: a token whose `scope` claim is a single string has an empty
claim set. -/
theorem C7_wrong_shaped_scope_witness :
    (∀ items, goMapGet [("scope", JValue.str "admin")] "scope" ≠ some (JValue.arr items)) ∧
    extractClaimSet sampleLibs [("scope", JValue.str "admin")] = [] := by
  have hshape : ∀ items,
      goMapGet [("scope", JValue.str "admin")] "scope" ≠ some (JValue.arr items) := by
    intro items h
    have h1 : goMapGet [("scope", JValue.str "admin")] "scope" = some (JValue.str "admin") := by
      rfl
    rw [h1] at h
    cases h
  exact ⟨hshape,
    ((C7_wrong_shaped_scope sampleLibs [("scope", JValue.str "admin")]
      { sampleToken with Claims := Claims.MapClaims [("scope", JValue.str "admin")] }
      ["admin"] rfl).1 hshape).1⟩

/-! ## Panics and the shape of the denial -/

theorem Split_bearer_no_space (t : String) (h : ' ' ∉ t.data) :
    Split ("Bearer " ++ t) ' ' = ["Bearer", t] := by
  have hdata : ("Bearer " ++ t).data = 'B' :: 'e' :: 'a' :: 'r' :: 'e' :: 'r' :: ' ' :: t.data := by
    simp [String.data_append]
  have hsplit : Split ("Bearer " ++ t) ' ' = "Bearer" :: splitAux ' ' t.data [] := by
    unfold Split
    rw [hdata]
    simp [splitAux]
  obtain ⟨tail, htail, hnil⟩ := splitAux_head ' ' t.data []
  have hall : t.data.takeWhile (fun c => decide (c ≠ ' ')) = t.data := by
    rw [List.takeWhile_eq_self_iff]
    intro c hc
    have hne : c ≠ ' ' := fun hcs => h (hcs ▸ hc)
    simpa using hne
  rw [hsplit, htail, hnil h, hall]
  simp

/-- Outside the guarantee of `jwt.Parse`: were it to return a `nil` error together
with a token that is not marked valid, for a request with keys loaded and a header
`Bearer <t>`, the wrapper would enter the branch of the invalid token and panic
there on `err.Error`, the method value of a `nil` error. The statements on a token
that is not valid therefore rest on `NilErrorMeansValid`. -/
theorem nil_error_invalid_token_panics (lib : Libs) (auth : authInternal)
    (requiredScopes : List String) (protectedFunc : HandlerFunc) (w : ResponseWriter)
    (r : Request) (t : String) (token : Token) (uaaKeys : keyMapping)
    (hkeys : auth.uaaKeys = some uaaKeys) (hne : uaaKeys ≠ [])
    (hheader : r.Header.Get "authorization" = "Bearer " ++ t) (hspace : ' ' ∉ t.data)
    (hparse : lib.jwtParse t (keyFunc auth) = (some token, none))
    (hinvalid : token.Valid = false) :
    Protected lib auth requiredScopes protectedFunc w r = { events := [], panicked := true } := by
  have hlen : ¬ uaaKeys.length = 0 := fun h => hne (List.length_eq_zero.1 h)
  have hsplit := Split_bearer_no_space t hspace
  have hnonempty : ¬ ("Bearer " ++ t = "") := by
    intro h
    have := congrArg String.data h
    simp [String.data_append] at this
  have hlower : ToLower "Bearer" = "bearer" := by decide
  simp [Protected, protectedFlow, hkeys, hlen, hheader, hnonempty, hsplit, hlower, hparse,
    hinvalid]

/-- C8. With `jwt.Parse` keeping its guarantee that a `nil` error comes with a token
marked valid (a `nil` error with a token not marked valid, or with no token, is
then not among the outcomes it returns), the handler that `Protected` returns never
panics, for every Gate, every list of required scopes and every request: it
returns normally, and it either grants, which it does exactly under the grant
condition, or ends in the 403 denial. An error from `jwt.Parse` on the token of a
header `Bearer <t>` ends in the denial, the error that comes with a `nil` token
included. -/
theorem C8_failures_end_in_denial (lib : Libs) (auth : authInternal)
    (requiredScopes : List String) (protectedFunc : HandlerFunc) (w : ResponseWriter)
    (r : Request) (hlib : NilErrorMeansValid lib) :
    (Protected lib auth requiredScopes protectedFunc w r).panicked = false ∧
    ((GrantCondition lib auth requiredScopes r ∧
        Granted protectedFunc w r (Protected lib auth requiredScopes protectedFunc w r)) ∨
      (¬ GrantCondition lib auth requiredScopes r ∧
        Denied w (Protected lib auth requiredScopes protectedFunc w r))) ∧
    (∀ t, r.Header.Get "authorization" = "Bearer " ++ t →
      (lib.jwtParse t (keyFunc auth)).2 ≠ none →
        Denied w (Protected lib auth requiredScopes protectedFunc w r)) ∧
    (∀ t e, r.Header.Get "authorization" = "Bearer " ++ t →
      lib.jwtParse t (keyFunc auth) = (none, some e) →
        Denied w (Protected lib auth requiredScopes protectedFunc w r)) := by
  have hcases : (GrantCondition lib auth requiredScopes r ∧
        Granted protectedFunc w r (Protected lib auth requiredScopes protectedFunc w r)) ∨
      (¬ GrantCondition lib auth requiredScopes r ∧
        Denied w (Protected lib auth requiredScopes protectedFunc w r)) := by
    rcases Protected_cases lib auth requiredScopes protectedFunc w r with
      hg | hd | ⟨_, _, scheme, tokenString, _, _, hnone, hinvalid⟩
    · exact Or.inl hg
    · exact Or.inr hd
    · obtain ⟨token, htok, hvalid⟩ := hlib tokenString (keyFunc auth) hnone
      rw [hinvalid token htok] at hvalid
      cases hvalid
  refine ⟨?_, hcases, ?_, ?_⟩
  · rcases hcases with ⟨_, hg⟩ | ⟨_, hd⟩
    · exact hg.1
    · exact hd.1
  · intro t hheader herr
    exact parse_error_denied lib auth requiredScopes protectedFunc w r t hheader herr
  · intro t e hheader hparse
    apply parse_error_denied lib auth requiredScopes protectedFunc w r t hheader
    rw [hparse]
    simp

/-- C8, on an instance: the stand-in for `jwt.Parse` keeps the guarantee; it returns
an error with a `nil` token for `abc`, and the request with `Bearer abc` on the
loaded Gate returns normally and ends in the denial. -/
theorem C8_failures_end_in_denial_witness :
    NilErrorMeansValid sampleLibs ∧
    (sampleLibs.jwtParse "abc" (keyFunc loadedGate)).1.isNone = true ∧
    (Protected sampleLibs loadedGate ["admin"] sampleHandler sampleWriter
      (requestWith "Bearer abc")).panicked = false ∧
    Denied sampleWriter
      (Protected sampleLibs loadedGate ["admin"] sampleHandler sampleWriter
        (requestWith "Bearer abc")) :=
  ⟨sampleLibs_nilErrorMeansValid, rfl,
   (C8_failures_end_in_denial sampleLibs loadedGate ["admin"] sampleHandler sampleWriter
      (requestWith "Bearer abc") sampleLibs_nilErrorMeansValid).1,
   (C8_failures_end_in_denial sampleLibs loadedGate ["admin"] sampleHandler sampleWriter
      (requestWith "Bearer abc") sampleLibs_nilErrorMeansValid).2.2.2 "abc"
      ⟨"token contains an invalid number of segments"⟩ (by decide) rfl⟩

/-- C9. Any two runs of wrapped handlers that end in denial, whatever step failed in
each, do the same to the response writer: one `WriteHeader` call with status 403,
no body write and no header set. -/
theorem C9_denial_uniform (lib₁ lib₂ : Libs) (auth₁ auth₂ : authInternal)
    (scopes₁ scopes₂ : List String) (f₁ f₂ : HandlerFunc) (w : ResponseWriter)
    (r₁ r₂ : Request)
    (h₁ : EndsInDenial f₁ w r₁ (Protected lib₁ auth₁ scopes₁ f₁ w r₁))
    (h₂ : EndsInDenial f₂ w r₂ (Protected lib₂ auth₂ scopes₂ f₂ w r₂)) :
    (Protected lib₁ auth₁ scopes₁ f₁ w r₁).effects = [Event.WriteHeader w StatusForbidden] ∧
    (Protected lib₂ auth₂ scopes₂ f₂ w r₂).effects = [Event.WriteHeader w StatusForbidden] ∧
    (Protected lib₁ auth₁ scopes₁ f₁ w r₁).effects
      = (Protected lib₂ auth₂ scopes₂ f₂ w r₂).effects := by
  have key : ∀ (lib : Libs) (auth : authInternal) (scopes : List String) (f : HandlerFunc)
      (r : Request), EndsInDenial f w r (Protected lib auth scopes f w r) →
      (Protected lib auth scopes f w r).effects = [Event.WriteHeader w StatusForbidden] := by
    intro lib auth scopes f r h
    rcases Protected_cases lib auth scopes f w r with ⟨_, hg⟩ | ⟨_, hd⟩ | ⟨_, hp, _⟩
    · have hmem : Event.call f w r ∈ (Protected lib auth scopes f w r).effects := by
        rw [hg.2]
        exact List.mem_singleton.2 rfl
      exact absurd (List.mem_of_mem_filter hmem) h.2
    · exact hd.2
    · rw [hp] at h
      exact absurd h.1 (by simp)
  have e₁ := key lib₁ auth₁ scopes₁ f₁ r₁ h₁
  have e₂ := key lib₂ auth₂ scopes₂ f₂ r₂ h₂
  exact ⟨e₁, e₂, e₁.trans e₂.symm⟩

/-- C9, on an instance: a Gate without keys and a token that lacks a scope meet the
same denial. -/
theorem C9_denial_uniform_witness :
    (Protected sampleLibs { loadedGate with uaaKeys := none } [] sampleHandler sampleWriter
        (requestWith "Bearer signed")).effects
      = (Protected sampleLibs loadedGate ["billing"] sampleHandler sampleWriter
        (requestWith "Bearer signed")).effects :=
  (C9_denial_uniform sampleLibs sampleLibs { loadedGate with uaaKeys := none } loadedGate []
    ["billing"] sampleHandler sampleHandler sampleWriter (requestWith "Bearer signed")
    (requestWith "Bearer signed") ⟨by decide, by decide⟩ ⟨by decide, by decide⟩).2.2

/-! ## Loading keys -/

theorem parseKeyItems_error (lib : Libs) (items : List uaaKey) (m : keyMapping) (e : GoError)
    (h : (parseKeyItems lib items m).1.2 = some e) :
    (parseKeyItems lib items m).1.1 = none ∧
    ∃ item ∈ items, lib.ParseRSAPublicKeyFromPEM item.Value = Except.error e := by
  induction items generalizing m with
  | nil => simp [parseKeyItems] at h
  | cons item rest ih =>
    unfold parseKeyItems at h ⊢
    cases hpem : lib.ParseRSAPublicKeyFromPEM item.Value with
    | error err =>
      rw [hpem] at h
      simp only [Option.some.injEq] at h
      subst h
      exact ⟨rfl, item, List.mem_cons_self _ _, hpem⟩
    | ok k =>
      rw [hpem] at h
      obtain ⟨h1, it, hit, hpe⟩ := ih _ h
      exact ⟨h1, it, List.mem_cons_of_mem _ hit, hpe⟩

theorem parseKeyItems_fails (lib : Libs) (items : List uaaKey) (m : keyMapping) (item : uaaKey)
    (e : GoError) (hitem : item ∈ items)
    (hpem : lib.ParseRSAPublicKeyFromPEM item.Value = Except.error e) :
    (parseKeyItems lib items m).1.2 ≠ none := by
  induction items generalizing m with
  | nil => cases hitem
  | cons first rest ih =>
    unfold parseKeyItems
    cases hfirst : lib.ParseRSAPublicKeyFromPEM first.Value with
    | error err => simp
    | ok k =>
      rcases List.mem_cons.1 hitem with hEq | hmem
      · subst hEq
        rw [hpem] at hfirst
        cases hfirst
      · exact ih _ hmem

/-- An error of `parseConfigString` is the error of the JSON decoder or the error of
a key entry that does not decode, and it comes with a `nil` mapping. -/
theorem parseConfigString_error (lib : Libs) (data : String) (e : GoError)
    (h : (parseConfigString lib data).1.2 = some e) :
    (parseConfigString lib data).1.1 = none ∧
    (lib.jsonDecode data = Except.error e ∨
      ∃ keyData item, lib.jsonDecode data = Except.ok keyData ∧ item ∈ keyData.Keys ∧
        lib.ParseRSAPublicKeyFromPEM item.Value = Except.error e) := by
  unfold parseConfigString at h ⊢
  cases hj : lib.jsonDecode data with
  | error err =>
    rw [hj] at h
    simp only [Option.some.injEq] at h
    subst h
    exact ⟨rfl, Or.inl rfl⟩
  | ok keyData =>
    rw [hj] at h
    obtain ⟨h1, item, hitem, hpem⟩ := parseKeyItems_error lib keyData.Keys [] e h
    exact ⟨h1, Or.inr ⟨keyData, item, rfl, hitem, hpem⟩⟩

/-- C10. Whenever `LoadUaaKeys` returns an error, the Gate is what it was before the
call, and the error is the one of the body loader or the one of `parseConfigString`,
which is the error of the JSON decoder or of a key entry whose PEM value does not
decode. Each of these failures makes the call return an error, a bad entry also
when entries before it decoded. -/
theorem C10_failed_load_keeps_keys (lib : Libs) (auth : authInternal) (uaaURL : String) :
    (∀ e, (LoadUaaKeys lib auth uaaURL).err = some e →
      (LoadUaaKeys lib auth uaaURL).auth = auth ∧
      ((auth.bodyLoader (uaaURL ++ "/token_keys")).2 = some e ∨
        ((auth.bodyLoader (uaaURL ++ "/token_keys")).2 = none ∧
          (lib.jsonDecode (auth.bodyLoader (uaaURL ++ "/token_keys")).1 = Except.error e ∨
            ∃ keyData item,
              lib.jsonDecode (auth.bodyLoader (uaaURL ++ "/token_keys")).1 = Except.ok keyData ∧
              item ∈ keyData.Keys ∧
              lib.ParseRSAPublicKeyFromPEM item.Value = Except.error e)))) ∧
    (((auth.bodyLoader (uaaURL ++ "/token_keys")).2 ≠ none ∨
        (∃ e, lib.jsonDecode (auth.bodyLoader (uaaURL ++ "/token_keys")).1 = Except.error e) ∨
        (∃ keyData item e,
          lib.jsonDecode (auth.bodyLoader (uaaURL ++ "/token_keys")).1 = Except.ok keyData ∧
          item ∈ keyData.Keys ∧
          lib.ParseRSAPublicKeyFromPEM item.Value = Except.error e)) →
      (LoadUaaKeys lib auth uaaURL).err ≠ none ∧ (LoadUaaKeys lib auth uaaURL).auth = auth) := by
  rcases hload : auth.bodyLoader (uaaURL ++ "/token_keys") with ⟨data, _ | loadErr⟩
  · rcases hparse : parseConfigString lib data with ⟨⟨uaaKeysLocal, _ | parseErr⟩, evs⟩
    · have hres : (LoadUaaKeys lib auth uaaURL).err = none := by
        simp [LoadUaaKeys, hload, hparse]
      have hnoerr : (parseConfigString lib data).1.2 = none := by rw [hparse]
      refine ⟨fun e he => ?_, fun hfail => ?_⟩
      · rw [hres] at he
        cases he
      · exfalso
        rcases hfail with h | ⟨e, hj⟩ | ⟨keyData, item, e, hj, hitem, hpem⟩
        · exact h rfl
        · simp [parseConfigString, hj] at hnoerr
        · simp only [parseConfigString, hj] at hnoerr
          exact parseKeyItems_fails lib keyData.Keys [] item e hitem hpem hnoerr
    · have herr : (LoadUaaKeys lib auth uaaURL).err = some parseErr := by
        simp [LoadUaaKeys, hload, hparse]
      have hauth : (LoadUaaKeys lib auth uaaURL).auth = auth := by
        simp [LoadUaaKeys, hload, hparse]
      have hperr : (parseConfigString lib data).1.2 = some parseErr := by rw [hparse]
      refine ⟨fun e he => ⟨hauth, Or.inr ⟨rfl, ?_⟩⟩, fun _ => ⟨by rw [herr]; simp, hauth⟩⟩
      rw [herr] at he
      cases he
      exact (parseConfigString_error lib data parseErr hperr).2
  · have herr : (LoadUaaKeys lib auth uaaURL).err = some loadErr := by
      simp [LoadUaaKeys, hload]
    have hauth : (LoadUaaKeys lib auth uaaURL).auth = auth := by
      simp [LoadUaaKeys, hload]
    refine ⟨fun e he => ⟨hauth, Or.inl ?_⟩, fun _ => ⟨by rw [herr]; simp, hauth⟩⟩
    rw [herr] at he
    exact he

/-- C10, on an instance: a document whose second key does not decode leaves the loaded
Gate with the key it had. -/
theorem C10_failed_load_keeps_keys_witness :
    (LoadUaaKeys sampleLibs { rotatedGate with bodyLoader := brokenLoader } "http://uaa").err
      = some ⟨"Invalid Key: Key must be PEM encoded PKCS1 or PKCS8 private key"⟩ ∧
    (LoadUaaKeys sampleLibs { rotatedGate with bodyLoader := brokenLoader } "http://uaa").auth.uaaKeys
      = some [("RS512", sampleKey)] := by
  have h := (C10_failed_load_keeps_keys sampleLibs { rotatedGate with bodyLoader := brokenLoader }
    "http://uaa").1 ⟨"Invalid Key: Key must be PEM encoded PKCS1 or PKCS8 private key"⟩ (by decide)
  exact ⟨by decide, by rw [h.1]; rfl⟩

/-! ## Lemmas on the loaded mapping -/

theorem goMapGet_goMapSet {κ ν : Type} [DecidableEq κ] (m : List (κ × ν)) (k : κ) (v : ν)
    (x : κ) : goMapGet (goMapSet m k v) x = if k = x then some v else goMapGet m x := by
  induction m with
  | nil => simp [goMapSet, goMapGet]
  | cons p rest ih =>
    obtain ⟨k', v'⟩ := p
    by_cases hk : k' = k
    · subst hk
      by_cases hx : k' = x <;> simp [goMapSet, goMapGet, hx]
    · by_cases hx : k' = x
      · subst hx
        have hkx : ¬ k = k' := fun h => hk h.symm
        simp [goMapSet, goMapGet, hk, hkx]
      · simp [goMapSet, goMapGet, hk, hx, ih]

theorem nodup_keys_goMapSet {κ ν : Type} [DecidableEq κ] (m : List (κ × ν)) (k : κ) (v : ν)
    (h : (m.map Prod.fst).Nodup) : ((goMapSet m k v).map Prod.fst).Nodup := by
  induction m with
  | nil => simp [goMapSet]
  | cons p rest ih =>
    obtain ⟨k', v'⟩ := p
    rw [List.map_cons, List.nodup_cons] at h
    by_cases hk : k' = k
    · subst hk
      simp only [goMapSet, if_true, List.map_cons, List.nodup_cons]
      exact h
    · simp only [goMapSet, hk, if_false, List.map_cons, List.nodup_cons]
      refine ⟨?_, ih h.2⟩
      rw [mem_keys_goMapSet]
      rintro (h1 | h1)
      · exact hk h1
      · exact h.1 h1

theorem lastEntry_cons (item : uaaKey) (rest : List uaaKey) (alg : String) :
    lastEntry (item :: rest) alg
      = match lastEntry rest alg with
        | some found => some found
        | none => if item.Alg = alg then some item else none := by
  unfold lastEntry
  rw [List.reverse_cons, List.find?_append]
  cases h : List.find? (fun item => decide (item.Alg = alg)) rest.reverse with
  | some found => simp
  | none =>
    by_cases ha : item.Alg = alg <;> simp [List.find?, ha]

/-- A successful run of the loop of `parseConfigString` leaves a mapping in which
each algorithm of the entries has the key of its last entry, and every other
algorithm has what the starting mapping had. -/
theorem parseKeyItems_lookup (lib : Libs) (items : List uaaKey) (m₀ m : keyMapping)
    (h : (parseKeyItems lib items m₀).1 = (some m, none)) (alg : String) :
    goMapGet m alg
      = match lastEntry items alg with
        | some _ => documentKey lib items alg
        | none => goMapGet m₀ alg := by
  induction items generalizing m₀ with
  | nil =>
    simp only [parseKeyItems, Prod.mk.injEq, Option.some.injEq, and_true] at h
    subst h
    rfl
  | cons item rest ih =>
    unfold parseKeyItems at h
    cases hpem : lib.ParseRSAPublicKeyFromPEM item.Value with
    | error err =>
      rw [hpem] at h
      simp at h
    | ok key =>
      rw [hpem] at h
      have hrec := ih (goMapSet m₀ item.Alg key) h
      rw [hrec]
      unfold documentKey
      rw [lastEntry_cons]
      cases hl : lastEntry rest alg with
      | some found => rfl
      | none =>
        by_cases ha : item.Alg = alg
        · simp [ha, goMapGet_goMapSet, hpem]
        · simp [ha, goMapGet_goMapSet]

/-- A successful run of the loop of `parseConfigString` leaves the algorithms it
started with and those of the entries, each once. -/
theorem parseKeyItems_keys (lib : Libs) (items : List uaaKey) (m₀ m : keyMapping)
    (h : (parseKeyItems lib items m₀).1 = (some m, none)) :
    ((m₀.map Prod.fst).Nodup → (m.map Prod.fst).Nodup) ∧
    ∀ alg, alg ∈ m.map Prod.fst ↔ alg ∈ m₀.map Prod.fst ∨ ∃ item ∈ items, item.Alg = alg := by
  induction items generalizing m₀ with
  | nil =>
    simp only [parseKeyItems, Prod.mk.injEq, Option.some.injEq, and_true] at h
    subst h
    simp
  | cons item rest ih =>
    unfold parseKeyItems at h
    cases hpem : lib.ParseRSAPublicKeyFromPEM item.Value with
    | error err =>
      rw [hpem] at h
      simp at h
    | ok key =>
      rw [hpem] at h
      obtain ⟨hnodup, hmem⟩ := ih (goMapSet m₀ item.Alg key) h
      refine ⟨fun h0 => hnodup (nodup_keys_goMapSet m₀ item.Alg key h0), fun alg => ?_⟩
      rw [hmem, mem_keys_goMapSet]
      simp only [List.mem_cons, exists_eq_or_imp]
      constructor
      · rintro ((h1 | h1) | h1)
        · exact Or.inr (Or.inl h1.symm)
        · exact Or.inl h1
        · exact Or.inr (Or.inr h1)
      · rintro (h1 | h1 | h1)
        · exact Or.inl (Or.inr h1)
        · exact Or.inl (Or.inl h1.symm)
        · exact Or.inr h1

theorem parseKeyItems_ok (lib : Libs) (items : List uaaKey) (m₀ : keyMapping)
    (h : (parseKeyItems lib items m₀).1.2 = none) :
    ∃ m, (parseKeyItems lib items m₀).1 = (some m, none) := by
  induction items generalizing m₀ with
  | nil => exact ⟨m₀, rfl⟩
  | cons item rest ih =>
    unfold parseKeyItems at h ⊢
    cases hpem : lib.ParseRSAPublicKeyFromPEM item.Value with
    | error err =>
      rw [hpem] at h
      simp at h
    | ok key =>
      rw [hpem] at h
      exact ih _ h

theorem parseKeyItems_events (lib : Libs) (items : List uaaKey) (m₀ : keyMapping) :
    (parseKeyItems lib items m₀).2.filter (fun e => !e.isLog) = [] := by
  induction items generalizing m₀ with
  | nil => rfl
  | cons item rest ih =>
    unfold parseKeyItems
    cases hpem : lib.ParseRSAPublicKeyFromPEM item.Value with
    | error err => rfl
    | ok key => exact ih _

theorem parseConfigString_events (lib : Libs) (data : String) :
    (parseConfigString lib data).2.filter (fun e => !e.isLog) = [] := by
  unfold parseConfigString
  cases lib.jsonDecode data with
  | error err => rfl
  | ok keyData => exact parseKeyItems_events lib keyData.Keys []

/-- The three ways a call of `LoadUaaKeys` ends: the loader failed, the document did
not parse, or the Gate now holds the mapping parsed from the document. -/
theorem LoadUaaKeys_cases (lib : Libs) (auth : authInternal) (uaaURL : String) :
    (∃ e, (auth.bodyLoader (uaaURL ++ "/token_keys")).2 = some e ∧
      LoadUaaKeys lib auth uaaURL
        = { auth := auth, err := some e, events := [Event.bodyLoader (uaaURL ++ "/token_keys")] }) ∨
    (∃ e, (auth.bodyLoader (uaaURL ++ "/token_keys")).2 = none ∧
      (parseConfigString lib (auth.bodyLoader (uaaURL ++ "/token_keys")).1).1.2 = some e ∧
      LoadUaaKeys lib auth uaaURL
        = { auth := auth, err := some e,
            events := Event.bodyLoader (uaaURL ++ "/token_keys") ::
              (parseConfigString lib (auth.bodyLoader (uaaURL ++ "/token_keys")).1).2 }) ∨
    ((auth.bodyLoader (uaaURL ++ "/token_keys")).2 = none ∧
      (parseConfigString lib (auth.bodyLoader (uaaURL ++ "/token_keys")).1).1.2 = none ∧
      LoadUaaKeys lib auth uaaURL
        = { auth := { auth with
              uaaKeys := (parseConfigString lib (auth.bodyLoader (uaaURL ++ "/token_keys")).1).1.1 },
            err := none,
            events := Event.bodyLoader (uaaURL ++ "/token_keys") ::
              (parseConfigString lib (auth.bodyLoader (uaaURL ++ "/token_keys")).1).2 ++
              [Event.log "info" "Successfuly loaded UAA keys, the service is operational"] }) := by
  rcases hload : auth.bodyLoader (uaaURL ++ "/token_keys") with ⟨data, _ | loadErr⟩
  · rcases hparse : parseConfigString lib data with ⟨⟨uaaKeysLocal, _ | parseErr⟩, evs⟩
    · exact Or.inr (Or.inr ⟨rfl, rfl, by simp [LoadUaaKeys, hload, hparse]⟩)
    · exact Or.inr (Or.inl ⟨parseErr, rfl, rfl, by simp [LoadUaaKeys, hload, hparse]⟩)
  · exact Or.inl ⟨loadErr, rfl, by simp [LoadUaaKeys, hload]⟩

theorem GetSupportedAlgorythms_eq (auth : authInternal) (m : keyMapping)
    (h : auth.uaaKeys = some m) : GetSupportedAlgorythms auth = m.map Prod.fst := by
  have key : ∀ (l : keyMapping) (acc : List String),
      l.foldl (fun result entry => result ++ [entry.1]) acc = acc ++ l.map Prod.fst := by
    intro l
    induction l with
    | nil => intro acc; simp
    | cons p rest ih => intro acc; simp [List.foldl_cons, ih]
  unfold GetSupportedAlgorythms
  rw [h]
  simpa using key m []

theorem goMapGet_of_mem {κ ν : Type} [DecidableEq κ] (m : List (κ × ν)) (k : κ) (v : ν)
    (hn : (m.map Prod.fst).Nodup) (h : (k, v) ∈ m) : goMapGet m k = some v := by
  induction m with
  | nil => cases h
  | cons p rest ih =>
    obtain ⟨k', v'⟩ := p
    rw [List.map_cons, List.nodup_cons] at hn
    rcases List.mem_cons.1 h with heq | hmem
    · cases heq
      simp [goMapGet]
    · have hne : ¬ k' = k := by
        intro hk
        subst hk
        exact hn.1 (List.mem_map.2 ⟨(k', v), hmem, rfl⟩)
      simp [goMapGet, hne, ih hn.2 hmem]

theorem lastEntry_none_iff (items : List uaaKey) (alg : String) :
    lastEntry items alg = none ↔ ∀ item ∈ items, item.Alg ≠ alg := by
  unfold lastEntry
  simp [List.find?_eq_none]

theorem lastEntry_some (items : List uaaKey) (alg : String) (item : uaaKey)
    (h : lastEntry items alg = some item) : item ∈ items ∧ item.Alg = alg := by
  unfold lastEntry at h
  have h1 := List.mem_of_find?_eq_some h
  have h2 := List.find?_some h
  exact ⟨List.mem_reverse.1 h1, by simpa using h2⟩

/-- In a document `pre ++ item :: post` where no entry of `post` carries the
algorithm of `item`, the last entry with that algorithm is `item`. -/
theorem lastEntry_split (pre post : List uaaKey) (item : uaaKey)
    (hpost : ∀ x ∈ post, x.Alg ≠ item.Alg) :
    lastEntry (pre ++ item :: post) item.Alg = some item := by
  unfold lastEntry
  rw [List.reverse_append, List.reverse_cons, List.append_assoc, List.find?_append]
  have hnone : List.find? (fun x => decide (x.Alg = item.Alg)) post.reverse = none := by
    rw [List.find?_eq_none]
    intro x hx
    simpa using hpost x (List.mem_reverse.1 hx)
  rw [hnone]
  simp [List.find?]

/-- A successful `parseConfigString` returns a mapping with each algorithm of the
document once, holding for each the key of its last entry. -/
theorem parseConfigString_ok (lib : Libs) (data : String)
    (h : (parseConfigString lib data).1.2 = none) :
    ∃ keyData m, lib.jsonDecode data = Except.ok keyData ∧
      (parseConfigString lib data).1.1 = some m ∧
      (m.map Prod.fst).Nodup ∧
      (∀ alg, alg ∈ m.map Prod.fst ↔ ∃ item ∈ keyData.Keys, item.Alg = alg) ∧
      (∀ alg, goMapGet m alg = documentKey lib keyData.Keys alg) := by
  unfold parseConfigString at h ⊢
  cases hj : lib.jsonDecode data with
  | error err =>
    rw [hj] at h
    simp at h
  | ok keyData =>
    rw [hj] at h
    obtain ⟨m, hm⟩ := parseKeyItems_ok lib keyData.Keys [] h
    obtain ⟨hnodup, hmem⟩ := parseKeyItems_keys lib keyData.Keys [] m hm
    refine ⟨keyData, m, rfl, by simp only [hm], hnodup (by simp), fun alg => ?_, fun alg => ?_⟩
    · rw [hmem]
      simp
    · rw [parseKeyItems_lookup lib keyData.Keys [] m hm alg]
      cases hl : lastEntry keyData.Keys alg with
      | some found => rfl
      | none => simp [documentKey, hl, goMapGet]

theorem LoadUaaKeys_bodyLoader (lib : Libs) (auth : authInternal) (uaaURL : String) :
    (LoadUaaKeys lib auth uaaURL).auth.bodyLoader = auth.bodyLoader := by
  rcases LoadUaaKeys_cases lib auth uaaURL with ⟨e, _, h⟩ | ⟨e, _, _, h⟩ | ⟨_, _, h⟩ <;> rw [h]

/-- Whether a load succeeds, and what it leaves on success, depends on the body loader
of the Gate only, not on the keys it held. -/
theorem LoadUaaKeys_keys (lib : Libs) (auth : authInternal) (uaaURL : String) :
    (loadSucceeds lib auth uaaURL = true →
      (LoadUaaKeys lib auth uaaURL).auth.uaaKeys
        = (parseConfigString lib (auth.bodyLoader (uaaURL ++ "/token_keys")).1).1.1) ∧
    (loadSucceeds lib auth uaaURL = false →
      (LoadUaaKeys lib auth uaaURL).auth.uaaKeys = auth.uaaKeys) ∧
    (∀ other : authInternal, other.bodyLoader = auth.bodyLoader →
      loadSucceeds lib other uaaURL = loadSucceeds lib auth uaaURL) := by
  have hsucc : ∀ a : authInternal, loadSucceeds lib a uaaURL
      = ((a.bodyLoader (uaaURL ++ "/token_keys")).2.isNone &&
          (parseConfigString lib (a.bodyLoader (uaaURL ++ "/token_keys")).1).1.2.isNone) := by
    intro a
    unfold loadSucceeds
    rcases LoadUaaKeys_cases lib a uaaURL with ⟨e, h1, h⟩ | ⟨e, h1, h2, h⟩ | ⟨h1, h2, h⟩
    · rw [h]
      simp [h1]
    · rw [h]
      simp [h1, h2]
    · rw [h]
      simp [h1, h2]
  refine ⟨fun hs => ?_, fun hs => ?_, fun other ho => ?_⟩
  · rcases LoadUaaKeys_cases lib auth uaaURL with ⟨e, _, h⟩ | ⟨e, _, _, h⟩ | ⟨_, _, h⟩
    · simp [loadSucceeds, h] at hs
    · simp [loadSucceeds, h] at hs
    · rw [h]
  · rcases LoadUaaKeys_cases lib auth uaaURL with ⟨e, _, h⟩ | ⟨e, _, _, h⟩ | ⟨_, _, h⟩
    · rw [h]
    · rw [h]
    · simp [loadSucceeds, h] at hs
  · rw [hsucc other, hsucc auth, ho]

/-- After a sequence of loads the Gate has its body loader, and the keys of the last
load that succeeded, or the keys it started with when none did. -/
theorem gateAfter_loads (lib : Libs) (auth : authInternal) (urls : List String) :
    (gateAfterCalls lib auth (urls.map Call.load)).bodyLoader = auth.bodyLoader ∧
    (gateAfterCalls lib auth (urls.map Call.load)).uaaKeys
      = match urls.reverse.find? (loadSucceeds lib auth) with
        | none => auth.uaaKeys
        | some u => (parseConfigString lib (auth.bodyLoader (u ++ "/token_keys")).1).1.1 := by
  induction urls using List.reverseRecOn with
  | nil => exact ⟨rfl, rfl⟩
  | append_singleton urls u ih =>
    obtain ⟨hb, hk⟩ := ih
    have hstep : gateAfterCalls lib auth ((urls ++ [u]).map Call.load)
        = (LoadUaaKeys lib (gateAfterCalls lib auth (urls.map Call.load)) u).auth := by
      simp [gateAfterCalls, List.foldl_append, Call.gateAfter]
    obtain ⟨hyes, hno, hsame⟩ :=
      LoadUaaKeys_keys lib (gateAfterCalls lib auth (urls.map Call.load)) u
    have hs := (LoadUaaKeys_keys lib auth u).2.2 _ hb
    rw [hstep]
    refine ⟨by rw [LoadUaaKeys_bodyLoader, hb], ?_⟩
    rw [List.reverse_append, List.reverse_singleton, List.singleton_append, List.find?_cons]
    cases hsu : loadSucceeds lib auth u with
    | true =>
      rw [hyes (hs.trans hsu), hb]
    | false =>
      rw [hno (hs.trans hsu), hk]

/-! ## Loading keys: what a successful load leaves -/

/-- C11. After a `LoadUaaKeys` call that returns no error the Gate holds exactly the
mapping parsed from the fetched document: every lookup is answered by the document
alone, an algorithm that the document does not carry is not registered whatever was
registered before, and every entry of the mapping is the decoded key of an entry of
the document. After any sequence of loads the Gate holds the mapping of the last
load that succeeded, or what it started with (`nil` after `New`) when none did. -/
theorem C11_successful_load_replaces (lib : Libs) (auth : authInternal) (uaaURL : String) :
    ((LoadUaaKeys lib auth uaaURL).err = none →
      ∃ keyData m,
        lib.jsonDecode (auth.bodyLoader (uaaURL ++ "/token_keys")).1 = Except.ok keyData ∧
        (parseConfigString lib (auth.bodyLoader (uaaURL ++ "/token_keys")).1).1.1 = some m ∧
        (LoadUaaKeys lib auth uaaURL).auth.uaaKeys = some m ∧
        (∀ alg, goMapGet m alg = documentKey lib keyData.Keys alg) ∧
        (∀ alg, (∀ item ∈ keyData.Keys, item.Alg ≠ alg) → goMapGet m alg = none) ∧
        (∀ alg key, (alg, key) ∈ m →
          ∃ item ∈ keyData.Keys, item.Alg = alg ∧
            lib.ParseRSAPublicKeyFromPEM item.Value = Except.ok key)) ∧
    (∀ urls : List String,
      (gateAfterCalls lib auth (urls.map Call.load)).uaaKeys
        = match urls.reverse.find? (loadSucceeds lib auth) with
          | none => auth.uaaKeys
          | some u => (parseConfigString lib (auth.bodyLoader (u ++ "/token_keys")).1).1.1) ∧
    (∀ (http : BodyLoader) (loaders : List BodyLoader) (urls : List String),
      urls.reverse.find? (loadSucceeds lib (New http loaders)) = none →
        (gateAfterCalls lib (New http loaders) (urls.map Call.load)).uaaKeys = none) := by
  refine ⟨fun herr => ?_, fun urls => (gateAfter_loads lib auth urls).2, ?_⟩
  · rcases LoadUaaKeys_cases lib auth uaaURL with ⟨e, _, h⟩ | ⟨e, _, _, h⟩ | ⟨_, hp, h⟩
    · rw [h] at herr
      cases herr
    · rw [h] at herr
      cases herr
    · obtain ⟨keyData, m, hj, hm, hnodup, hmem, hlook⟩ :=
        parseConfigString_ok lib (auth.bodyLoader (uaaURL ++ "/token_keys")).1 hp
      refine ⟨keyData, m, hj, hm, by rw [h]; exact hm, hlook, fun alg hnone => ?_,
        fun alg key hin => ?_⟩
      · rw [hlook]
        unfold documentKey
        rw [(lastEntry_none_iff keyData.Keys alg).2 hnone]
      · have hget := goMapGet_of_mem m alg key hnodup hin
        rw [hlook] at hget
        unfold documentKey at hget
        cases hl : lastEntry keyData.Keys alg with
        | none =>
          rw [hl] at hget
          cases hget
        | some item =>
          rw [hl] at hget
          obtain ⟨hitem, halg⟩ := lastEntry_some keyData.Keys alg item hl
          cases hpem : lib.ParseRSAPublicKeyFromPEM item.Value with
          | error err =>
            simp only [hpem] at hget
            cases hget
          | ok k =>
            simp only [hpem, Option.some.injEq] at hget
            subst hget
            exact ⟨item, hitem, halg, hpem⟩
  · intro http loaders urls hnone
    rw [(gateAfter_loads lib (New http loaders) urls).2, hnone]
    cases loaders <;> rfl

/-- C11, on an instance: a Gate that held a key under RS512 holds, after loading the
one-key document, the RS256 key of that document and nothing under RS512. -/
theorem C11_successful_load_replaces_witness :
    (LoadUaaKeys sampleLibs rotatedGate "http://uaa").err = none ∧
    (LoadUaaKeys sampleLibs rotatedGate "http://uaa").auth.uaaKeys
      = some [("RS256", sampleKey)] ∧
    ∃ keyData m,
      sampleLibs.jsonDecode (rotatedGate.bodyLoader ("http://uaa" ++ "/token_keys")).1
        = Except.ok keyData ∧
      (LoadUaaKeys sampleLibs rotatedGate "http://uaa").auth.uaaKeys = some m ∧
      goMapGet m "RS512" = none := by
  obtain ⟨keyData, m, hj, _, hm, _, hnone, _⟩ :=
    (C11_successful_load_replaces sampleLibs rotatedGate "http://uaa").1 (by decide)
  refine ⟨by decide, by decide, keyData, m, hj, hm, hnone "RS512" ?_⟩
  have hdoc : sampleLibs.jsonDecode (rotatedGate.bodyLoader ("http://uaa" ++ "/token_keys")).1
      = Except.ok { Keys := [{ Alg := "RS256", Value := "pem" }] } := by rfl
  rw [hdoc] at hj
  cases hj
  intro item hitem
  rw [List.mem_singleton] at hitem
  subst hitem
  decide

/-- C12. After a successful load `GetSupportedAlgorythms` returns each algorithm of
the entries of the document exactly once and nothing else (the order is that of
the model; Go gives none); for a document with a single RS256 entry the result is
the list with RS256 alone. The call leaves the Gate as it is. -/
theorem C12_supported_algorithms (lib : Libs) (auth : authInternal) (uaaURL : String)
    (herr : (LoadUaaKeys lib auth uaaURL).err = none) :
    ∃ keyData,
      lib.jsonDecode (auth.bodyLoader (uaaURL ++ "/token_keys")).1 = Except.ok keyData ∧
      (GetSupportedAlgorythms (LoadUaaKeys lib auth uaaURL).auth).Nodup ∧
      (∀ alg, alg ∈ GetSupportedAlgorythms (LoadUaaKeys lib auth uaaURL).auth ↔
        ∃ item ∈ keyData.Keys, item.Alg = alg) ∧
      (∀ value, keyData.Keys = [{ Alg := "RS256", Value := value }] →
        GetSupportedAlgorythms (LoadUaaKeys lib auth uaaURL).auth = ["RS256"]) ∧
      Call.gateAfter lib (LoadUaaKeys lib auth uaaURL).auth Call.algorithms
        = (LoadUaaKeys lib auth uaaURL).auth := by
  rcases LoadUaaKeys_cases lib auth uaaURL with ⟨e, _, h⟩ | ⟨e, _, _, h⟩ | ⟨_, hp, h⟩
  · rw [h] at herr
    cases herr
  · rw [h] at herr
    cases herr
  · obtain ⟨keyData, m, hj, hm, hnodup, hmem, _⟩ :=
      parseConfigString_ok lib (auth.bodyLoader (uaaURL ++ "/token_keys")).1 hp
    have hkeys : (LoadUaaKeys lib auth uaaURL).auth.uaaKeys = some m := by
      rw [h]
      exact hm
    have hG := GetSupportedAlgorythms_eq (LoadUaaKeys lib auth uaaURL).auth m hkeys
    refine ⟨keyData, hj, by rw [hG]; exact hnodup, fun alg => by rw [hG]; exact hmem alg,
      fun value hone => ?_, rfl⟩
    rw [hG]
    have honly : ∀ alg, alg ∈ m.map Prod.fst ↔ alg = "RS256" := by
      intro alg
      rw [hmem, hone]
      simp [eq_comm]
    have hin : "RS256" ∈ m.map Prod.fst := (honly "RS256").2 rfl
    cases hl : m.map Prod.fst with
    | nil =>
      rw [hl] at hin
      cases hin
    | cons a rest =>
      rw [hl] at hnodup honly
      have ha : a = "RS256" := (honly a).1 (List.mem_cons_self _ _)
      subst ha
      cases rest with
      | nil => rfl
      | cons b rest' =>
        have hb : b = "RS256" := (honly b).1 (List.mem_cons_of_mem _ (List.mem_cons_self _ _))
        subst hb
        rw [List.nodup_cons] at hnodup
        exact absurd (List.mem_cons_self _ _) hnodup.1

/-- C12, on an instance: after loading the one-key document the supported algorithms
are RS256 alone. -/
theorem C12_supported_algorithms_witness :
    (LoadUaaKeys sampleLibs (New sampleLoader [sampleLoader]) "http://uaa").err = none ∧
    GetSupportedAlgorythms (LoadUaaKeys sampleLibs (New sampleLoader [sampleLoader])
      "http://uaa").auth = ["RS256"] := by
  obtain ⟨keyData, hj, _, _, hone, _⟩ :=
    C12_supported_algorithms sampleLibs (New sampleLoader [sampleLoader]) "http://uaa"
      (by decide)
  refine ⟨by decide, hone "pem" ?_⟩
  have hdoc : sampleLibs.jsonDecode
      ((New sampleLoader [sampleLoader]).bodyLoader ("http://uaa" ++ "/token_keys")).1
      = Except.ok { Keys := [{ Alg := "RS256", Value := "pem" }] } := by rfl
  rw [hdoc] at hj
  cases hj
  rfl

/-- C13. When a load succeeds on a document `pre ++ item :: post` in which no entry
after `item` carries the algorithm of `item`, that is, `item` is the last entry
with its algorithm however many entries before it carry it too, the loaded mapping
holds under that algorithm the decoded key of `item`, and
`GetSupportedAlgorythms` lists the algorithm once. -/
theorem C13_last_entry_wins (lib : Libs) (auth : authInternal) (uaaURL : String)
    (keyData : uaaKeysResponse) (pre post : List uaaKey) (item : uaaKey)
    (herr : (LoadUaaKeys lib auth uaaURL).err = none)
    (hdoc : lib.jsonDecode (auth.bodyLoader (uaaURL ++ "/token_keys")).1 = Except.ok keyData)
    (hkeys : keyData.Keys = pre ++ item :: post)
    (hlast : ∀ x ∈ post, x.Alg ≠ item.Alg) :
    ∃ key m,
      lib.ParseRSAPublicKeyFromPEM item.Value = Except.ok key ∧
      (LoadUaaKeys lib auth uaaURL).auth.uaaKeys = some m ∧
      goMapGet m item.Alg = some key ∧
      (GetSupportedAlgorythms (LoadUaaKeys lib auth uaaURL).auth).count item.Alg = 1 := by
  rcases LoadUaaKeys_cases lib auth uaaURL with ⟨e, _, h⟩ | ⟨e, _, _, h⟩ | ⟨_, hp, h⟩
  · rw [h] at herr
    cases herr
  · rw [h] at herr
    cases herr
  · obtain ⟨keyData', m, hj, hm, hnodup, hmem, hlook⟩ :=
      parseConfigString_ok lib (auth.bodyLoader (uaaURL ++ "/token_keys")).1 hp
    rw [hdoc] at hj
    cases hj
    have hkeys' : (LoadUaaKeys lib auth uaaURL).auth.uaaKeys = some m := by
      rw [h]
      exact hm
    have hG := GetSupportedAlgorythms_eq (LoadUaaKeys lib auth uaaURL).auth m hkeys'
    have hin : item.Alg ∈ m.map Prod.fst :=
      (hmem item.Alg).2 ⟨item, by rw [hkeys]; simp, rfl⟩
    have hsome : goMapGet m item.Alg ≠ none := (goMapGet_ne_none_iff m item.Alg).2 hin
    have hentry : documentKey lib keyData.Keys item.Alg
        = match lib.ParseRSAPublicKeyFromPEM item.Value with
          | Except.ok key => some key
          | Except.error _ => none := by
      unfold documentKey
      rw [hkeys, lastEntry_split pre post item hlast]
    rw [hlook, hentry] at hsome
    cases hpem : lib.ParseRSAPublicKeyFromPEM item.Value with
    | error err =>
      rw [hpem] at hsome
      exact absurd rfl hsome
    | ok key =>
      refine ⟨key, m, rfl, hkeys', ?_, ?_⟩
      · rw [hlook, hentry, hpem]
      · rw [hG]
        exact List.count_eq_one_of_mem hnodup hin

/-- C13, on an instance: the document `two keys` carries RS256 first with an old key
and last with the sample key; the loaded mapping holds the sample key. -/
theorem C13_last_entry_wins_witness :
    (LoadUaaKeys spaceLibs { loadedGate with bodyLoader := urlLoader } "http://two").auth.uaaKeys
      = some [("RS256", sampleKey), ("RS512", sampleKey)] ∧
    ∃ key m,
      spaceLibs.ParseRSAPublicKeyFromPEM "pem" = Except.ok key ∧
      (LoadUaaKeys spaceLibs { loadedGate with bodyLoader := urlLoader } "http://two").auth.uaaKeys
        = some m ∧
      goMapGet m "RS256" = some key ∧
      (GetSupportedAlgorythms
        (LoadUaaKeys spaceLibs { loadedGate with bodyLoader := urlLoader } "http://two").auth).count
          "RS256" = 1 :=
  ⟨by decide,
   C13_last_entry_wins spaceLibs { loadedGate with bodyLoader := urlLoader } "http://two"
    { Keys := [{ Alg := "RS256", Value := "old pem" }, { Alg := "RS512", Value := "pem" },
               { Alg := "RS256", Value := "pem" }] }
    [{ Alg := "RS256", Value := "old pem" }, { Alg := "RS512", Value := "pem" }] []
    { Alg := "RS256", Value := "pem" } (by decide) (by rfl) rfl
    (fun x hx => absurd hx (List.not_mem_nil x))⟩

/-- C14. A call `LoadUaaKeys(u)` calls the body loader of the Gate exactly once, with
`u` followed by `/token_keys` and `u` otherwise as it is, and does nothing else
beyond logging. The body loader of a Gate made by `New` is the first loader given,
whatever loaders follow it, and `HTTPGetBodyAsString` when none is given. -/
theorem C14_loader_called_once (lib : Libs) (auth : authInternal) (uaaURL : String) :
    (LoadUaaKeys lib auth uaaURL).events.filter (fun e => !e.isLog)
      = [Event.bodyLoader (uaaURL ++ "/token_keys")] ∧
    (∀ (http : BodyLoader) (first : BodyLoader) (rest : List BodyLoader),
      (New http (first :: rest)).bodyLoader = first) ∧
    (∀ (http http' : BodyLoader) (first : BodyLoader) (rest rest' : List BodyLoader),
      LoadUaaKeys lib (New http (first :: rest)) uaaURL
        = LoadUaaKeys lib (New http' (first :: rest')) uaaURL) ∧
    (∀ http : BodyLoader, (New http []).bodyLoader = HTTPGetBodyAsString http) := by
  refine ⟨?_, fun _ _ _ => rfl, fun _ _ _ _ _ => rfl, fun _ => rfl⟩
  have hp := parseConfigString_events lib (auth.bodyLoader (uaaURL ++ "/token_keys")).1
  rcases LoadUaaKeys_cases lib auth uaaURL with ⟨e, _, h⟩ | ⟨e, _, _, h⟩ | ⟨_, _, h⟩
  · rw [h]
    rfl
  · rw [h]
    simp only [List.filter_cons, hp]
    simp [Event.isLog]
  · rw [h]
    simp only [List.cons_append, List.filter_cons, List.filter_append, hp]
    simp [Event.isLog]

/-! ## Required scopes as a set -/

/-- The result of the scope check depends on the required scopes as a set. -/
theorem checkRequiredScopes_congr (lib : Libs) (req₁ req₂ : List String) (token : Token)
    (hsame : ∀ s, s ∈ req₁ ↔ s ∈ req₂) :
    (checkRequiredScopes lib req₁ token).1 = (checkRequiredScopes lib req₂ token).1 := by
  unfold checkRequiredScopes
  cases token.Claims with
  | other => rfl
  | MapClaims claims =>
    simp only
    have h1 := checkScopesLoop_true_iff (extractClaimSet lib claims) req₁
    have h2 := checkScopesLoop_true_iff (extractClaimSet lib claims) req₂
    have hb : (checkScopesLoop (extractClaimSet lib claims) req₁).1.1
        = (checkScopesLoop (extractClaimSet lib claims) req₂).1.1 := by
      rw [Bool.eq_iff_iff, h1, h2]
      constructor
      · intro h s hs
        exact h s ((hsame s).2 hs)
      · intro h s hs
        exact h s ((hsame s).1 hs)
    have he : (checkScopesLoop (extractClaimSet lib claims) req₁).1.2
        = (checkScopesLoop (extractClaimSet lib claims) req₂).1.2 := by
      rw [checkScopesLoop_err, checkScopesLoop_err]
    exact Prod.ext hb he

/-- The wrapper looks at the required scopes in the scope check only: either its flow
is the same for every list of required scopes, or it has reached the scope check
with a token and ends as that check decides. -/
theorem protectedFlow_scopes (lib : Libs) (auth : authInternal) (protectedFunc : HandlerFunc)
    (w : ResponseWriter) (r : Request) :
    (∃ flow, ∀ req, protectedFlow lib auth req protectedFunc w r = flow) ∨
    (∃ token, ∀ req, protectedFlow lib auth req protectedFunc w r =
      if ((checkRequiredScopes lib req token).1.2.isSome ||
          !(checkRequiredScopes lib req token).1.1) = true then
        Flow.fellThrough ((checkRequiredScopes lib req token).2 ++
          [Event.log "debug" "The token did not have all the required scopes"])
      else
        Flow.returned ((checkRequiredScopes lib req token).2 ++
          [Event.log "debug" "The token was valid having all required scopes",
           Event.call protectedFunc w r])) := by
  cases hk : auth.uaaKeys with
  | none =>
    exact Or.inl ⟨protectedFlow lib auth [] protectedFunc w r, fun req => by
      simp [protectedFlow, hk]⟩
  | some m =>
    by_cases hm : m.length = 0
    · exact Or.inl ⟨protectedFlow lib auth [] protectedFunc w r, fun req => by
        simp [protectedFlow, hk, hm]⟩
    · by_cases ha : r.Header.Get "authorization" = ""
      · exact Or.inl ⟨protectedFlow lib auth [] protectedFunc w r, fun req => by
          simp [protectedFlow, hk, hm, ha]⟩
      · rcases hs : Split (r.Header.Get "authorization") ' ' with
          _ | ⟨scheme, _ | ⟨tokenString, _ | ⟨third, rest⟩⟩⟩
        · exact Or.inl ⟨protectedFlow lib auth [] protectedFunc w r, fun req => by
            simp [protectedFlow, hk, hm, ha, hs]⟩
        · exact Or.inl ⟨protectedFlow lib auth [] protectedFunc w r, fun req => by
            simp [protectedFlow, hk, hm, ha, hs]⟩
        · by_cases hb : ToLower scheme = "bearer"
          · rcases hp : lib.jwtParse tokenString (keyFunc auth) with ⟨_ | token, _ | e⟩
            · exact Or.inl ⟨protectedFlow lib auth [] protectedFunc w r, fun req => by
                simp [protectedFlow, hk, hm, ha, hs, hb, hp]⟩
            · exact Or.inl ⟨protectedFlow lib auth [] protectedFunc w r, fun req => by
                simp [protectedFlow, hk, hm, ha, hs, hb, hp]⟩
            · cases hv : token.Valid with
              | false =>
                exact Or.inl ⟨protectedFlow lib auth [] protectedFunc w r, fun req => by
                  simp [protectedFlow, hk, hm, ha, hs, hb, hp, hv]⟩
              | true =>
                refine Or.inr ⟨token, fun req => ?_⟩
                rcases hc : checkRequiredScopes lib req token with ⟨⟨hasScopes, scopesError⟩, evs⟩
                simp [protectedFlow, hk, hm, ha, hs, hb, hp, hv, hc]
            · exact Or.inl ⟨protectedFlow lib auth [] protectedFunc w r, fun req => by
                simp [protectedFlow, hk, hm, ha, hs, hb, hp]⟩
          · exact Or.inl ⟨protectedFlow lib auth [] protectedFunc w r, fun req => by
              simp [protectedFlow, hk, hm, ha, hs, hb]⟩
        · exact Or.inl ⟨protectedFlow lib auth [] protectedFunc w r, fun req => by
            simp [protectedFlow, hk, hm, ha, hs]⟩

/-- C15. For every token and any two lists of required scopes with the same elements
(a permutation of one another, or differing by repeated entries),
`checkRequiredScopes` returns the same result, and the handlers that `Protected`
builds from the two lists act alike on every request: the same effects apart from
log lines, hence the same grant or denial, and the same panic. -/
theorem C15_required_scopes_as_set (lib : Libs) (auth : authInternal) (req₁ req₂ : List String)
    (protectedFunc : HandlerFunc) (w : ResponseWriter) (r : Request) (token : Token)
    (hsame : ∀ s, s ∈ req₁ ↔ s ∈ req₂) :
    (checkRequiredScopes lib req₁ token).1 = (checkRequiredScopes lib req₂ token).1 ∧
    (Protected lib auth req₁ protectedFunc w r).effects
      = (Protected lib auth req₂ protectedFunc w r).effects ∧
    (Protected lib auth req₁ protectedFunc w r).panicked
      = (Protected lib auth req₂ protectedFunc w r).panicked ∧
    (Granted protectedFunc w r (Protected lib auth req₁ protectedFunc w r) ↔
      Granted protectedFunc w r (Protected lib auth req₂ protectedFunc w r)) ∧
    (Denied w (Protected lib auth req₁ protectedFunc w r) ↔
      Denied w (Protected lib auth req₂ protectedFunc w r)) := by
  have hrun : (Protected lib auth req₁ protectedFunc w r).effects
        = (Protected lib auth req₂ protectedFunc w r).effects ∧
      (Protected lib auth req₁ protectedFunc w r).panicked
        = (Protected lib auth req₂ protectedFunc w r).panicked := by
    rcases protectedFlow_scopes lib auth protectedFunc w r with ⟨flow, hflow⟩ | ⟨tok, hflow⟩
    · unfold Protected
      rw [hflow req₁, hflow req₂]
      exact ⟨rfl, rfl⟩
    · have hc := checkRequiredScopes_congr lib req₁ req₂ tok hsame
      have e₁ := checkRequiredScopes_events lib req₁ tok
      have e₂ := checkRequiredScopes_events lib req₂ tok
      unfold Protected
      rw [hflow req₁, hflow req₂, hc]
      by_cases hcond : ((checkRequiredScopes lib req₂ tok).1.2.isSome ||
          !(checkRequiredScopes lib req₂ tok).1.1) = true
      · rw [if_pos hcond, if_pos hcond]
        simp only [Run.effects, List.filter_append, e₁, e₂]
        simp
      · rw [if_neg hcond, if_neg hcond]
        simp only [Run.effects, List.filter_append, e₁, e₂]
        simp
  refine ⟨checkRequiredScopes_congr lib req₁ req₂ token hsame, hrun.1, hrun.2, ?_, ?_⟩
  · unfold Granted
    rw [hrun.1, hrun.2]
  · unfold Denied
    rw [hrun.1, hrun.2]

/-- C15, on an instance: the required scopes `user, admin, user` are treated as
`admin, user`. -/
theorem C15_required_scopes_as_set_witness :
    (checkRequiredScopes sampleLibs ["user", "admin", "user"] sampleToken).1
      = (checkRequiredScopes sampleLibs ["admin", "user"] sampleToken).1 ∧
    Granted sampleHandler sampleWriter (requestWith "Bearer signed")
      (Protected sampleLibs loadedGate ["user", "admin", "user"] sampleHandler sampleWriter
        (requestWith "Bearer signed")) := by
  have hsame : ∀ s, s ∈ ["user", "admin", "user"] ↔ s ∈ ["admin", "user"] := by
    intro s
    simp only [List.mem_cons, List.mem_singleton, List.not_mem_nil, or_false]
    tauto
  have h := C15_required_scopes_as_set sampleLibs loadedGate ["user", "admin", "user"]
    ["admin", "user"] sampleHandler sampleWriter (requestWith "Bearer signed") sampleToken hsame
  exact ⟨h.1, h.2.2.2.1.2 ⟨by decide, by decide⟩⟩

/-! ## The wrapper leaves the Gate alone -/

/-- The program of the conditionals ends as `protectedFlow` says for the Gate it
starts on, and leaves that Gate behind, but for the call of the protected function. -/
theorem protectedFlowM_run (lib : Libs) (inner : GateEffect) (requiredScopes : List String)
    (protectedFunc : HandlerFunc) (w : ResponseWriter) (r : Request) (auth : authInternal) :
    (protectedFlowM lib inner requiredScopes protectedFunc w r).run auth =
      (protectedFlow lib auth requiredScopes protectedFunc w r,
       match protectedFlow lib auth requiredScopes protectedFunc w r with
       | Flow.returned _ => inner protectedFunc w r auth
       | _ => auth) := by
  cases hk : auth.uaaKeys with
  | none =>
    simp [protectedFlowM, protectedFlow, hk]
  | some m =>
    by_cases hm : m = []
    · simp [protectedFlowM, protectedFlow, hk, hm]
    · by_cases ha : r.Header.Get "authorization" = ""
      · simp [protectedFlowM, protectedFlow, hk, hm, ha]
      · rcases hs : Split (r.Header.Get "authorization") ' ' with
          _ | ⟨scheme, _ | ⟨tokenString, _ | ⟨third, rest⟩⟩⟩
        · simp [protectedFlowM, protectedFlow, hk, hm, ha, hs]
        · simp [protectedFlowM, protectedFlow, hk, hm, ha, hs]
        · by_cases hb : ToLower scheme = "bearer"
          · rcases hp : lib.jwtParse tokenString (keyFunc auth) with ⟨_ | token, _ | e⟩
            · simp [protectedFlowM, protectedFlow, hk, hm, ha, hs, hb, hp]
            · simp [protectedFlowM, protectedFlow, hk, hm, ha, hs, hb, hp]
            · cases hv : token.Valid with
              | false => simp [protectedFlowM, protectedFlow, hk, hm, ha, hs, hb, hp, hv]
              | true =>
                rcases hc : checkRequiredScopes lib requiredScopes token with
                  ⟨⟨hasScopes, scopesError⟩, evs⟩
                by_cases hcond : scopesError.isSome = true ∨ hasScopes = false
                · simp [protectedFlowM, protectedFlow, hk, hm, ha, hs, hb, hp, hv, hc, hcond]
                · simp [protectedFlowM, protectedFlow, hk, hm, ha, hs, hb, hp, hv, hc, hcond]
            · simp [protectedFlowM, protectedFlow, hk, hm, ha, hs, hb, hp]
          · simp [protectedFlowM, protectedFlow, hk, hm, ha, hs, hb]
        · simp [protectedFlowM, protectedFlow, hk, hm, ha, hs]

/-- The program of the handler gives the run that `Protected` describes for the Gate
it starts on. -/
theorem ProtectedM_run (lib : Libs) (inner : GateEffect) (requiredScopes : List String)
    (protectedFunc : HandlerFunc) (w : ResponseWriter) (r : Request) (auth : authInternal) :
    (ProtectedM lib inner requiredScopes protectedFunc w r).run auth =
      (Protected lib auth requiredScopes protectedFunc w r,
       match protectedFlow lib auth requiredScopes protectedFunc w r with
       | Flow.returned _ => inner protectedFunc w r auth
       | _ => auth) := by
  have h := protectedFlowM_run lib inner requiredScopes protectedFunc w r auth
  unfold ProtectedM Protected
  simp only [StateT.run_bind, h]
  cases protectedFlow lib auth requiredScopes protectedFunc w r <;> rfl

/-- When the conditionals end with the `return` after the call of the protected
function, that call is the one effect of the run. -/
theorem protectedFlow_returned_effects (lib : Libs) (auth : authInternal)
    (requiredScopes : List String) (protectedFunc : HandlerFunc) (w : ResponseWriter)
    (r : Request) (events : List Event)
    (hflow : protectedFlow lib auth requiredScopes protectedFunc w r = Flow.returned events) :
    events.filter (fun e => !e.isLog) = [Event.call protectedFunc w r] := by
  cases hk : auth.uaaKeys with
  | none => simp [protectedFlow, hk] at hflow
  | some m =>
    by_cases hm : m = []
    · simp [protectedFlow, hk, hm] at hflow
    · by_cases ha : r.Header.Get "authorization" = ""
      · simp [protectedFlow, hk, hm, ha] at hflow
      · rcases hs : Split (r.Header.Get "authorization") ' ' with
          _ | ⟨scheme, _ | ⟨tokenString, _ | ⟨third, rest⟩⟩⟩
        · simp [protectedFlow, hk, hm, ha, hs] at hflow
        · simp [protectedFlow, hk, hm, ha, hs] at hflow
        · by_cases hb : ToLower scheme = "bearer"
          · rcases hp : lib.jwtParse tokenString (keyFunc auth) with ⟨_ | token, _ | e⟩
            · simp [protectedFlow, hk, hm, ha, hs, hb, hp] at hflow
            · simp [protectedFlow, hk, hm, ha, hs, hb, hp] at hflow
            · cases hv : token.Valid with
              | false => simp [protectedFlow, hk, hm, ha, hs, hb, hp, hv] at hflow
              | true =>
                have hev := checkRequiredScopes_events lib requiredScopes token
                rcases hc : checkRequiredScopes lib requiredScopes token with
                  ⟨⟨hasScopes, scopesError⟩, evs⟩
                rw [hc] at hev
                simp only at hev
                by_cases hcond : scopesError.isSome = true ∨ hasScopes = false
                · simp [protectedFlow, hk, hm, ha, hs, hb, hp, hv, hc, hcond] at hflow
                · simp [protectedFlow, hk, hm, ha, hs, hb, hp, hv, hc, hcond] at hflow
                  subst hflow
                  rw [List.filter_append, hev]
                  simp [Event.isLog]
            · simp [protectedFlow, hk, hm, ha, hs, hb, hp] at hflow
          · simp [protectedFlow, hk, hm, ha, hs, hb] at hflow
        · simp [protectedFlow, hk, hm, ha, hs] at hflow

/-- The conditionals end with the `return` after the call of the protected function
exactly in the runs that grant. -/
theorem protectedFlow_returned_iff (lib : Libs) (auth : authInternal)
    (requiredScopes : List String) (protectedFunc : HandlerFunc) (w : ResponseWriter)
    (r : Request) :
    (∃ events, protectedFlow lib auth requiredScopes protectedFunc w r = Flow.returned events) ↔
      Granted protectedFunc w r (Protected lib auth requiredScopes protectedFunc w r) := by
  constructor
  · rintro ⟨events, hflow⟩
    have he := protectedFlow_returned_effects lib auth requiredScopes protectedFunc w r events
      hflow
    unfold Granted Protected
    rw [hflow]
    exact ⟨rfl, he⟩
  · rintro ⟨hp, he⟩
    unfold Protected at hp he
    cases hflow : protectedFlow lib auth requiredScopes protectedFunc w r with
    | returned events => exact ⟨events, rfl⟩
    | fellThrough events =>
      rw [hflow] at he
      simp only [Run.effects, List.filter_append] at he
      have := congrArg List.getLast? he
      simp [Event.isLog] at this
    | panic events =>
      rw [hflow] at hp
      cases hp

/-- The Gate an invocation leaves behind: the one the protected function left when
the run granted, the one the invocation found otherwise. -/
theorem ProtectedM_state (lib : Libs) (inner : GateEffect) (requiredScopes : List String)
    (protectedFunc : HandlerFunc) (w : ResponseWriter) (r : Request) (auth : authInternal) :
    (Granted protectedFunc w r (Protected lib auth requiredScopes protectedFunc w r) →
      ((ProtectedM lib inner requiredScopes protectedFunc w r).run auth).2
        = inner protectedFunc w r auth) ∧
    (¬ Granted protectedFunc w r (Protected lib auth requiredScopes protectedFunc w r) →
      ((ProtectedM lib inner requiredScopes protectedFunc w r).run auth).2 = auth) := by
  have hiff := protectedFlow_returned_iff lib auth requiredScopes protectedFunc w r
  rw [ProtectedM_run]
  constructor
  · intro hg
    obtain ⟨events, hflow⟩ := hiff.2 hg
    simp only [hflow]
  · intro hng
    cases hflow : protectedFlow lib auth requiredScopes protectedFunc w r with
    | returned events => exact absurd (hiff.1 ⟨events, hflow⟩) hng
    | fellThrough events => rfl
    | panic events => rfl

/-- With protected functions that leave the Gate alone, a sequence of calls and
invocations gives the runs `Protected` describes for the initial Gate, and ends on
that Gate. -/
theorem invokeAll_run (lib : Libs) (inner : GateEffect)
    (hinner : ∀ f w r a, inner f w r a = a) (calls : List Invocation) (auth : authInternal) :
    (invokeAll lib inner calls).run auth =
      (calls.map (fun c => Protected lib auth c.requiredScopes c.protectedFunc c.w c.r),
       auth) := by
  induction calls with
  | nil => rfl
  | cons c rest ih =>
    have hone : (ProtectedM lib inner c.requiredScopes c.protectedFunc c.w c.r).run auth
        = (Protected lib auth c.requiredScopes c.protectedFunc c.w c.r, auth) := by
      rw [ProtectedM_run]
      cases protectedFlow lib auth c.requiredScopes c.protectedFunc c.w c.r <;>
        simp [hinner]
    simp [invokeAll, ProtectedCall, hone, ih]

/-- C16. `Protected` and the function literal it returns, run as programs on the
state of the Gate. A call of `Protected` leaves the Gate as it found it and returns
the handler. One invocation of that handler gives the run that `Protected`
describes for the Gate it finds, and leaves that Gate behind, key mapping and body
loader, unless the run granted: then it leaves the Gate that the protected function
left, so the code of the wrapper itself changes nothing. With protected functions
that leave the Gate alone, calls and invocations in any number, with any arguments
and on any requests, leave the key mapping and the body loader as they were, each
invocation with the run it has on the initial Gate; and a handler for given
required scopes and protected function gives after them what it gives before
them, in every state of the Gate. -/
theorem C16_protected_leaves_gate (lib : Libs) (inner : GateEffect) (auth : authInternal) :
    (∀ (requiredScopes : List String) (protectedFunc : HandlerFunc),
      ((ProtectedCall lib inner requiredScopes protectedFunc).run auth).2 = auth ∧
      ((ProtectedCall lib inner requiredScopes protectedFunc).run auth).1
        = ProtectedM lib inner requiredScopes protectedFunc) ∧
    (∀ (requiredScopes : List String) (protectedFunc : HandlerFunc) (w : ResponseWriter)
      (r : Request),
      ((ProtectedM lib inner requiredScopes protectedFunc w r).run auth).1
        = Protected lib auth requiredScopes protectedFunc w r ∧
      (¬ Granted protectedFunc w r (Protected lib auth requiredScopes protectedFunc w r) →
        ((ProtectedM lib inner requiredScopes protectedFunc w r).run auth).2 = auth) ∧
      (Granted protectedFunc w r (Protected lib auth requiredScopes protectedFunc w r) →
        ((ProtectedM lib inner requiredScopes protectedFunc w r).run auth).2
          = inner protectedFunc w r auth)) ∧
    ((∀ f w r a, inner f w r a = a) →
      ∀ calls : List Invocation,
        ((invokeAll lib inner calls).run auth).2.uaaKeys = auth.uaaKeys ∧
        ((invokeAll lib inner calls).run auth).2.bodyLoader = auth.bodyLoader ∧
        ((invokeAll lib inner calls).run auth).1
          = calls.map (fun c => Protected lib auth c.requiredScopes c.protectedFunc c.w c.r) ∧
        ∀ (requiredScopes : List String) (protectedFunc : HandlerFunc) (w : ResponseWriter)
          (r : Request),
          (ProtectedM lib inner requiredScopes protectedFunc w r).run
              ((invokeAll lib inner calls).run auth).2
            = (ProtectedM lib inner requiredScopes protectedFunc w r).run auth) := by
  refine ⟨fun _ _ => ⟨rfl, rfl⟩, fun requiredScopes protectedFunc w r => ⟨?_, ?_, ?_⟩,
    fun hinner calls => ?_⟩
  · rw [ProtectedM_run]
  · exact (ProtectedM_state lib inner requiredScopes protectedFunc w r auth).2
  · exact (ProtectedM_state lib inner requiredScopes protectedFunc w r auth).1
  · rw [invokeAll_run lib inner hinner calls auth]
    exact ⟨rfl, rfl, rfl, fun _ _ _ _ => rfl⟩

/-- C16, on an instance. A protected function that empties the Gate: the denied
invocation with `Bearer abc` leaves the loaded Gate its key, and the granted one
with `Bearer signed` leaves the Gate that the protected function emptied. Protected
functions that leave the Gate alone: after a denied and a granted invocation the
loaded Gate still holds its key. -/
theorem C16_protected_leaves_gate_witness :
    ((ProtectedM sampleLibs (fun _ _ _ a => { a with uaaKeys := none }) ["admin"] sampleHandler
        sampleWriter (requestWith "Bearer abc")).run loadedGate).2.uaaKeys
      = some [("RS256", sampleKey)] ∧
    ((ProtectedM sampleLibs (fun _ _ _ a => { a with uaaKeys := none }) ["admin"] sampleHandler
        sampleWriter (requestWith "Bearer signed")).run loadedGate).2.uaaKeys = none ∧
    ((invokeAll sampleLibs (fun _ _ _ a => a)
        [{ requiredScopes := ["admin"], protectedFunc := sampleHandler, w := sampleWriter,
           r := requestWith "Bearer abc" },
         { requiredScopes := ["admin"], protectedFunc := sampleHandler, w := sampleWriter,
           r := requestWith "Bearer signed" }]).run loadedGate).2.uaaKeys
      = some [("RS256", sampleKey)] :=
  ⟨congrArg authInternal.uaaKeys
      (((C16_protected_leaves_gate sampleLibs (fun _ _ _ a => { a with uaaKeys := none })
        loadedGate).2.1 ["admin"] sampleHandler sampleWriter (requestWith "Bearer abc")).2.1
        (by rintro ⟨_, h⟩; revert h; decide)),
   congrArg authInternal.uaaKeys
      (((C16_protected_leaves_gate sampleLibs (fun _ _ _ a => { a with uaaKeys := none })
        loadedGate).2.1 ["admin"] sampleHandler sampleWriter (requestWith "Bearer signed")).2.2
        ⟨by decide, by decide⟩),
   (((C16_protected_leaves_gate sampleLibs (fun _ _ _ a => a) loadedGate).2.2
      (fun _ _ _ _ => rfl)
      [{ requiredScopes := ["admin"], protectedFunc := sampleHandler, w := sampleWriter,
         r := requestWith "Bearer abc" },
       { requiredScopes := ["admin"], protectedFunc := sampleHandler, w := sampleWriter,
         r := requestWith "Bearer signed" }]).1)⟩

/-! ## The scheme check -/

theorem splitAux_length (sep : Char) (cs acc : List Char) :
    (splitAux sep cs acc).length = cs.count sep + 1 := by
  induction cs generalizing acc with
  | nil => simp [splitAux]
  | cons c rest ih =>
    by_cases hc : c = sep
    · subst hc
      simp [splitAux, ih]
    · have hc' : (c == sep) = false := by simpa using hc
      simp [splitAux, hc, ih, List.count_cons, hc']

/-- The parts after the first one are the parts of the text after the first
separator. -/
theorem splitAux_tail (sep : Char) (cs acc : List Char) :
    splitAux sep cs acc
      = String.mk (acc.reverse ++ cs.takeWhile (fun c => decide (c ≠ sep))) ::
        (match cs.dropWhile (fun c => decide (c ≠ sep)) with
          | [] => []
          | _ :: rest => splitAux sep rest []) := by
  induction cs generalizing acc with
  | nil => simp [splitAux]
  | cons c rest ih =>
    by_cases hc : c = sep
    · subst hc
      simp [splitAux, List.takeWhile, List.dropWhile]
    · simp [splitAux, hc, ih, List.takeWhile, List.dropWhile]

/-- The value splits into two parts exactly when it holds one space; the parts are
then the text before and the text after that space. -/
theorem Split_two_iff (a scheme tokenString : String) :
    Split a ' ' = [scheme, tokenString] ↔
      a.data.count ' ' = 1 ∧ scheme = beforeFirstSpace a ∧ tokenString = afterFirstSpace a := by
  have hlen : (Split a ' ').length = a.data.count ' ' + 1 := splitAux_length ' ' a.data []
  have htail := splitAux_tail ' ' a.data []
  simp only [List.reverse_nil, List.nil_append] at htail
  unfold beforeFirstSpace afterFirstSpace
  constructor
  · intro h
    have hcount : a.data.count ' ' = 1 := by
      rw [h] at hlen
      simpa using hlen.symm
    refine ⟨hcount, ?_⟩
    unfold Split at h
    rw [htail] at h
    cases hd : a.data.dropWhile (fun c => decide (c ≠ ' ')) with
    | nil =>
      rw [hd] at h
      cases h
    | cons c rest =>
      rw [hd] at h
      simp only [List.cons.injEq] at h
      obtain ⟨h1, h2⟩ := h
      have h3 := splitAux_singleton ' ' rest [] tokenString (by simpa using h2)
      exact ⟨h1.symm, by simpa using h3⟩
  · rintro ⟨hcount, hs, ht⟩
    have hlen2 : (Split a ' ').length = 2 := by rw [hlen, hcount]
    unfold Split at hlen2 ⊢
    rw [htail] at hlen2 ⊢
    cases hd : a.data.dropWhile (fun c => decide (c ≠ ' ')) with
    | nil =>
      rw [hd] at hlen2
      simp at hlen2
    | cons c rest =>
      rw [hd] at hlen2 ht
      simp only [List.length_cons] at hlen2
      have hone : (splitAux ' ' rest []).length = 1 := by omega
      obtain ⟨y, hy⟩ := List.length_eq_one.1 hone
      have h3 := splitAux_singleton ' ' rest [] y hy
      simp only [hy, hs, ht, List.drop_one, List.tail_cons]
      rw [h3]
      simp

/-- What the scheme check of the wrapper accepts, and the token it hands on. -/
theorem schemeCheck_iff (a tokenString : String) :
    schemeCheck a = some tokenString ↔
      a.data.count ' ' = 1 ∧ ToLower (beforeFirstSpace a) = "bearer" ∧
        tokenString = afterFirstSpace a := by
  unfold schemeCheck
  constructor
  · intro h
    split at h
    · rename_i scheme tok hs
      obtain ⟨hc, hsch, htok⟩ := (Split_two_iff a scheme tok).1 hs
      by_cases hb : ToLower scheme = "bearer"
      · rw [if_pos hb] at h
        cases h
        exact ⟨hc, hsch ▸ hb, htok⟩
      · rw [if_neg hb] at h
        cases h
    · cases h
  · rintro ⟨hc, hb, ht⟩
    have hs := (Split_two_iff a (beforeFirstSpace a) (afterFirstSpace a)).2 ⟨hc, rfl, rfl⟩
    rw [hs]
    simp [hb, ht]

theorem schemeCheck_of_split (a scheme tokenString : String)
    (hs : Split a ' ' = [scheme, tokenString]) (hb : ToLower scheme = "bearer") :
    schemeCheck a = some tokenString := by
  unfold schemeCheck
  rw [hs]
  simp [hb]

/-- The wrapper grants exactly under the grant condition. -/
theorem Granted_iff (lib : Libs) (auth : authInternal) (requiredScopes : List String)
    (protectedFunc : HandlerFunc) (w : ResponseWriter) (r : Request) :
    Granted protectedFunc w r (Protected lib auth requiredScopes protectedFunc w r) ↔
      GrantCondition lib auth requiredScopes r := by
  rcases Protected_cases lib auth requiredScopes protectedFunc w r with
    ⟨hc, hg⟩ | ⟨hc, hd⟩ | ⟨hc, hp, _⟩
  · exact ⟨fun _ => hc, fun _ => hg⟩
  · exact ⟨fun hg => absurd hg (Denied_not_Granted protectedFunc w r _ hd), fun h => absurd h hc⟩
  · refine ⟨fun hg => ?_, fun h => absurd h hc⟩
    rw [hp] at hg
    exact absurd hg.1 (by simp)

/-- C17, as stated, fails: the value `Bearer a b`, split at its first space, gives the
part `Bearer` and the rest `a b`, which the stand-in for `jwt.Parse` accepts as a
valid token; yet the scheme check of the wrapper refuses the value, because
`strings.Split` cuts at every space and gives three parts, and the request is
denied. -/
theorem C17_counterexample :
    ' ' ∈ ("Bearer a b").data ∧
    ToLower (beforeFirstSpace "Bearer a b") = "bearer" ∧
    afterFirstSpace "Bearer a b" = "a b" ∧
    (∃ token, spaceLibs.jwtParse "a b" (keyFunc loadedGate) = (some token, none) ∧
      token.Valid = true) ∧
    Split "Bearer a b" ' ' = ["Bearer", "a", "b"] ∧
    schemeCheck "Bearer a b" = none ∧
    Denied sampleWriter
      (Protected spaceLibs loadedGate [] sampleHandler sampleWriter
        (requestWith "Bearer a b")) :=
  ⟨by decide, by decide, by decide, ⟨_, rfl, rfl⟩, by decide, by decide, by decide, by decide⟩

/-- C17, amended. The scheme check of the wrapped handler passes exactly when the
Authorization value holds exactly one space and the part before it equals Bearer
ignoring letter case; the token handed to `jwt.Parse` is then everything after that
space. A value that the check refuses, one with a second space included, is
denied, and a grant is a grant for the text after the one space. -/
theorem C17_scheme_check (lib : Libs) (auth : authInternal) (requiredScopes : List String)
    (protectedFunc : HandlerFunc) (w : ResponseWriter) (r : Request) :
    (∀ tokenString, schemeCheck (r.Header.Get "authorization") = some tokenString ↔
      (r.Header.Get "authorization").data.count ' ' = 1 ∧
      ToLower (beforeFirstSpace (r.Header.Get "authorization")) = "bearer" ∧
      tokenString = afterFirstSpace (r.Header.Get "authorization")) ∧
    (schemeCheck (r.Header.Get "authorization") = none →
      Denied w (Protected lib auth requiredScopes protectedFunc w r)) ∧
    (Granted protectedFunc w r (Protected lib auth requiredScopes protectedFunc w r) ↔
      (∃ uaaKeys, auth.uaaKeys = some uaaKeys ∧ uaaKeys ≠ []) ∧
      (r.Header.Get "authorization").data.count ' ' = 1 ∧
      ToLower (beforeFirstSpace (r.Header.Get "authorization")) = "bearer" ∧
      ∃ token claims,
        lib.jwtParse (afterFirstSpace (r.Header.Get "authorization")) (keyFunc auth)
          = (some token, none) ∧
        token.Valid = true ∧
        token.Claims = Claims.MapClaims claims ∧
        ∀ s ∈ requiredScopes, s ∈ scopeSet lib claims) := by
  refine ⟨fun tokenString => schemeCheck_iff _ tokenString, fun hnone => ?_, ?_⟩
  · rcases Protected_cases lib auth requiredScopes protectedFunc w r with
      ⟨hc, _⟩ | ⟨_, hd⟩ | ⟨_, _, scheme, tokenString, hs, hb, _⟩
    · obtain ⟨_, scheme, tokenString, hs, hb, _⟩ := hc
      rw [schemeCheck_of_split _ scheme tokenString hs hb] at hnone
      cases hnone
    · exact hd
    · rw [schemeCheck_of_split _ scheme tokenString hs hb] at hnone
      cases hnone
  · rw [Granted_iff]
    unfold GrantCondition
    constructor
    · rintro ⟨hk, scheme, tokenString, hs, hb, token, claims, hp, hv, hcl, hall⟩
      obtain ⟨hc, hsch, htok⟩ := (Split_two_iff _ scheme tokenString).1 hs
      subst hsch htok
      exact ⟨hk, hc, hb, token, claims, hp, hv, hcl, hall⟩
    · rintro ⟨hk, hc, hb, token, claims, hp, hv, hcl, hall⟩
      exact ⟨hk, _, _, (Split_two_iff _ _ _).2 ⟨hc, rfl, rfl⟩, hb, token, claims, hp, hv, hcl,
        hall⟩

/-- C17, on an instance: the value `Bearer a b` is refused by the scheme check and
the request is denied. -/
theorem C17_scheme_check_witness :
    schemeCheck ((requestWith "Bearer a b").Header.Get "authorization") = none ∧
    Denied sampleWriter
      (Protected spaceLibs loadedGate [] sampleHandler sampleWriter
        (requestWith "Bearer a b")) :=
  ⟨by decide,
   (C17_scheme_check spaceLibs loadedGate [] sampleHandler sampleWriter
    (requestWith "Bearer a b")).2.1 (by decide)⟩

/-! ## Uninitialized and loaded but empty -/

theorem noKeys_denied (lib : Libs) (auth : authInternal) (requiredScopes : List String)
    (protectedFunc : HandlerFunc) (w : ResponseWriter) (r : Request)
    (h : auth.uaaKeys = none ∨ auth.uaaKeys = some []) :
    Denied w (Protected lib auth requiredScopes protectedFunc w r) := by
  rcases h with h | h <;>
    simp [Denied, Protected, protectedFlow, h, Run.effects, Event.isLog]

/-- C18. `New` leaves the key mapping `nil`. A load of a document whose decoded list
of keys is empty (the `keys` array empty or absent) returns no error and leaves a
mapping that is not `nil` and has no entry, so the two states differ; in both every
request is denied. -/
theorem C18_uninitialized_or_empty (lib : Libs) (auth : authInternal) (uaaURL data : String)
    (hload : auth.bodyLoader (uaaURL ++ "/token_keys") = (data, none))
    (hdoc : lib.jsonDecode data = Except.ok { Keys := [] }) :
    (LoadUaaKeys lib auth uaaURL).err = none ∧
    (LoadUaaKeys lib auth uaaURL).auth.uaaKeys = some [] ∧
    (∀ (http : BodyLoader) (loaders : List BodyLoader),
      (New http loaders).uaaKeys = none ∧
      (New http loaders).uaaKeys ≠ (LoadUaaKeys lib auth uaaURL).auth.uaaKeys) ∧
    (∀ (http : BodyLoader) (loaders : List BodyLoader) (requiredScopes : List String)
      (protectedFunc : HandlerFunc) (w : ResponseWriter) (r : Request),
      Denied w (Protected lib (New http loaders) requiredScopes protectedFunc w r) ∧
      Denied w
        (Protected lib (LoadUaaKeys lib auth uaaURL).auth requiredScopes protectedFunc w r)) := by
  have herr : (LoadUaaKeys lib auth uaaURL).err = none := by
    simp [LoadUaaKeys, hload, parseConfigString, hdoc, parseKeyItems]
  have hkeys : (LoadUaaKeys lib auth uaaURL).auth.uaaKeys = some [] := by
    simp [LoadUaaKeys, hload, parseConfigString, hdoc, parseKeyItems]
  have hnew : ∀ (http : BodyLoader) (loaders : List BodyLoader),
      (New http loaders).uaaKeys = none := by
    intro http loaders
    cases loaders <;> rfl
  refine ⟨herr, hkeys, fun http loaders => ⟨hnew http loaders, ?_⟩,
    fun http loaders requiredScopes protectedFunc w r =>
      ⟨noKeys_denied lib _ requiredScopes protectedFunc w r (Or.inl (hnew http loaders)),
       noKeys_denied lib _ requiredScopes protectedFunc w r (Or.inr hkeys)⟩⟩
  rw [hnew, hkeys]
  simp

/-- C18, on an instance: loading the document without keys leaves an empty mapping,
not a `nil` one. -/
theorem C18_uninitialized_or_empty_witness :
    (LoadUaaKeys sampleLibs (New urlLoader [urlLoader]) "http://none").err = none ∧
    (LoadUaaKeys sampleLibs (New urlLoader [urlLoader]) "http://none").auth.uaaKeys = some [] :=
  ⟨(C18_uninitialized_or_empty sampleLibs (New urlLoader [urlLoader]) "http://none" "no keys"
      (by decide) (by rfl)).1,
   (C18_uninitialized_or_empty sampleLibs (New urlLoader [urlLoader]) "http://none" "no keys"
      (by decide) (by rfl)).2.1⟩

/-! ## The UAA helper -/

/-- The ways a call of `IsValidToken` ends, with the request it sent, if any. -/
theorem IsValidToken_cases (net : NetLibs) (u : UaaHelper) (token : String) :
    ((token = "" ∨ net.urlError u.address ≠ none) ∧
      (u.IsValidToken net token).value = (false, some Errors.ErrBadRequest) ∧
      (u.IsValidToken net token).sent = []) ∨
    (token ≠ "" ∧ ∃ req, (u.IsValidToken net token).sent = [req] ∧
      ((∃ e, net.Do req = Except.error e) ∨
        (∃ resp, net.Do req = Except.ok resp ∧ resp.StatusCode ≠ 200)) ∧
      (u.IsValidToken net token).value = (false, some Errors.ErrUnauthorized)) ∨
    (token ≠ "" ∧ ∃ req resp, (u.IsValidToken net token).sent = [req] ∧
      net.Do req = Except.ok resp ∧ resp.StatusCode = 200 ∧
      (u.IsValidToken net token).value = (true, some {})) := by
  unfold UaaHelper.IsValidToken NewRequest
  by_cases ht : token = ""
  · exact Or.inl ⟨Or.inl ht, by simp [ht], by simp [ht]⟩
  · cases hu : net.urlError u.address with
    | some e =>
      exact Or.inl ⟨Or.inr (by simp), by simp [ht], by simp [ht]⟩
    | none =>
      simp only [ht, if_false]
      cases hd : net.Do
          (({ Method := "POST", URL := u.address, Body := "token=" ++ token } : OutRequest).Add
            "Authorization" ("Basic " ++ u.clientSecret) |>.Add "Content-Type"
            "application/x-www-form-urlencoded") with
      | error e =>
        exact Or.inr (Or.inl ⟨ht, _, rfl, Or.inl ⟨e, hd⟩, rfl⟩)
      | ok resp =>
        by_cases hs : resp.StatusCode = 200
        · refine Or.inr (Or.inr ⟨ht, _, resp, ?_, hd, hs, ?_⟩)
          · simp [hs]
          · simp [hs]
        · refine Or.inr (Or.inl ⟨ht, _, ?_, Or.inr ⟨resp, hd, hs⟩, ?_⟩)
          · simp only [hs, ne_eq, not_false_eq_true, if_true]
            split <;> rfl
          · simp only [hs, ne_eq, not_false_eq_true, if_true]
            split <;> rfl

/-- C22. `IsValidToken` never returns a `nil` error pointer. For an empty token it
returns false with `ErrBadRequest` and sends no request; when the request it sent
is answered with status 200 it returns true with an `Error` whose fields are all
zero; for a transport failure or any other status it returns false with
`ErrUnauthorized`. So the token is reported valid exactly when the `Error` returned
is the zero one. -/
theorem C22_valid_token_zero_error (net : NetLibs) (u : UaaHelper) (token : String) :
    (u.IsValidToken net token).value.2 ≠ none ∧
    (token = "" →
      (u.IsValidToken net token).value = (false, some Errors.ErrBadRequest) ∧
      (u.IsValidToken net token).sent = []) ∧
    (∀ req resp, (u.IsValidToken net token).sent = [req] → net.Do req = Except.ok resp →
      resp.StatusCode = 200 →
      (u.IsValidToken net token).value
        = (true, some { Typ := "", Id := "", Status := 0, Description := "" })) ∧
    (∀ req, (u.IsValidToken net token).sent = [req] →
      ((∃ e, net.Do req = Except.error e) ∨
        (∃ resp, net.Do req = Except.ok resp ∧ resp.StatusCode ≠ 200)) →
      (u.IsValidToken net token).value = (false, some Errors.ErrUnauthorized)) ∧
    ((u.IsValidToken net token).value.1 = true ↔
      (u.IsValidToken net token).value.2
        = some { Typ := "", Id := "", Status := 0, Description := "" }) := by
  rcases IsValidToken_cases net u token with
    ⟨hwhy, hv, hs⟩ | ⟨ht, req, hs, hwhy, hv⟩ | ⟨ht, req, resp, hs, hd, hok, hv⟩
  · refine ⟨by rw [hv]; simp, fun _ => ⟨hv, hs⟩, ?_, ?_, ?_⟩
    · intro req resp hsent
      rw [hs] at hsent
      cases hsent
    · intro req hsent
      rw [hs] at hsent
      cases hsent
    · rw [hv]
      simp only [Bool.false_eq_true, false_iff]
      decide
  · refine ⟨by rw [hv]; simp, fun h => absurd h ht, ?_, fun _ _ _ => hv, ?_⟩
    · intro req' resp hsent hdo hok
      rw [hs] at hsent
      cases hsent
      rcases hwhy with ⟨e, he⟩ | ⟨resp', hr, hne⟩
      · rw [he] at hdo
        cases hdo
      · rw [hr] at hdo
        cases hdo
        exact absurd hok hne
    · rw [hv]
      simp only [Bool.false_eq_true, false_iff]
      decide
  · refine ⟨by rw [hv]; simp, fun h => absurd h ht, fun _ _ _ _ _ => hv, ?_, ?_⟩
    · intro req' hsent hwhy
      rw [hs] at hsent
      cases hsent
      rcases hwhy with ⟨e, he⟩ | ⟨resp', hr, hne⟩
      · rw [he] at hd
        cases hd
      · rw [hr] at hd
        cases hd
        exact absurd hok hne
    · rw [hv]
      simp

/-- C22, on an instance: the endpoint answers 200 to the token `good`, and the helper
returns true with the zero `Error`; for the empty token it sends nothing. -/
theorem C22_valid_token_zero_error_witness :
    ((NewUaaHelper "http://uaa" "" "secret").IsValidToken sampleNet "good").value
      = (true, some { Typ := "", Id := "", Status := 0, Description := "" }) ∧
    ((NewUaaHelper "http://uaa" "" "secret").IsValidToken sampleNet "").sent = [] :=
  ⟨(C22_valid_token_zero_error sampleNet (NewUaaHelper "http://uaa" "" "secret") "good").2.2.1
      { Method := "POST", URL := "http://uaa", Body := "token=good",
        Header := [("Authorization", "Basic secret"),
                   ("Content-Type", "application/x-www-form-urlencoded")] }
      { StatusCode := 200 } (by decide) (by rfl) rfl,
   ((C22_valid_token_zero_error sampleNet (NewUaaHelper "http://uaa" "" "secret") "").2.1 rfl).2⟩

/-- C26. `GetBearerToken` never returns an error: it returns the access token of what
`GetTokenResponse` returned, with a `nil` error. When `GetTokenResponse` fails, what
it returned is the zero response, whose access token is the empty string, or what
the second `json.Unmarshal` left in the response before it failed. -/
theorem C26_bearer_token_no_error (net : NetLibs) (u : UaaHelper) :
    (u.GetBearerToken net).value
      = ((u.GetTokenResponse net).value.1.AccessToken, none) ∧
    (u.GetBearerToken net).sent = (u.GetTokenResponse net).sent ∧
    (∀ e, (u.GetTokenResponse net).value.2 = some e →
      ((u.GetTokenResponse net).value.1 = {} ∧ (u.GetBearerToken net).value = ("", none)) ∨
      (∃ body, (u.GetTokenResponse net).value = net.UnmarshalToken body ∧
        (u.GetBearerToken net).value = ((net.UnmarshalToken body).1.AccessToken, none))) := by
  have hval : (u.GetBearerToken net).value
      = ((u.GetTokenResponse net).value.1.AccessToken, none) := by
    unfold UaaHelper.GetBearerToken
    rfl
  refine ⟨hval, by unfold UaaHelper.GetBearerToken; rfl, fun e he => ?_⟩
  rw [hval]
  revert he
  unfold UaaHelper.GetTokenResponse
  simp only
  split
  · intro _
    exact Or.inl ⟨rfl, rfl⟩
  · split
    · intro _
      exact Or.inl ⟨rfl, rfl⟩
    · split
      · intro _
        exact Or.inl ⟨rfl, rfl⟩
      · split
        · intro _
          exact Or.inl ⟨rfl, rfl⟩
        · split
          · intro _
            exact Or.inl ⟨rfl, rfl⟩
          · split
            · rename_i halfDecoded err hum
              intro _
              exact Or.inr ⟨_, hum.symm, by rw [hum]⟩
            · intro he
              cases he

/-- C26, on an instance: the token endpoint is down, `GetTokenResponse` returns the
transport error, and `GetBearerToken` returns the empty token with no error. -/
theorem C26_bearer_token_no_error_witness :
    ((NewUaaHelper "http://down" "id" "secret").GetTokenResponse
      { sampleNet with Do := fun _ => Except.error ⟨"connection refused"⟩ }).value.2
      = some ⟨"connection refused"⟩ ∧
    ((NewUaaHelper "http://down" "id" "secret").GetBearerToken
      { sampleNet with Do := fun _ => Except.error ⟨"connection refused"⟩ }).value
      = ("", none) := by
  have h := (C26_bearer_token_no_error
    { sampleNet with Do := fun _ => Except.error ⟨"connection refused"⟩ }
    (NewUaaHelper "http://down" "id" "secret")).1
  exact ⟨by decide, by rw [h]; decide⟩

/-! ## The basic authenticator -/

/-- C23. The handler returned by `Wrap` calls the wrapped handler exactly once, and
does nothing else to the response, if and only if the request carries Basic
credentials whose user name and password both equal the configured ones. Otherwise
it does not call the handler and writes status 401; it sets the field
WWW-Authenticate when the request carries no well-formed Basic credentials, and not
when the credentials are wrong. -/
theorem C23_basic_auth_wrap (net : NetLibs) (ba : BasicAuthenticator) (handler : HandlerFunc)
    (w : ResponseWriter) (r : Request) :
    (Granted handler w r (ba.Wrap net handler w r) ↔
      net.BasicAuth r = (ba.username, ba.password, true)) ∧
    ((net.BasicAuth r).2.2 = false →
      (ba.Wrap net handler w r).panicked = false ∧
      (ba.Wrap net handler w r).effects
        = [Event.SetHeader w "WWW-Authenticate" "Basic realm=Authorization Required",
           Event.WriteHeader w StatusUnauthorized]) ∧
    ((net.BasicAuth r).2.2 = true → net.BasicAuth r ≠ (ba.username, ba.password, true) →
      (ba.Wrap net handler w r).panicked = false ∧
      (ba.Wrap net handler w r).effects = [Event.WriteHeader w StatusUnauthorized]) := by
  rcases hb : net.BasicAuth r with ⟨username, password, ok⟩
  cases ok with
  | false =>
    simp [Granted, BasicAuthenticator.Wrap, hb, Run.effects, Event.isLog]
  | true =>
    by_cases hu : username = ba.username
    · by_cases hp : password = ba.password
      · simp [Granted, BasicAuthenticator.Wrap, hb, hu, hp, Run.effects, Event.isLog]
      · simp [Granted, BasicAuthenticator.Wrap, hb, hu, hp, Run.effects, Event.isLog]
    · simp [Granted, BasicAuthenticator.Wrap, hb, hu, Run.effects, Event.isLog]

/-- C23, on an instance: wrong credentials get status 401 without the field
WWW-Authenticate, and the handler is not called. -/
theorem C23_basic_auth_wrap_witness :
    (sampleNet.BasicAuth { Header := [("Authorization", ["Basic admin:wrong"])] }).2.2 = true ∧
    (BasicAuthenticator.Wrap sampleNet { username := "admin", password := "secret" }
      sampleHandler sampleWriter { Header := [("Authorization", ["Basic admin:wrong"])] }).effects
      = [Event.WriteHeader sampleWriter StatusUnauthorized] :=
  ⟨by decide,
   ((C23_basic_auth_wrap sampleNet { username := "admin", password := "secret" } sampleHandler
      sampleWriter { Header := [("Authorization", ["Basic admin:wrong"])] }).2.2
      (by decide) (by decide)).2⟩

end Uaa

namespace Errors

/-! ## Package `errors`: the error constructors -/

/-- C20. For every message `m`, `HandleError(m)` returns an error that is not `nil`
and whose `Error()` text is exactly `m`, having logged that text, and `NewError(m)`
returns such an error too. -/
theorem C20_error_text (m : String) :
    (∃ e, (HandleError m).err = some e ∧ e.Error = m) ∧
    (HandleError m).logged = [m] ∧
    (∃ e, NewError m = some e ∧ e.Error = m) :=
  ⟨⟨stdNew m, rfl, rfl⟩, rfl, ⟨stdNew m, rfl, rfl⟩⟩

end Errors

namespace Handler

open Uaa

/-! ## Package `handler`: the chain of wrappers -/

theorem HandlerFuncChain_nil {α : Type} (f : α) (spare : List (Option (α → α))) :
    HandlerFuncChain f { elems := [], spare := spare } = some f := by
  rw [HandlerFuncChain]

theorem HandlerFuncChain_cons {α : Type} (f : α) (h0 : Option (α → α))
    (rest spare : List (Option (α → α))) :
    HandlerFuncChain f { elems := h0 :: rest, spare := spare }
      = match HandlerFuncChain f { elems := rest ++ spare, spare := [] } with
        | none => none
        | some inner =>
          match h0 with
          | none => none
          | some wrap => some (wrap inner) := by
  rw [HandlerFuncChain]
  simp only [GoSlice.fromOneToCap, List.tail_cons]
  cases HandlerFuncChain f { elems := rest ++ spare, spare := [] } <;> cases h0 <;> rfl

/-- On a slice whose capacity is its length, and whose entries are functions, the
chain is the nesting of the wrappers, the first one outermost. -/
theorem HandlerFuncChain_full {α : Type} (f : α) (ws : List (α → α)) :
    HandlerFuncChain f { elems := ws.map some, spare := [] }
      = some (ws.foldr (fun wrap inner => wrap inner) f) := by
  induction ws with
  | nil => exact HandlerFuncChain_nil f []
  | cons w rest ih =>
    rw [List.map_cons, HandlerFuncChain_cons, List.append_nil, ih]
    rfl

/-- C21. The claim holds for a chain whose capacity is its length, and an empty chain
gives `f` whatever its capacity; it fails for a chain that is not empty and whose
capacity exceeds its length. The recursive call is made on `h[1:cap(h)]`, so the
entries of the array beyond the length are applied as well, innermost, and a `nil`
entry there makes the call panic: with the wrappers `addOne` in the chain and
`double` beyond its length the result on 1 is 3, not 2. -/
theorem C21_chain_reads_to_capacity (α : Type) (f : α) (w g : α → α)
    (ws extra : List (α → α)) :
    HandlerFuncChain f { elems := ws.map some, spare := [] }
      = some (ws.foldr (fun wrap inner => wrap inner) f) ∧
    (∀ spare, HandlerFuncChain f { elems := [], spare := spare } = some f) ∧
    HandlerFuncChain f { elems := (w :: ws).map some, spare := extra.map some }
      = some ((w :: ws ++ extra).foldr (fun wrap inner => wrap inner) f) ∧
    HandlerFuncChain f { elems := [some w], spare := [some g] } = some (w (g f)) ∧
    HandlerFuncChain f { elems := [some w], spare := [none] } = none ∧
    HandlerFuncChain 1 { elems := [some addOne], spare := [some double] } = some 3 ∧
    addOne 1 = 2 := by
  have hspare : HandlerFuncChain f { elems := (w :: ws).map some, spare := extra.map some }
      = some ((w :: ws ++ extra).foldr (fun wrap inner => wrap inner) f) := by
    rw [List.map_cons, HandlerFuncChain_cons, ← List.map_append, HandlerFuncChain_full]
    rfl
  have hone : ∀ (β : Type) (b : β) (u v : β → β),
      HandlerFuncChain b { elems := [some u], spare := [some v] } = some (u (v b)) := by
    intro β b u v
    rw [HandlerFuncChain_cons]
    have h := HandlerFuncChain_full b [v]
    simp only [List.map_cons, List.map_nil, List.foldr_cons, List.foldr_nil] at h
    simp only [List.nil_append, h]
  refine ⟨HandlerFuncChain_full f ws, HandlerFuncChain_nil f, hspare, hone α f w g, ?_,
    hone Nat 1 addOne double, rfl⟩
  rw [HandlerFuncChain_cons, List.nil_append, HandlerFuncChain_cons, List.nil_append,
    HandlerFuncChain_nil]

/-! ## Package `handler`: the content type -/

/-- The loop of `HasContentType` answers true exactly when an entry has the media type
and every entry before it parses. -/
theorem hasContentTypeLoop_iff (net : NetLibs) (mimeType : String) (entries : List String) :
    hasContentTypeLoop net mimeType entries = true ↔
      ∃ pre v post, entries = pre ++ v :: post ∧
        net.ParseMediaType v = Except.ok mimeType ∧
        ∀ x ∈ pre, ∃ t, net.ParseMediaType x = Except.ok t := by
  induction entries with
  | nil =>
    simp only [hasContentTypeLoop, Bool.false_eq_true, false_iff]
    rintro ⟨pre, v, post, h, _⟩
    cases pre <;> cases h
  | cons e rest ih =>
    unfold hasContentTypeLoop
    cases hp : net.ParseMediaType e with
    | error err =>
      simp only [Bool.false_eq_true, false_iff]
      rintro ⟨pre, v, post, h, hv, hpre⟩
      cases pre with
      | nil =>
        simp only [List.nil_append, List.cons.injEq] at h
        rw [← h.1, hp] at hv
        cases hv
      | cons p pre' =>
        simp only [List.cons_append, List.cons.injEq] at h
        obtain ⟨t, ht⟩ := hpre p (List.mem_cons_self _ _)
        rw [← h.1, hp] at ht
        cases ht
    | ok t =>
      by_cases ht : t = mimeType
      · subst ht
        simp only [if_true, true_iff]
        exact ⟨[], e, rest, rfl, hp, fun x hx => absurd hx (List.not_mem_nil x)⟩
      · simp only [ht, if_false]
        rw [ih]
        constructor
        · rintro ⟨pre, v, post, h, hv, hpre⟩
          refine ⟨e :: pre, v, post, by rw [h]; rfl, hv, fun x hx => ?_⟩
          rcases List.mem_cons.1 hx with hx | hx
          · exact ⟨t, hx ▸ hp⟩
          · exact hpre x hx
        · rintro ⟨pre, v, post, h, hv, hpre⟩
          cases pre with
          | nil =>
            simp only [List.nil_append, List.cons.injEq] at h
            rw [← h.1, hp] at hv
            exact absurd (Except.ok.inj hv) ht
          | cons p pre' =>
            simp only [List.cons_append, List.cons.injEq] at h
            exact ⟨pre', v, post, h.2, hv, fun x hx => hpre x (List.mem_cons_of_mem _ hx)⟩

/-- C24, as stated, fails: the Content-Type value `,application/json` lists the entry
`application/json`, whose media type is `application/json`, yet `HasContentType`
answers false, because the empty entry before it does not parse and the loop stops
there. -/
theorem C24_counterexample :
    Split ((({ Header := [("Content-Type", [",application/json"])] } : Request).Header.Get
      ContentTypeHeader)) ',' = ["", "application/json"] ∧
    sampleNet.ParseMediaType "application/json" = Except.ok "application/json" ∧
    HasContentType sampleNet { Header := [("Content-Type", [",application/json"])] }
      "application/json" = false :=
  ⟨by decide, by rfl, by decide⟩

/-- C24, amended. For a request with a Content-Type header, `HasContentType(r, m)`
returns true exactly when one of the comma-separated entries has media type `m` and
every entry before it parses; it returns false when no entry has media type `m`,
and when all entries parse it returns true exactly when one of them has media type
`m`. For a request with no Content-Type header it returns true exactly when `m` is
the constant `JsonMediaType`. -/
theorem C24_has_content_type (net : NetLibs) (r : Request) (m : String) :
    (r.Header.Get ContentTypeHeader = "" →
      (HasContentType net r m = true ↔ m = JsonMediaType)) ∧
    (r.Header.Get ContentTypeHeader ≠ "" →
      (HasContentType net r m = true ↔
        ∃ pre v post, Split (r.Header.Get ContentTypeHeader) ',' = pre ++ v :: post ∧
          net.ParseMediaType v = Except.ok m ∧
          ∀ x ∈ pre, ∃ t, net.ParseMediaType x = Except.ok t) ∧
      ((∀ v ∈ Split (r.Header.Get ContentTypeHeader) ',',
          net.ParseMediaType v ≠ Except.ok m) → HasContentType net r m = false) ∧
      ((∀ v ∈ Split (r.Header.Get ContentTypeHeader) ',',
          ∃ t, net.ParseMediaType v = Except.ok t) →
        (HasContentType net r m = true ↔
          ∃ v ∈ Split (r.Header.Get ContentTypeHeader) ',',
            net.ParseMediaType v = Except.ok m))) := by
  refine ⟨fun hct => ?_, fun hct => ?_⟩
  · simp [HasContentType, hct]
  · have hloop : HasContentType net r m
        = hasContentTypeLoop net m (Split (r.Header.Get ContentTypeHeader) ',') := by
      simp [HasContentType, hct]
    rw [hloop]
    have hiff := hasContentTypeLoop_iff net m (Split (r.Header.Get ContentTypeHeader) ',')
    refine ⟨hiff, fun hnone => ?_, fun hall => ?_⟩
    · cases hb : hasContentTypeLoop net m (Split (r.Header.Get ContentTypeHeader) ',') with
      | false => rfl
      | true =>
        obtain ⟨pre, v, post, h, hv, _⟩ := hiff.1 hb
        exact absurd hv (hnone v (by rw [h]; simp))
    · rw [hiff]
      constructor
      · rintro ⟨pre, v, post, h, hv, _⟩
        exact ⟨v, by rw [h]; simp, hv⟩
      · rintro ⟨v, hv, hm⟩
        obtain ⟨pre, post, h⟩ := List.append_of_mem hv
        exact ⟨pre, v, post, h, hm, fun x hx => hall x (by rw [h]; simp [hx])⟩

/-- C24, on an instance: the value `text/html,application/json` has the media type
`application/json` in its second entry, after an entry that parses. -/
theorem C24_has_content_type_witness :
    (({ Header := [("Content-Type", ["text/html,application/json"])] } : Request).Header.Get
      ContentTypeHeader) ≠ "" ∧
    HasContentType sampleNet { Header := [("Content-Type", ["text/html,application/json"])] }
      "application/json" = true :=
  ⟨by decide,
   ((C24_has_content_type sampleNet
      { Header := [("Content-Type", ["text/html,application/json"])] } "application/json").2
      (by decide)).1.2
      ⟨["text/html"], "application/json", [], by decide, by rfl,
        fun x hx => ⟨"text/html", by rw [List.mem_singleton.1 hx]; rfl⟩⟩⟩

/-! ## Package `handler`: access control -/

/-- C25. The handler returned by `AccessControlHandler` sets the three
Access-Control fields first on every request. It calls the wrapped handler exactly
when the method is not OPTIONS and the setting TOKEN_VALIDATION is not `true`. For
OPTIONS it returns right after the three fields. With TOKEN_VALIDATION `true` it
never calls the wrapped handler: for a token that `IsValidToken` accepts it returns
after the three fields, and for a token that is rejected it writes the status and
the body of the error, and nothing in any other case. -/
theorem C25_access_control (net : NetLibs) (h : HandlerFunc) (w : ResponseWriter) (r : Request) :
    (∃ rest, (AccessControlHandler net h w r).events = accessControlHeaders w ++ rest) ∧
    (Event.call h w r ∈ (AccessControlHandler net h w r).events ↔
      r.Method ≠ "OPTIONS" ∧ net.Getenv "TOKEN_VALIDATION" ≠ "true") ∧
    (r.Method ≠ "OPTIONS" → net.Getenv "TOKEN_VALIDATION" ≠ "true" →
      AccessControlHandler net h w r
        = { events := accessControlHeaders w ++ [Event.call h w r], panicked := false }) ∧
    (r.Method = "OPTIONS" →
      AccessControlHandler net h w r
        = { events := accessControlHeaders w, panicked := false }) ∧
    (r.Method ≠ "OPTIONS" → net.Getenv "TOKEN_VALIDATION" = "true" →
      ((NewUaaHelper (net.Getenv "TOKEN_VALIDATION_URL") ""
          (net.Getenv "Client_Credentials")).IsValidToken net
          (r.Header.Get "Authorization")).value.1 = true →
      AccessControlHandler net h w r
        = { events := accessControlHeaders w, panicked := false }) ∧
    (r.Method ≠ "OPTIONS" → net.Getenv "TOKEN_VALIDATION" = "true" →
      ∀ errResponse,
        ((NewUaaHelper (net.Getenv "TOKEN_VALIDATION_URL") ""
          (net.Getenv "Client_Credentials")).IsValidToken net
          (r.Header.Get "Authorization")).value = (false, some errResponse) →
        AccessControlHandler net h w r
          = { events := accessControlHeaders w ++
                [Event.WriteHeader w errResponse.Status.toNat,
                 Event.Write w (net.Marshal errResponse)],
              panicked := false }) := by
  have hnocall : Event.call h w r ∉ accessControlHeaders w := by
    simp [accessControlHeaders]
  by_cases hm : r.Method = "OPTIONS"
  · have hrun : AccessControlHandler net h w r
        = { events := accessControlHeaders w, panicked := false } := by
      simp [AccessControlHandler, hm]
    refine ⟨⟨[], by rw [hrun]; simp⟩, ?_, fun hne => absurd hm hne, fun _ => hrun,
      fun hne => absurd hm hne, fun hne => absurd hm hne⟩
    rw [hrun]
    exact ⟨fun hin => absurd hin hnocall, fun hc => absurd hm hc.1⟩
  · by_cases he : net.Getenv "TOKEN_VALIDATION" = "true"
    · rcases hv : ((NewUaaHelper (net.Getenv "TOKEN_VALIDATION_URL") ""
          (net.Getenv "Client_Credentials")).IsValidToken net
          (r.Header.Get "Authorization")).value with ⟨isValid, errResponse⟩
      cases isValid with
      | true =>
        have hrun : AccessControlHandler net h w r
            = { events := accessControlHeaders w, panicked := false } := by
          simp [AccessControlHandler, hm, he, hv]
        refine ⟨⟨[], by rw [hrun]; simp⟩, ?_, fun _ hne => absurd he hne,
          fun hmo => absurd hmo hm, fun _ _ _ => hrun, fun _ _ e hfalse => ?_⟩
        · rw [hrun]
          exact ⟨fun hin => absurd hin hnocall, fun hc => absurd he hc.2⟩
        · cases hfalse
      | false =>
        cases errResponse with
        | none =>
          have hrun : AccessControlHandler net h w r
              = { events := accessControlHeaders w, panicked := true } := by
            simp [AccessControlHandler, hm, he, hv]
          refine ⟨⟨[], by rw [hrun]; simp⟩, ?_, fun _ hne => absurd he hne,
            fun hmo => absurd hmo hm, fun _ _ htrue => ?_, fun _ _ e hfalse => ?_⟩
          · rw [hrun]
            exact ⟨fun hin => absurd hin hnocall, fun hc => absurd he hc.2⟩
          · cases htrue
          · cases hfalse
        | some errValue =>
          have hrun : AccessControlHandler net h w r
              = { events := accessControlHeaders w ++
                    [Event.WriteHeader w errValue.Status.toNat,
                     Event.Write w (net.Marshal errValue)],
                  panicked := false } := by
            simp [AccessControlHandler, hm, he, hv]
          refine ⟨⟨_, by rw [hrun]⟩, ?_, fun _ hne => absurd he hne,
            fun hmo => absurd hmo hm, fun _ _ htrue => ?_, fun _ _ e hfalse => ?_⟩
          · rw [hrun]
            refine ⟨fun hin => ?_, fun hc => absurd he hc.2⟩
            simp [accessControlHeaders] at hin
          · cases htrue
          · cases hfalse
            exact hrun
    · have hrun : AccessControlHandler net h w r
          = { events := accessControlHeaders w ++ [Event.call h w r], panicked := false } := by
        simp [AccessControlHandler, hm, he]
      refine ⟨⟨_, by rw [hrun]⟩, ?_, fun _ _ => hrun, fun hmo => absurd hmo hm,
        fun _ heq => absurd heq he, fun _ heq => absurd heq he⟩
      rw [hrun]
      exact ⟨fun _ => ⟨hm, he⟩, fun _ => by simp⟩

/-- C25, on an instance: with token validation switched on, a request whose token the
endpoint accepts gets the three fields and the wrapped handler is not called. -/
theorem C25_access_control_witness :
    sampleNet.Getenv "TOKEN_VALIDATION" = "true" ∧
    ((NewUaaHelper (sampleNet.Getenv "TOKEN_VALIDATION_URL") ""
      (sampleNet.Getenv "Client_Credentials")).IsValidToken sampleNet
      (({ Header := [("Authorization", ["good"])] } : Request).Header.Get "Authorization")).value.1
      = true ∧
    AccessControlHandler sampleNet sampleHandler sampleWriter
      { Header := [("Authorization", ["good"])] }
      = { events := accessControlHeaders sampleWriter, panicked := false } :=
  ⟨by decide, by decide,
   (C25_access_control sampleNet sampleHandler sampleWriter
      { Header := [("Authorization", ["good"])] }).2.2.2.2.1 (by decide) (by decide) (by decide)⟩

end Handler
